import Mathlib

/-!
# A verification model of the spreadsheet engine (cell.cpp, sheet.cpp, formula.cpp)

The C++ objects are embedded as plain data.

* A `Cell*` is the position of the `cell_index_` node it points to: nodes of a
  `std::unordered_map` never move, so while a node lives its address and its key
  determine each other.  `nullptr` is `none`.  A pointer whose position holds no node
  is dangling; dereferencing it is undefined behaviour and is reported as
  `Exception.DanglingPointer`.
* A `std::set` is a duplicate-free list, `std::unordered_map` an association list with
  unique keys.
* A function that can throw returns the exception (or the undefined behaviour it ran
  into) together with the sheet as it stands at that moment, so that what a failed call
  leaves behind can be inspected.
* `double` is represented by the rationals: rounding and overflow are outside the model,
  the only non-finite result is a division by zero.
-/

namespace Spreadsheet

/-! ## Strings (std::string) -/

/-- The character `s[i]`; reading at `size()` gives the terminating NUL. -/
def charAt (s : String) (i : Nat) : Char := s.data.getD i (Char.ofNat 0)

/-- The suffix `s.substr(i)`. -/
def substr (s : String) (i : Nat) : String := String.mk (s.data.drop i)

/-- The test `s.empty()`. -/
def strEmpty (s : String) : Bool := s.data.isEmpty

/-! ## common.h: positions, errors, values -/

/-- A grid coordinate `Position{row, col}`. -/
structure Position where
  row : Int
  col : Int
deriving DecidableEq, Repr

/-- Modelled from the spec: common.h is not among the sources; the formula sign is `=`. -/
def FORMULA_SIGN : Char := '='

/-- Modelled from the spec: common.h is not among the sources; the escape sign is the
apostrophe. -/
def ESCAPE_SIGN : Char := Char.ofNat 39

namespace FormulaError

/-- The categories of `FormulaError`. -/
inductive Category where
  | Ref
  | Value
  | Div0
deriving DecidableEq, Repr

end FormulaError

/-- A `FormulaError` object: a category with its converting constructor. -/
structure FormulaError where
  category : FormulaError.Category
deriving DecidableEq, Repr

/-- The type `FormulaInterface::Value = std::variant<double, FormulaError>`. -/
inductive FormulaValue where
  | number (d : Rat)
  | error (e : FormulaError)
deriving DecidableEq

/-- The type `CellInterface::Value = std::variant<std::string, double, FormulaError>`. -/
inductive CellValue where
  | text (s : String)
  | number (d : Rat)
  | error (e : FormulaError)
deriving DecidableEq

/-- The size `Size{rows, cols}`. -/
structure Size where
  rows : Int
  cols : Int
deriving DecidableEq, Repr

/-- What a call can end with instead of returning: one of the three exception classes of
the interface, a thrown `FormulaError` object, a thrown bare `FormulaError::Category`
value, or undefined behaviour (a null or dangling pointer dereferenced, `back()` of an
empty vector, a variant or optional read for what it does not hold, unbounded
recursion).  `OutOfFuel` is the model running out of loop
budget. -/
inductive Exception where
  | InvalidPositionException
  | FormulaException
  | CircularDependencyException
  | ThrownFormulaError (e : FormulaError)
  | ThrownCategory (c : FormulaError.Category)
  | NullPointer
  | DanglingPointer
  | EmptyVector
  | BadAccess
  | StackOverflow
  | OutOfFuel
deriving DecidableEq, Repr

/-! ## FormulaAST.h: the expression tree -/

/-- The four binary operators of the formula grammar. -/
inductive BinaryOp where
  | Add
  | Sub
  | Mul
  | Div
deriving DecidableEq, Repr

/-- Modelled from the spec: FormulaAST.h is not among the sources; the tree has numeric
literals, cell references, unary plus and minus, and the four binary operators. -/
inductive FormulaAST where
  | Number (value : Rat)
  | CellRef (pos : Position)
  | UnaryOp (minus : Bool) (operand : FormulaAST)
  | BinaryOp (op : BinaryOp) (lhs : FormulaAST) (rhs : FormulaAST)
deriving DecidableEq

/-- The parts of the repository that the three source files call but that live in
common.h, structures.cpp and FormulaAST.cpp: the grid bounds, the parser and the
printer of expression trees.  They are taken as parameters. -/
structure Lib where
  MAX_ROWS : Int
  MAX_COLS : Int
  ParseFormulaAST : String → Option FormulaAST
  PrintFormula : FormulaAST → String

/-- Modelled from the spec: `Position::IsValid` is declared in common.h; a position is
valid when row and column lie in `[0, MAX_ROWS)` and `[0, MAX_COLS)`. -/
def Position.IsValid (L : Lib) (p : Position) : Bool :=
  decide (0 ≤ p.row) && decide (0 ≤ p.col) && decide (p.row < L.MAX_ROWS) &&
    decide (p.col < L.MAX_COLS)

/-- Modelled from the spec: the invalid sentinel `Position::NONE`. -/
def Position.NONE : Position := ⟨-1, -1⟩

/-- Modelled from the spec: `operator<` of `Position` is declared in common.h; positions
are ordered row-major. -/
def Position.lt (a b : Position) : Bool :=
  decide (a.row < b.row) || (decide (a.row = b.row) && decide (a.col < b.col))

/-- The value of a run of column letters in base 26 without a zero digit, plus one
(`A` is 1, `Z` is 26, `AA` is 27). -/
def Position.lettersValue (cs : List Char) : Nat :=
  cs.foldl (fun acc c => acc * 26 + (c.toNat - 'A'.toNat + 1)) 0

/-- The value of a run of decimal digits. -/
def digitsValue (cs : List Char) : Nat :=
  cs.foldl (fun acc c => acc * 10 + (c.toNat - '0'.toNat)) 0

/-- Modelled from the spec: `Position::FromString` lives in structures.cpp; it reads
column letters followed by 1-based row digits and gives the invalid sentinel on any
malformed or out-of-range input. -/
def Position.FromString (L : Lib) (s : String) : Position :=
  let letters := s.data.takeWhile Char.isUpper
  let digits := s.data.dropWhile Char.isUpper
  if letters.isEmpty || digits.isEmpty || !digits.all Char.isDigit then Position.NONE
  else
    let p : Position :=
      ⟨(digitsValue digits : Int) - 1, (Position.lettersValue letters : Int) - 1⟩
    if p.IsValid L then p else Position.NONE

/-- Modelled from the spec: `FormulaAST::GetCells` lives in FormulaAST.cpp; it lists the
positions referenced in the tree, with repetitions. -/
def FormulaAST.GetCells : FormulaAST → List Position
  | .Number _ => []
  | .CellRef p => [p]
  | .UnaryOp _ e => e.GetCells
  | .BinaryOp _ l r => l.GetCells ++ r.GetCells

/-! ## Containers -/

/-- The lookup `m.find(k)` of a `std::unordered_map`. -/
def Map.find? {κ ν : Type} [DecidableEq κ] : List (κ × ν) → κ → Option ν
  | [], _ => none
  | (k1, v) :: m, k => if k1 = k then some v else Map.find? m k

/-- The removal `m.erase(k)`. -/
def Map.erase {κ ν : Type} [DecidableEq κ] (m : List (κ × ν)) (k : κ) : List (κ × ν) :=
  m.filter (fun e => !decide (e.1 = k))

/-- The store `m[k] = v`: the entry of `k` is replaced in place, or created. -/
def Map.set {κ ν : Type} [DecidableEq κ] (m : List (κ × ν)) (k : κ) (v : ν) :
    List (κ × ν) :=
  if (Map.find? m k).isSome then m.map (fun e => if e.1 = k then (k, v) else e)
  else (k, v) :: m

/-- The insertion `s.insert(p)` into a `std::set<Position>`, kept in `operator<` order. -/
def setInsert (p : Position) : List Position → List Position
  | [] => [p]
  | q :: s => if p = q then q :: s else if p.lt q then p :: q :: s else q :: setInsert p s

/-! ## cell.h, sheet.h: the objects -/

/-- The class `Formula` of formula.cpp: it owns the tree `ast_`. -/
structure Formula where
  ast_ : FormulaAST
deriving DecidableEq

/-- The data members of `Cell`; `sheet_ref_` is the one sheet of the model. -/
structure Cell where
  cell_value_ : Option Formula := none
  text_ : String := ""
  cache_ : Option FormulaValue := none
  dependent_cells_ : List Position := []
  referenced_cells_ : List Position := []
deriving DecidableEq

/-- The data members of `Sheet`. -/
structure Sheet where
  cell_index_ : List (Position × Cell) := []
  row_elem_count_ : List (Int × Int) := []
  col_elem_count_ : List (Int × Int) := []
deriving DecidableEq

deriving instance DecidableEq for Except

/-- The result of a call: a value or what the call ended with, and the sheet after. -/
abbrev Out (α : Type) := Except Exception α × Sheet

/-- Dereference a `Cell*`.  A pointer is the position of its node, so a pointer to a node
that `ClearCell` erased reads the cell stored there anew once the position is occupied
again, where the code has undefined behaviour: the model is exact on the runs that never
dereference a pointer to an erased node. -/
def Sheet.deref (sheet : Sheet) (p : Position) : Option Cell :=
  Map.find? sheet.cell_index_ p

/-- Write through a `Cell*` whose node lives. -/
def Sheet.store (sheet : Sheet) (p : Position) (c : Cell) : Sheet :=
  { sheet with cell_index_ := Map.set sheet.cell_index_ p c }

/-! ## cell.cpp: members that touch one cell only -/

/-- The method `Cell::Clear`. -/
def Cell.Clear (c : Cell) : Cell :=
  { c with text_ := "", cell_value_ := none, referenced_cells_ := [] }

/-- The method `Cell::IsInitialized`. -/
def Cell.IsInitialized (c : Cell) : Bool :=
  c.cell_value_.isSome || !strEmpty c.text_

/-- The static method `Cell::IsText`. -/
def Cell.IsText (text : String) : Bool :=
  charAt text 0 != FORMULA_SIGN

/-- The method `Cell::HasCache`. -/
def Cell.HasCache (c : Cell) : Bool := c.cache_.isSome

/-- The method `Cell::InvalidateCache`. -/
def Cell.InvalidateCache (c : Cell) : Cell :=
  if c.cache_.isSome then { c with cache_ := none } else c

/-- The method `Cell::IsFormula`. -/
def Cell.IsFormula (c : Cell) : Bool :=
  if strEmpty c.text_ then false else charAt c.text_ 0 == '='

/-- The method `Cell::GetText`. -/
def Cell.GetText (c : Cell) : String := c.text_

/-- The method `Cell::CopyDependedAndReferencedCells`. -/
def Cell.CopyDependedAndReferencedCells (c other : Cell) : Cell :=
  { c with dependent_cells_ := other.dependent_cells_,
           referenced_cells_ := other.referenced_cells_ }

/-- The method `Cell::Swap` on two distinct objects, as `(this, other)` after the call:
the first set swap exchanges `this->dependent_cells_` with `other.referenced_cells_`,
the second `this->referenced_cells_` with `other.referenced_cells_`. -/
def Cell.Swap (this other : Cell) : Cell × Cell :=
  let this1 := { this with cell_value_ := other.cell_value_, text_ := other.text_ }
  let other1 := { other with cell_value_ := this.cell_value_, text_ := this.text_ }
  let this2 := { this1 with dependent_cells_ := other1.referenced_cells_ }
  let other2 := { other1 with referenced_cells_ := this1.dependent_cells_ }
  let this3 := { this2 with referenced_cells_ := other2.referenced_cells_ }
  let other3 := { other2 with referenced_cells_ := this2.referenced_cells_ }
  (this3, other3)

/-- The move assignment `Cell::operator=(Cell&&)` on two distinct objects, as
`(this, other)` after the call. -/
def Cell.moveAssign (this other : Cell) : Cell × Cell :=
  let r := Cell.Swap this other
  (r.1, r.2.Clear)

/-- The move constructor `Cell::Cell(Cell&&)`, as `(new object, other)` after the call.
The cache is not among the moved members: the new object starts without one and `other`
keeps its own.  A moved-from string or set is taken to be empty. -/
def Cell.moveConstruct (other : Cell) : Cell × Cell :=
  ({ cell_value_ := other.cell_value_, text_ := other.text_, cache_ := none,
     dependent_cells_ := other.dependent_cells_,
     referenced_cells_ := other.referenced_cells_ },
   Cell.Clear { other with cell_value_ := none, text_ := "", dependent_cells_ := [],
                           referenced_cells_ := [] })

/-! ## formula.cpp -/

/-- The function `ParseFormula`: `none` stands for the `FormulaException` thrown by the
constructor of `Formula`. -/
def ParseFormula (L : Lib) (expression : String) : Option Formula :=
  (L.ParseFormulaAST expression).map Formula.mk

/-- The method `Formula::GetExpression`. -/
def Formula.GetExpression (L : Lib) (f : Formula) : String := L.PrintFormula f.ast_

/-- The method `Formula::GetReferencedCells`. -/
def Formula.GetReferencedCells (L : Lib) (f : Formula) : List Position :=
  f.ast_.GetCells.foldl (fun cells cell => if cell.IsValid L then setInsert cell cells else cells) []

/-- The method `Cell::GetReferencedCells`. -/
def Cell.GetReferencedCells (L : Lib) (c : Cell) : List Position :=
  match c.cell_value_ with
  | some f => f.GetReferencedCells L
  | none => []

/-- The text of the stream operator `operator<<(std::ostream&, FormulaError)`. -/
def FormulaError.print (_fe : FormulaError) : String := "#DIV/0!"

/-- The test `isdigit(ch)`. -/
def isdigit (ch : Char) : Bool := ch.isDigit

/-- The white space that formatted extraction skips. -/
def isspace (ch : Char) : Bool :=
  ch == ' ' || (decide (9 ≤ ch.toNat) && decide (ch.toNat ≤ 13))

/-- The number `mantissa * 10 ^ exponent`. -/
def scale10 (mantissa : Rat) (exponent : Int) : Rat :=
  if 0 ≤ exponent then mantissa * (10 : Rat) ^ exponent.toNat
  else mantissa / (10 : Rat) ^ (-exponent).toNat

/-- The extraction `stream >> result` of a `double` from a fresh
`std::istringstream(str)`: leading white space is skipped, then an optional sign, digits
with at most one decimal point and, after a digit, an exponent are consumed; the
extraction succeeds when what was consumed is a complete number.  What follows the number
is left in the stream and does not make the extraction fail.  The value is an exact
rational: a number outside the range of `double`, on which the extraction fails in the
code, is read here. -/
def extractDouble (str : String) : Option Rat :=
  let cs := str.data.dropWhile isspace
  let negative := cs.head? == some '-'
  let cs := if cs.head? == some '-' || cs.head? == some '+' then cs.drop 1 else cs
  let intPart := cs.takeWhile isdigit
  let cs := cs.dropWhile isdigit
  let hasPoint := cs.head? == some '.'
  let fracPart := if hasPoint then (cs.drop 1).takeWhile isdigit else []
  let cs := if hasPoint then (cs.drop 1).dropWhile isdigit else cs
  if intPart.isEmpty && fracPart.isEmpty then none
  else
    let mantissa : Rat :=
      scale10 (digitsValue (intPart ++ fracPart) : Rat) (-(fracPart.length : Int))
    let signed : Rat := if negative then -mantissa else mantissa
    if cs.head? == some 'e' || cs.head? == some 'E' then
      let es := cs.drop 1
      let expNegative := es.head? == some '-'
      let es := if es.head? == some '-' || es.head? == some '+' then es.drop 1 else es
      let expDigits := es.takeWhile isdigit
      if expDigits.isEmpty then none
      else
        some (scale10 signed
          (if expNegative then -(digitsValue expDigits : Int) else (digitsValue expDigits : Int)))
    else some signed

/-- The arithmetic of one binary node; `none` is a non-finite result.  The arithmetic is
exact over the rationals, without the rounding and the overflow of `double`: the only
non-finite result is a division by zero. -/
def BinaryOp.apply (op : BinaryOp) (lhs rhs : Rat) : Option Rat :=
  match op with
  | .Add => some (lhs + rhs)
  | .Sub => some (lhs - rhs)
  | .Mul => some (lhs * rhs)
  | .Div => if rhs = 0 then none else some (lhs / rhs)

/-- Modelled from the spec: `FormulaAST::Execute` lives in FormulaAST.cpp; it walks the
tree bottom-up, reads a cell reference through `args`, and turns a non-finite result of
an operation into a thrown `FormulaError` of category `Div0`. -/
def FormulaAST.Execute (args : Position → Sheet → Out Rat) : FormulaAST → Sheet → Out Rat
  | .Number v, sheet => (.ok v, sheet)
  | .CellRef p, sheet => args p sheet
  | .UnaryOp minus e, sheet =>
    match FormulaAST.Execute args e sheet with
    | (.ok d, sheet1) => (.ok (if minus then -d else d), sheet1)
    | (.error x, sheet1) => (.error x, sheet1)
  | .BinaryOp op l r, sheet =>
    match FormulaAST.Execute args l sheet with
    | (.error x, sheet1) => (.error x, sheet1)
    | (.ok lhs, sheet1) =>
      match FormulaAST.Execute args r sheet1 with
      | (.error x, sheet2) => (.error x, sheet2)
      | (.ok rhs, sheet2) =>
        match op.apply lhs rhs with
        | some d => (.ok d, sheet2)
        | none => (.error (.ThrownFormulaError ⟨.Div0⟩), sheet2)

/-- The method `Sheet::GetCellInternal`: the pointer to the cell at `pos`, or `nullptr`. -/
def Sheet.GetCellInternal (L : Lib) (sheet : Sheet) (pos : Position) :
    Except Exception (Option Position) :=
  if !pos.IsValid L then .error .InvalidPositionException
  else if (sheet.deref pos).isSome then .ok (some pos)
  else .ok none

/-- The method `Sheet::GetCell` (both overloads). -/
def Sheet.GetCell (L : Lib) (sheet : Sheet) (pos : Position) :
    Except Exception (Option Position) :=
  sheet.GetCellInternal L pos

/-- The cell-lookup lambda `args` of `Formula::Evaluate`; `GetValue` is the virtual call
`cell_ptr->GetValue()`. -/
def Formula.Evaluate.args (L : Lib) (GetValue : Position → Sheet → Out CellValue)
    (pos : Position) (sheet : Sheet) : Out Rat :=
  if !pos.IsValid L then (.error (.ThrownCategory .Ref), sheet)
  else
    match sheet.GetCell L pos with
    | .error x => (.error x, sheet)
    | .ok none => (.ok 0, sheet)
    | .ok (some cell_ptr) =>
      match GetValue cell_ptr sheet with
      | (.error x, sheet1) => (.error x, sheet1)
      | (.ok (.number d), sheet1) => (.ok d, sheet1)
      | (.ok (.text str_value), sheet1) =>
        if strEmpty str_value then (.ok 0, sheet1)
        else
          let has_char := str_value.data.any (fun ch => !isdigit ch)
          if isdigit (charAt str_value 0) && has_char then
            (.error (.ThrownFormulaError ⟨.Value⟩), sheet1)
          else
            match extractDouble str_value with
            | some result => (.ok result, sheet1)
            | none => (.error (.ThrownFormulaError ⟨.Value⟩), sheet1)
      | (.ok (.error _), sheet1) =>
        match GetValue cell_ptr sheet1 with
        | (.error x, sheet2) => (.error x, sheet2)
        | (.ok (.error e), sheet2) => (.error (.ThrownFormulaError e), sheet2)
        | (.ok _, sheet2) => (.error .BadAccess, sheet2)

/-- The method `Formula::Evaluate`: a thrown `FormulaError` object is caught and
returned as a value, anything else propagates. -/
def Formula.Evaluate (L : Lib) (GetValue : Position → Sheet → Out CellValue)
    (f : Formula) (sheet : Sheet) : Out FormulaValue :=
  match f.ast_.Execute (Formula.Evaluate.args L GetValue) sheet with
  | (.ok d, sheet1) => (.ok (.number d), sheet1)
  | (.error (.ThrownFormulaError err), sheet1) => (.ok (.error err), sheet1)
  | (.error x, sheet1) => (.error x, sheet1)

/-! ## cell.cpp: reading a value -/

/-- The test `std::isinf`: no rational is infinite, so the overflow of a `double` to an
infinity is outside the model. -/
def isinf (_d : Rat) : Bool := false

/-- The method `Cell::GetCache`. -/
def Cell.GetCache (c : Cell) : Except Exception CellValue :=
  if c.IsFormula then
    match c.cache_ with
    | some (.number d) => .ok (.number d)
    | some (.error e) => .ok (.error e)
    | none => .error .BadAccess
  else if !strEmpty c.text_ && charAt c.text_ 0 == ESCAPE_SIGN then .ok (.text (substr c.text_ 1))
  else .ok (.text c.text_)

/-- Assign `cache_` of the cell `this` points to. -/
def Sheet.setCache (sheet : Sheet) (this : Position) (v : FormulaValue) : Sheet :=
  match sheet.deref this with
  | some c => sheet.store this { c with cache_ := some v }
  | none => sheet

/-- The method `Cell::GetValue` called through the pointer `this`; the first argument
bounds the depth of the recursion through referenced cells. -/
def Cell.GetValueN (L : Lib) : Nat → Position → Sheet → Out CellValue
  | 0, _, sheet => (.error .StackOverflow, sheet)
  | depth + 1, this, sheet =>
    match sheet.deref this with
    | none => (.error .DanglingPointer, sheet)
    | some c =>
      if c.HasCache then (c.GetCache, sheet)
      else if c.IsFormula then
        match c.cell_value_ with
        | none => (.error .NullPointer, sheet)
        | some cell_value =>
          match cell_value.Evaluate L (Cell.GetValueN L depth) sheet with
          | (.error x, sheet1) => (.error x, sheet1)
          | (.ok (.number double_result), sheet1) =>
            if isinf double_result then
              (.ok (.error ⟨.Div0⟩), sheet1.setCache this (.error ⟨.Div0⟩))
            else (.ok (.number double_result), sheet1.setCache this (.number double_result))
          | (.ok (.error err), sheet1) => (.ok (.error err), sheet1.setCache this (.error err))
      else if !strEmpty c.text_ && charAt c.text_ 0 == ESCAPE_SIGN then
        (.ok (.text (substr c.text_ 1)), sheet)
      else (.ok (.text c.text_), sheet)

/-- The method `Cell::GetValue`: on an acyclic graph the recursion is no deeper than the
number of cells. -/
def Cell.GetValue (L : Lib) (this : Position) (sheet : Sheet) : Out CellValue :=
  Cell.GetValueN L (sheet.cell_index_.length + 1) this sheet

/-! ## cell.cpp: the dependency graph -/

/-- Apply `f` to the cell `this` points to. -/
def Sheet.modify (sheet : Sheet) (this : Position) (f : Cell → Cell) : Sheet :=
  match sheet.deref this with
  | some c => sheet.store this (f c)
  | none => sheet

/-- An upper bound on the iterations of the search loop of `FindCircularDependency`
over `k` cells not yet entered, when no cell has more than `d` dependents. -/
def Cell.FindCircularDependency.bound (d : Nat) : Nat → Nat
  | 0 => 1
  | k + 1 => d * Cell.FindCircularDependency.bound d k + 1

/-- The loop budget the model gives `FindCircularDependency` on a sheet. -/
def Cell.FindCircularDependency.budget (sheet : Sheet) : Nat :=
  let d := (sheet.cell_index_.map (fun e => e.2.dependent_cells_.length)).sum
  Cell.FindCircularDependency.bound d (sheet.cell_index_.length + d + 1) + 1

/-- The `while` loop of `Cell::FindCircularDependency`: `to_enter_collection` is kept
with its back at the head, `enter_container` and `ref_container` are the two sets. -/
def Cell.FindCircularDependency.loop (sheet : Sheet) (ref_container : List (Option Position)) :
    Nat → List Position → List Position → Except Exception Bool
  | _, [], _ => .ok false
  | 0, _ :: _, _ => .error .OutOfFuel
  | fuel + 1, curr_cell :: to_enter_collection, enter_container =>
    let enter_container := List.insert curr_cell enter_container
    if !ref_container.contains (some curr_cell) then
      match sheet.deref curr_cell with
      | none => .error .DanglingPointer
      | some c =>
        Cell.FindCircularDependency.loop sheet ref_container fuel
          (c.dependent_cells_.foldl
            (fun st dependent => if !enter_container.contains dependent then dependent :: st else st)
            to_enter_collection)
          enter_container
    else .ok true

/-- The first loop of `Cell::FindCircularDependency`: the pointers `GetCell` gives for the
positions of `ref`. -/
def Cell.FindCircularDependency.refs (L : Lib) (sheet : Sheet) :
    List Position → List (Option Position) → Except Exception (List (Option Position))
  | [], ref_container => .ok ref_container
  | position :: rest, ref_container =>
    match sheet.GetCell L position with
    | .error x => .error x
    | .ok ptr => Cell.FindCircularDependency.refs L sheet rest (List.insert ptr ref_container)

/-- The method `Cell::FindCircularDependency` called on the cell `this` points to. -/
def Cell.FindCircularDependency (L : Lib) (this : Position) (ref : List Position)
    (sheet : Sheet) : Except Exception Bool :=
  match Cell.FindCircularDependency.refs L sheet ref [] with
  | .error x => .error x
  | .ok ref_container =>
    Cell.FindCircularDependency.loop sheet ref_container
      (Cell.FindCircularDependency.budget sheet) [this] []

/-- The code that `Cell::Set` and `Cell::Refresh` both run for a referenced position: take
the cell there, creating it with `SetCell(position, "")` when `GetCell` gives `nullptr`,
insert it into `referenced_cells_` of `this` and insert `this` into its
`dependent_cells_`. -/
def Cell.link (L : Lib) (SetCell : Position → String → Sheet → Out Unit) (this : Position)
    (position : Position) (sheet : Sheet) : Out Unit :=
  match sheet.GetCell L position with
  | .error x => (.error x, sheet)
  | .ok found =>
    let made : Out (Option Position) :=
      match found with
      | some ref => (.ok (some ref), sheet)
      | none =>
        match SetCell position "" sheet with
        | (.error x, sheet1) => (.error x, sheet1)
        | (.ok (), sheet1) =>
          match sheet1.GetCell L position with
          | .error x => (.error x, sheet1)
          | .ok ref => (.ok ref, sheet1)
    match made with
    | (.error x, sheet1) => (.error x, sheet1)
    | (.ok none, sheet1) => (.error .NullPointer, sheet1)
    | (.ok (some ref), sheet1) =>
      let sheet2 := sheet1.modify this
        (fun c => { c with referenced_cells_ := List.insert ref c.referenced_cells_ })
      match sheet2.deref ref with
      | none => (.error .DanglingPointer, sheet2)
      | some rc =>
        (.ok (), sheet2.store ref { rc with dependent_cells_ := List.insert this rc.dependent_cells_ })

/-- The first loop of `Cell::Refresh`: erase `this` from the dependents of every cell of
`referenced_cells_`. -/
def Cell.Refresh.detach (this : Position) : List Position → Sheet → Out Unit
  | [], sheet => (.ok (), sheet)
  | refrence :: rest, sheet =>
    match sheet.deref refrence with
    | none => (.error .DanglingPointer, sheet)
    | some c =>
      Cell.Refresh.detach this rest
        (sheet.store refrence
          { c with dependent_cells_ := c.dependent_cells_.filter (fun d => !decide (d = this)) })

/-- The second loop of `Cell::Refresh`, over the positions the formula references. -/
def Cell.Refresh.attach (L : Lib) (SetCell : Position → String → Sheet → Out Unit)
    (this : Position) : List Position → Sheet → Out Unit
  | [], sheet => (.ok (), sheet)
  | position :: rest, sheet =>
    match Cell.link L SetCell this position sheet with
    | (.error x, sheet1) => (.error x, sheet1)
    | (.ok (), sheet1) => Cell.Refresh.attach L SetCell this rest sheet1

/-- The method `Cell::Refresh` called on the cell `this` points to. -/
def Cell.Refresh (L : Lib) (SetCell : Position → String → Sheet → Out Unit)
    (this : Position) (sheet : Sheet) : Out Unit :=
  match sheet.deref this with
  | none => (.error .DanglingPointer, sheet)
  | some c =>
    match Cell.Refresh.detach this c.referenced_cells_ sheet with
    | (.error x, sheet1) => (.error x, sheet1)
    | (.ok (), sheet1) =>
      let sheet2 := sheet1.modify this (fun c => { c with referenced_cells_ := [] })
      match (sheet2.deref this).bind Cell.cell_value_ with
      | none => (.error .NullPointer, sheet2)
      | some cell_value =>
        Cell.Refresh.attach L SetCell this (cell_value.GetReferencedCells L) sheet2

/-- The loop at the end of `Cell::Set`: `InvalidateCache` on every dependent. -/
def Cell.Set.invalidateDependents : List Position → Sheet → Out Unit
  | [], sheet => (.ok (), sheet)
  | dependent :: rest, sheet =>
    match sheet.deref dependent with
    | none => (.error .DanglingPointer, sheet)
    | some c =>
      Cell.Set.invalidateDependents rest (sheet.store dependent c.InvalidateCache)

/-- The end of `Cell::Set`: when `this` has a cache, drop it and the cache of each of
its dependents. -/
def Cell.Set.invalidate (this : Position) (sheet : Sheet) : Out Unit :=
  match sheet.deref this with
  | none => (.error .DanglingPointer, sheet)
  | some c =>
    if c.HasCache then
      Cell.Set.invalidateDependents c.dependent_cells_ (sheet.store this c.InvalidateCache)
    else (.ok (), sheet)

/-- The block of `Cell::Set` that reads `text_` back as a position and, when that position
is valid, links `this` to the cell there. -/
def Cell.Set.formulaPos (L : Lib) (SetCell : Position → String → Sheet → Out Unit)
    (this : Position) (sheet : Sheet) : Out Unit :=
  match sheet.deref this with
  | none => (.error .DanglingPointer, sheet)
  | some c =>
    let formula_pos := Position.FromString L c.text_
    if formula_pos.IsValid L then Cell.link L SetCell this formula_pos sheet
    else (.ok (), sheet)

/-- The part of `Cell::Set` that follows the block on `formula_pos`: the cycle check
on the referenced cells of the parsed formula, then the assignment of `cell_value_`,
`Refresh()` and the invalidation. -/
def Cell.Set.commit (L : Lib) (SetCell : Position → String → Sheet → Out Unit)
    (this : Position) (temp_cell_value : Formula) (sheet2 : Sheet) : Out Unit :=
  let temp_ref_cells := temp_cell_value.GetReferencedCells L
  let is_found : Except Exception Bool :=
    if !temp_ref_cells.isEmpty then
      Cell.FindCircularDependency L this temp_ref_cells sheet2
    else .ok false
  match is_found with
  | .error x => (.error x, sheet2)
  | .ok true => (.error .CircularDependencyException, sheet2)
  | .ok false =>
    let sheet3 := sheet2.modify this (fun c => { c with cell_value_ := some temp_cell_value })
    match Cell.Refresh L SetCell this sheet3 with
    | (.error x, sheet4) => (.error x, sheet4)
    | (.ok (), sheet4) => Cell.Set.invalidate this sheet4

/-- The method `Cell::Set` called on the cell `this` points to; `SetCell` is
`sheet_ref_.SetCell`. -/
def Cell.Set (L : Lib) (SetCell : Position → String → Sheet → Out Unit) (this : Position)
    (text : String) (sheet : Sheet) : Out Unit :=
  match sheet.deref this with
  | none => (.error .DanglingPointer, sheet)
  | some c0 =>
    let sheet0 := if c0.IsInitialized then sheet.store this c0.Clear else sheet
    if 2 ≤ text.length then
      if !Cell.IsText text then
        match ParseFormula L
            (if charAt text 1 == ESCAPE_SIGN then substr text 2 else substr text 1) with
        | none => (.error .FormulaException, sheet0)
        | some temp_cell_value =>
          let sheet1 := sheet0.modify this (fun c =>
            { c with text_ := String.singleton FORMULA_SIGN ++ temp_cell_value.GetExpression L })
          match Cell.Set.formulaPos L SetCell this sheet1 with
          | (.error x, sheet2) => (.error x, sheet2)
          | (.ok (), sheet2) => Cell.Set.commit L SetCell this temp_cell_value sheet2
      else (.ok (), sheet0.modify this (fun c => { c with text_ := text }))
    else (.ok (), sheet0.modify this (fun c => { c with text_ := text }))

/-! ## sheet.cpp -/

/-- The method `Sheet::IsInitialized`. -/
def Sheet.IsInitialized (sheet : Sheet) (pos : Position) : Bool :=
  (sheet.deref pos).isSome

/-- The method `Sheet::CleanCell`. -/
def Sheet.CleanCell (L : Lib) (pos : Position) (sheet : Sheet) : Out Unit :=
  if !pos.IsValid L then (.error .InvalidPositionException, sheet)
  else if sheet.IsInitialized pos then (.ok (), sheet.modify pos Cell.Clear)
  else (.ok (), sheet)

/-- The value `container[key]` of a counter map, which is 0 for a key it does not hold. -/
def counterAt (container : List (Int × Int)) (key : Int) : Int :=
  (Map.find? container key).getD 0

/-- The body of the `try` block of `Sheet::SetCell`. -/
def Sheet.SetCell.attempt (L : Lib) (SetCell : Position → String → Sheet → Out Unit)
    (pos : Position) (text : String) (prev_cell : Cell) (sheet : Sheet) : Out Unit :=
  match sheet.CleanCell L pos with
  | (.error x, sheet1) => (.error x, sheet1)
  | (.ok (), sheet1) =>
    Cell.Set L SetCell pos text
      (sheet1.modify pos (fun c => c.CopyDependedAndReferencedCells prev_cell))

/-- The `catch` block of `Sheet::SetCell`. -/
def Sheet.SetCell.rollback (L : Lib) (pos : Position) (prev_cell : Cell) (sheet : Sheet) :
    Out Unit :=
  match sheet.CleanCell L pos with
  | (.error x, sheet1) => (.error x, sheet1)
  | (.ok (), sheet1) =>
    (.error .CircularDependencyException,
      sheet1.modify pos (fun c => (Cell.moveAssign c prev_cell).1))

/-- The method `Sheet::SetCell`, with `SetCell` standing for the calls that `Cell::Set`
and `Cell::Refresh` make back into it.  The branch on `IsInitialized(pos)` is the match on
the node of `pos`. -/
def Sheet.SetCellWith (L : Lib) (SetCell : Position → String → Sheet → Out Unit)
    (pos : Position) (text : String) (sheet : Sheet) : Out Unit :=
  if !pos.IsValid L then (.error .InvalidPositionException, sheet)
  else
    match sheet.deref pos with
    | some c =>
      let moved := Cell.moveConstruct c
      match Sheet.SetCell.attempt L SetCell pos text moved.1 (sheet.store pos moved.2) with
      | (.error .CircularDependencyException, sheet1) =>
        Sheet.SetCell.rollback L pos moved.1 sheet1
      | r => r
    | none =>
      match Cell.Set L SetCell pos text (sheet.store pos (Cell.moveConstruct {}).1) with
      | (.error x, sheet1) => (.error x, sheet1)
      | (.ok (), sheet1) =>
        (.ok (),
          { sheet1 with
            row_elem_count_ :=
              Map.set sheet1.row_elem_count_ pos.row (counterAt sheet1.row_elem_count_ pos.row + 1),
            col_elem_count_ :=
              Map.set sheet1.col_elem_count_ pos.col (counterAt sheet1.col_elem_count_ pos.col + 1) })

/-- The method `Sheet::SetCell` with the depth of its recursion through `Cell::Set`
bounded by the first argument. -/
def Sheet.SetCellN (L : Lib) : Nat → Position → String → Sheet → Out Unit
  | 0, _, _, sheet => (.error .StackOverflow, sheet)
  | depth + 1, pos, text, sheet =>
    Sheet.SetCellWith L (Sheet.SetCellN L depth) pos text sheet

/-- The method `Sheet::SetCell`.  The calls back into it pass the text `""`, for which
`Cell::Set` returns without a further call, so two levels are all the recursion there
is (`Sheet.SetCellN_depth`). -/
def Sheet.SetCell (L : Lib) (pos : Position) (text : String) (sheet : Sheet) : Out Unit :=
  Sheet.SetCellN L 2 pos text sheet

/-- The decrement `--container[key]` followed by `if(container[key] == 0) erase(key)`. -/
def counterDecrement (container : List (Int × Int)) (key : Int) : List (Int × Int) :=
  let container1 := Map.set container key (counterAt container key - 1)
  if counterAt container1 key = 0 then Map.erase container1 key else container1

/-- The method `Sheet::ClearCell`. -/
def Sheet.ClearCell (L : Lib) (pos : Position) (sheet : Sheet) : Out Unit :=
  if !pos.IsValid L then (.error .InvalidPositionException, sheet)
  else if sheet.IsInitialized pos then
    (.ok (),
      { cell_index_ := Map.erase sheet.cell_index_ pos,
        row_elem_count_ := counterDecrement sheet.row_elem_count_ pos.row,
        col_elem_count_ := counterDecrement sheet.col_elem_count_ pos.col })
  else (.ok (), sheet)

/-- The static method `Sheet::GetSortedElements`. -/
def Sheet.GetSortedElements (container : List (Int × Int)) : List Int :=
  (container.map Prod.fst).insertionSort (fun a b => a ≤ b)

/-- The method `Sheet::GetStartPosPrintableZone`. -/
def Sheet.GetStartPosPrintableZone (_sheet : Sheet) : Size := ⟨0, 0⟩

/-- The method `Sheet::GetEndPosPrintableZone`; `back()` of an empty vector is undefined
behaviour. -/
def Sheet.GetEndPosPrintableZone (sheet : Sheet) : Except Exception Size :=
  if sheet.row_elem_count_.isEmpty && sheet.col_elem_count_.isEmpty then .ok ⟨0, 0⟩
  else
    match (Sheet.GetSortedElements sheet.row_elem_count_).getLast?,
        (Sheet.GetSortedElements sheet.col_elem_count_).getLast? with
    | some max_row, some max_col => .ok ⟨max_row, max_col⟩
    | _, _ => .error .EmptyVector

/-- The method `Sheet::GetPrintableSize`. -/
def Sheet.GetPrintableSize (sheet : Sheet) : Except Exception Size :=
  if sheet.cell_index_.isEmpty then .ok ⟨0, 0⟩
  else
    let start := sheet.GetStartPosPrintableZone
    match sheet.GetEndPosPrintableZone with
    | .error x => .error x
    | .ok endPos => .ok ⟨endPos.rows - start.rows + 1, endPos.cols - start.cols + 1⟩

/-- The integers `lo, lo + 1, ..., hi` that a loop `for(int i = lo; i <= hi; ++i)` visits. -/
def intRange (lo hi : Int) : List Int :=
  (List.range (hi - lo + 1).toNat).map (fun i => lo + (i : Int))

/-- The visitor of `Sheet::PrintValues`, `output << obj` for the alternative the value
holds; `showDouble` is the text the stream writes for a `double`. -/
def CellValue.print (showDouble : Rat → String) : CellValue → String
  | .text s => s
  | .number d => showDouble d
  | .error e => e.print

/-- The inner loop of `Sheet::PrintValues` over the columns of one row. -/
def Sheet.PrintValues.cols (L : Lib) (showDouble : Rat → String) (row end_cols : Int) :
    List Int → String → Sheet → Out String
  | [], output, sheet => (.ok output, sheet)
  | col :: rest, output, sheet =>
    match sheet.GetCell L ⟨row, col⟩ with
    | .error x => (.error x, sheet)
    | .ok cell_ptr =>
      let written : Out String :=
        match cell_ptr with
        | none => (.ok output, sheet)
        | some ptr =>
          match Cell.GetValue L ptr sheet with
          | (.error x, sheet1) => (.error x, sheet1)
          | (.ok value, sheet1) => (.ok (output ++ value.print showDouble), sheet1)
      match written with
      | (.error x, sheet1) => (.error x, sheet1)
      | (.ok output1, sheet1) =>
        Sheet.PrintValues.cols L showDouble row end_cols rest
          (if col ≠ end_cols then output1.push (Char.ofNat 9) else output1) sheet1

/-- The outer loop of `Sheet::PrintValues` over the rows. -/
def Sheet.PrintValues.rows (L : Lib) (showDouble : Rat → String) (start_pos end_pos : Size) :
    List Int → String → Sheet → Out String
  | [], output, sheet => (.ok output, sheet)
  | row :: rest, output, sheet =>
    match Sheet.PrintValues.cols L showDouble row end_pos.cols
        (intRange start_pos.cols end_pos.cols) output sheet with
    | (.error x, sheet1) => (.error x, sheet1)
    | (.ok output1, sheet1) =>
      Sheet.PrintValues.rows L showDouble start_pos end_pos rest
        (output1.push (Char.ofNat 10)) sheet1

/-- The method `Sheet::PrintValues`: the text written to `output`. -/
def Sheet.PrintValues (L : Lib) (showDouble : Rat → String) (sheet : Sheet) : Out String :=
  if sheet.cell_index_.isEmpty then (.ok "", sheet)
  else
    let start_pos := sheet.GetStartPosPrintableZone
    match sheet.GetEndPosPrintableZone with
    | .error x => (.error x, sheet)
    | .ok end_pos =>
      Sheet.PrintValues.rows L showDouble start_pos end_pos
        (intRange start_pos.rows end_pos.rows) "" sheet

/-! ## An instance of the library parameters

The formula grammar and its printer, as far as the spec describes them, to run the model
on concrete inputs. -/

/-- What the parser is about to read: an expression, a term, a factor, or the rest of a
sum or product whose left operand is known. -/
inductive Goal where
  | expr
  | term
  | factor
  | exprTail (lhs : FormulaAST)
  | termTail (lhs : FormulaAST)

/-- Drop leading blanks. -/
def skipBlanks (cs : List Char) : List Char := cs.dropWhile (fun c => c == ' ')

/-- Read a numeric literal `digits[.digits]` from the head of `cs`. -/
def readNumber (cs : List Char) : FormulaAST × List Char :=
  let intPart := cs.takeWhile Char.isDigit
  let rest := cs.dropWhile Char.isDigit
  match rest with
  | '.' :: more =>
    let fracPart := more.takeWhile Char.isDigit
    (.Number (scale10 (digitsValue (intPart ++ fracPart) : Rat) (-(fracPart.length : Int))),
      more.dropWhile Char.isDigit)
  | _ => (.Number (digitsValue intPart : Rat), rest)

/-- Read a cell reference `LETTERS DIGITS` from the head of `cs`; the reference may be out
of range, the tree holds it as written. -/
def readCell (cs : List Char) : Option (FormulaAST × List Char) :=
  let letters := cs.takeWhile Char.isUpper
  let rest := cs.dropWhile Char.isUpper
  let digits := rest.takeWhile Char.isDigit
  if letters.isEmpty || digits.isEmpty then none
  else
    some (.CellRef ⟨(digitsValue digits : Int) - 1, (Position.lettersValue letters : Int) - 1⟩,
      rest.dropWhile Char.isDigit)

/-- Modelled from the spec: `ParseFormulaAST` lives in FormulaAST.cpp; the grammar has
unary `+` and `-`, binary `+ - * /`, parentheses, numeric literals and cell references.
This is a recursive-descent reader for it, the first argument bounding the recursion. -/
def parseGoal : Nat → Goal → List Char → Option (FormulaAST × List Char)
  | 0, _, _ => none
  | n + 1, .expr, cs =>
    match parseGoal n .term cs with
    | some (lhs, rest) => parseGoal n (.exprTail lhs) rest
    | none => none
  | n + 1, .term, cs =>
    match parseGoal n .factor cs with
    | some (lhs, rest) => parseGoal n (.termTail lhs) rest
    | none => none
  | n + 1, .exprTail lhs, cs =>
    match skipBlanks cs with
    | '+' :: rest =>
      match parseGoal n .term rest with
      | some (rhs, rest1) => parseGoal n (.exprTail (.BinaryOp .Add lhs rhs)) rest1
      | none => none
    | '-' :: rest =>
      match parseGoal n .term rest with
      | some (rhs, rest1) => parseGoal n (.exprTail (.BinaryOp .Sub lhs rhs)) rest1
      | none => none
    | rest => some (lhs, rest)
  | n + 1, .termTail lhs, cs =>
    match skipBlanks cs with
    | '*' :: rest =>
      match parseGoal n .factor rest with
      | some (rhs, rest1) => parseGoal n (.termTail (.BinaryOp .Mul lhs rhs)) rest1
      | none => none
    | '/' :: rest =>
      match parseGoal n .factor rest with
      | some (rhs, rest1) => parseGoal n (.termTail (.BinaryOp .Div lhs rhs)) rest1
      | none => none
    | rest => some (lhs, rest)
  | n + 1, .factor, cs =>
    match skipBlanks cs with
    | '+' :: rest => (parseGoal n .factor rest).map (fun r => (.UnaryOp false r.1, r.2))
    | '-' :: rest => (parseGoal n .factor rest).map (fun r => (.UnaryOp true r.1, r.2))
    | '(' :: rest =>
      match parseGoal n .expr rest with
      | some (e, rest1) =>
        match skipBlanks rest1 with
        | ')' :: rest2 => some (e, rest2)
        | _ => none
      | none => none
    | c :: rest =>
      if c.isDigit then some (readNumber (c :: rest))
      else if c.isUpper then readCell (c :: rest)
      else none
    | [] => none

/-- The letters of column `col + 1` in base 26 without a zero digit, last letter first. -/
def columnLetters : Nat → Nat → List Char
  | 0, _ => []
  | _ + 1, 0 => []
  | fuel + 1, n + 1 => Char.ofNat ('A'.toNat + n % 26) :: columnLetters fuel (n / 26)

/-- Modelled from the spec: `Position::ToString` lives in structures.cpp; letters for the
column, 1-based digits for the row. -/
def Position.ToString (p : Position) : String :=
  String.mk (columnLetters 8 (p.col.toNat + 1)).reverse ++ toString (p.row.toNat + 1)

/-- The text of a number: an integer in decimal, otherwise numerator and denominator. -/
def printNumber (q : Rat) : String :=
  if q.den = 1 then toString q.num else toString q.num ++ "/" ++ toString q.den

/-- The binding strength of the top operator of a tree. -/
def FormulaAST.precedence : FormulaAST → Nat
  | .BinaryOp .Add _ _ => 1
  | .BinaryOp .Sub _ _ => 1
  | .BinaryOp .Mul _ _ => 2
  | .BinaryOp .Div _ _ => 2
  | .UnaryOp _ _ => 3
  | _ => 4

/-- Wrap `s` in parentheses when `needed`. -/
def parenthesize (needed : Bool) (s : String) : String :=
  if needed then "(" ++ s ++ ")" else s

/-- Modelled from the spec: `FormulaAST::PrintFormula` lives in FormulaAST.cpp; it
reprints the tree without blanks, with parentheses only where dropping them would change
the parse. -/
def printFormula : FormulaAST → String
  | .Number v => printNumber v
  | .CellRef p => p.ToString
  | .UnaryOp minus e =>
    (if minus then "-" else "+") ++ parenthesize (decide (e.precedence < 2)) (printFormula e)
  | .BinaryOp op l r =>
    let own := (FormulaAST.BinaryOp op l r).precedence
    parenthesize (decide (l.precedence < own)) (printFormula l)
      ++ (match op with
          | .Add => "+"
          | .Sub => "-"
          | .Mul => "*"
          | .Div => "/")
      ++ parenthesize
          (decide (r.precedence < own) ||
            (decide (r.precedence = own) && (op == .Sub || op == .Div)))
          (printFormula r)

/-- The library instance used to run the model: a 16384 by 16384 grid, the
recursive-descent reader and the printer above. -/
def stdLib : Lib :=
  { MAX_ROWS := 16384, MAX_COLS := 16384,
    ParseFormulaAST := fun expression =>
      match parseGoal (6 * expression.length + 6) .expr expression.data with
      | some (e, rest) => if (skipBlanks rest).isEmpty then some e else none
      | none => none,
    PrintFormula := printFormula }

/-- The cells A1, A2, A3, B5 and C3 of the scenarios. -/
def A1 : Position := ⟨0, 0⟩
def A2 : Position := ⟨1, 0⟩
def A3 : Position := ⟨2, 0⟩
def B5 : Position := ⟨4, 1⟩
def C3 : Position := ⟨2, 2⟩

/-- The cells B1, B2 and D1 of the scenarios. -/
def B1 : Position := ⟨0, 1⟩
def B2 : Position := ⟨1, 1⟩
def D1 : Position := ⟨0, 3⟩

/-- The sheet after a run of `SetCell` calls, whatever each call ended with. -/
def Sheet.afterSets (L : Lib) (sheet : Sheet) : List (Position × String) → Sheet
  | [] => sheet
  | (pos, text) :: rest => Sheet.afterSets L (Sheet.SetCell L pos text sheet).2 rest

/-- The sheet after a run of `GetValue` reads. -/
def Sheet.afterReads (L : Lib) (sheet : Sheet) : List Position → Sheet
  | [] => sheet
  | pos :: rest => Sheet.afterReads L (Cell.GetValue L pos sheet).2 rest

/-- What each call of a run of `SetCell` calls ended with. -/
def Sheet.outcomes (L : Lib) (sheet : Sheet) :
    List (Position × String) → List (Except Exception Unit)
  | [] => []
  | (pos, text) :: rest =>
    (Sheet.SetCell L pos text sheet).1 :: Sheet.outcomes L (Sheet.SetCell L pos text sheet).2 rest

/-- What each read of a run of `GetValue` reads returned. -/
def Sheet.readAll (L : Lib) (sheet : Sheet) : List Position → List (Except Exception CellValue)
  | [] => []
  | pos :: rest =>
    (Cell.GetValue L pos sheet).1 :: Sheet.readAll L (Cell.GetValue L pos sheet).2 rest

/-- The sheet with every cache dropped: a read on it evaluates every formula from
scratch. -/
def Sheet.dropCaches (sheet : Sheet) : Sheet :=
  { sheet with cell_index_ := sheet.cell_index_.map (fun e => (e.1, { e.2 with cache_ := none })) }

/-- The arithmetic chain of scenario 1: A1 = "2", A2 = "=A1+3", A3 = "=A2*A2". -/
def scenario1 : Sheet :=
  Sheet.afterSets stdLib {} [(A1, "2"), (A2, "=A1+3"), (A3, "=A2*A2")]

/-- Scenario 1 after A1, A2 and A3 have been read. -/
def scenario1Read : Sheet := Sheet.afterReads stdLib scenario1 [A1, A2, A3]

/-- The chain with a formula at its head, after A1, A2 and A3 have been read (1, 4, 16):
A1 = "=1", A2 = "=A1+3", A3 = "=A2*A2". -/
def formulaChainRead : Sheet :=
  Sheet.afterReads stdLib
    (Sheet.afterSets stdLib {} [(A1, "=1"), (A2, "=A1+3"), (A3, "=A2*A2")]) [A1, A2, A3]

/-- The sheet with the formula `=1` at A1, after A1 has been read. -/
def cachedOne : Sheet :=
  Sheet.afterReads stdLib (Sheet.afterSets stdLib {} [(A1, "=1")]) [A1]

/-- The sheet `cachedOne` after `SetCell` of A1 with the escape sign followed by `7`. -/
def quotedSeven : Sheet :=
  (Sheet.SetCell stdLib A1 (String.mk [ESCAPE_SIGN, '7']) cachedOne).2

/-- The sheet with `text` at B1 and the formula `=B1+1` at B2. -/
def coercion (text : String) : Sheet :=
  Sheet.afterSets stdLib {} [(B1, text), (B2, "=B1+1")]

/-- The sheet A1 = "2", A2 = "=A1+3" after `ClearCell(A1)`. -/
def clearedA1 : Sheet :=
  (Sheet.ClearCell stdLib A1 (Sheet.afterSets stdLib {} [(A1, "2"), (A2, "=A1+3")])).2

/-- The predecessor and successor sets of the cell at `pos`. -/
def Sheet.adjacency (sheet : Sheet) (pos : Position) :
    Option (List Position × List Position) :=
  (sheet.deref pos).map (fun c => (c.referenced_cells_, c.dependent_cells_))

/-- The text of the cell at `pos`. -/
def Sheet.textAt (sheet : Sheet) (pos : Position) : Option String :=
  (sheet.deref pos).map Cell.GetText

/-- The positions the cell at `pos` lists in `GetReferencedCells()`. -/
def Sheet.referencesAt (L : Lib) (sheet : Sheet) (pos : Position) : Option (List Position) :=
  (sheet.deref pos).map (Cell.GetReferencedCells L)

/-- The sheet after `SetCell(q, "")` on a valid position that holds no cell: an empty
cell at `q`, and the counters of its row and column incremented. -/
def Sheet.materialize (q : Position) (sheet : Sheet) : Sheet :=
  { cell_index_ := Map.set sheet.cell_index_ q {},
    row_elem_count_ :=
      Map.set sheet.row_elem_count_ q.row (counterAt sheet.row_elem_count_ q.row + 1),
    col_elem_count_ :=
      Map.set sheet.col_elem_count_ q.col (counterAt sheet.col_elem_count_ q.col + 1) }

/-- The sheet with a cell at `q`: as it is when `q` holds a cell, with an empty cell
created there otherwise. -/
def Sheet.ensure (q : Position) (sheet : Sheet) : Sheet :=
  if (sheet.deref q).isSome then sheet else sheet.materialize q

/-- The sheet after `q` has been inserted into `referenced_cells_` of `this` and `this`
into `dependent_cells_` of `q`. -/
def Sheet.linked (this q : Position) (sheet : Sheet) : Sheet :=
  (sheet.modify this
      (fun c => { c with referenced_cells_ := List.insert q c.referenced_cells_ })).modify q
    (fun rc => { rc with dependent_cells_ := List.insert this rc.dependent_cells_ })

/-- The calls back into `SetCell` behave as `SetCell(q, "")` does on a valid position that
holds no cell. -/
def Materializes (L : Lib) (SetCell : Position → String → Sheet → Out Unit) : Prop :=
  ∀ q sheet, q.IsValid L = true → sheet.deref q = none →
    SetCell q "" sheet = (.ok (), sheet.materialize q)

/-- From `s` to `t`, at every position satisfying `P`: a cell of `s` is still there with
its text and its formula, and where `s` holds no cell `t` holds none or an empty one. -/
def Sheet.Kept (P : Position → Prop) (s t : Sheet) : Prop :=
  ∀ p, P p →
    (∀ c, s.deref p = some c →
      ∃ c1, t.deref p = some c1 ∧ c1.text_ = c.text_ ∧ c1.cell_value_ = c.cell_value_) ∧
    (s.deref p = none → ∀ c1, t.deref p = some c1 → c1.text_ = "" ∧ c1.cell_value_ = none)

/-- From `s` to `t` every cell stays and its two adjacency sets only grow. -/
def Sheet.Mono (s t : Sheet) : Prop :=
  ∀ p c, s.deref p = some c →
    ∃ c1, t.deref p = some c1 ∧ c.dependent_cells_ ⊆ c1.dependent_cells_ ∧
      c.referenced_cells_ ⊆ c1.referenced_cells_

/-- The cell `c1` has the text and the formula of `c`. -/
def Cell.SameContent (c c1 : Cell) : Prop :=
  c1.text_ = c.text_ ∧ c1.cell_value_ = c.cell_value_

/-- A change of a cell that keeps text and formula, at whatever position. -/
def Cell.Same (_p : Position) (c c1 : Cell) : Prop := Cell.SameContent c c1

/-- A change of a cell that keeps text and formula and only adds to the adjacency sets. -/
def Cell.Grow (_p : Position) (c c1 : Cell) : Prop :=
  Cell.SameContent c c1 ∧ c.dependent_cells_ ⊆ c1.dependent_cells_ ∧
    c.referenced_cells_ ⊆ c1.referenced_cells_

/-- A change of a cell that keeps text and formula unless the cell is the one at `this`. -/
def Cell.Off (this : Position) (p : Position) (c c1 : Cell) : Prop :=
  p ≠ this → Cell.SameContent c c1

/-- The sheet `t` comes from `s` by steps of two kinds: a write through a pointer to a
living cell, allowed by `ok`, and the creation of an empty cell at a position that holds
none, with the counters of its row and column incremented. -/
inductive Sheet.Steps (ok : Position → Cell → Cell → Prop) : Sheet → Sheet → Prop where
  | refl (s : Sheet) : Sheet.Steps ok s s
  | store (s t : Sheet) (p : Position) (c c1 : Cell) :
      Sheet.Steps ok s t → t.deref p = some c → ok p c c1 → Sheet.Steps ok s (t.store p c1)
  | materialize (s t : Sheet) (q : Position) :
      Sheet.Steps ok s t → t.deref q = none → Sheet.Steps ok s (t.materialize q)

/-- The positions that hold a cell. -/
def Sheet.positions (sheet : Sheet) : List Position := sheet.cell_index_.map Prod.fst

/-- The number of cells the sheet stores in row `r`. -/
def Sheet.cellsInRow (sheet : Sheet) (r : Int) : Int :=
  ((sheet.positions.filter (fun p => decide (p.row = r))).length : Int)

/-- The number of cells the sheet stores in column `c`. -/
def Sheet.cellsInCol (sheet : Sheet) (c : Int) : Int :=
  ((sheet.positions.filter (fun p => decide (p.col = c))).length : Int)

/-- Every entry of a counter map is positive. -/
def AllPositive (container : List (Int × Int)) : Prop :=
  ∀ e ∈ container, 0 < e.2

/-- From `s` to `t` the counters move with the stored cells: in every row and column the
difference between the cells stored and the counter is the same, positive counter maps
stay positive, and no position gets a second node. -/
def Sheet.Counted (s t : Sheet) : Prop :=
  (∀ r, t.cellsInRow r - counterAt t.row_elem_count_ r
      = s.cellsInRow r - counterAt s.row_elem_count_ r) ∧
  (∀ c, t.cellsInCol c - counterAt t.col_elem_count_ c
      = s.cellsInCol c - counterAt s.col_elem_count_ c) ∧
  (AllPositive s.row_elem_count_ → AllPositive t.row_elem_count_) ∧
  (AllPositive s.col_elem_count_ → AllPositive t.col_elem_count_) ∧
  (s.positions.Nodup → t.positions.Nodup)

/-- In sheet `t` both cells live, `this` is a dependent of `q` and `q` is a referenced
cell of `this`. -/
def Sheet.LinkedIn (t : Sheet) (this q : Position) : Prop :=
  ∃ cq ct, t.deref q = some cq ∧ t.deref this = some ct ∧ this ∈ cq.dependent_cells_ ∧
    q ∈ ct.referenced_cells_

/-- The printable-zone scenario after its first two calls: A1 = "x", C3 = "y". -/
def scenario6 : Sheet := Sheet.afterSets stdLib {} [(A1, "x"), (C3, "y")]

/-- The counters count the stored cells: in every row and column the counter is the number
of cells stored there, every entry of the counter maps is positive, and no position has
two nodes. -/
def Sheet.Exact (sheet : Sheet) : Prop :=
  (∀ r, counterAt sheet.row_elem_count_ r = sheet.cellsInRow r) ∧
  (∀ c, counterAt sheet.col_elem_count_ c = sheet.cellsInCol c) ∧
  AllPositive sheet.row_elem_count_ ∧ AllPositive sheet.col_elem_count_ ∧
  sheet.positions.Nodup

/-- A call of the host on the sheet. -/
inductive Call where
  | SetCell (pos : Position) (text : String)
  | ClearCell (pos : Position)

/-- Run one call. -/
def Sheet.call (L : Lib) (sheet : Sheet) : Call → Out Unit
  | .SetCell pos text => Sheet.SetCell L pos text sheet
  | .ClearCell pos => Sheet.ClearCell L pos sheet

/-- The sheet after a run of calls none of which throws; `none` when one does not return
normally. -/
def Sheet.run (L : Lib) (sheet : Sheet) : List Call → Option Sheet
  | [] => some sheet
  | c :: rest =>
    match sheet.call L c with
    | (.ok (), sheet1) => Sheet.run L sheet1 rest
    | (.error _, _) => none

/-- An edge of the dependency graph: `d` is in `dependent_cells_` of the cell at `a`. -/
def Sheet.Edge (sheet : Sheet) (a d : Position) : Prop :=
  ∃ c, sheet.deref a = some c ∧ d ∈ c.dependent_cells_

/-- The cell `b` is `a` itself or is reached from `a` by following dependent edges. -/
def Sheet.Reach (sheet : Sheet) (a b : Position) : Prop :=
  Relation.ReflTransGen sheet.Edge a b

/-- Every pointer in a `dependent_cells_` set points to a stored cell. -/
def Sheet.Closed (sheet : Sheet) : Prop :=
  ∀ e ∈ sheet.cell_index_, ∀ d ∈ e.2.dependent_cells_, (sheet.deref d).isSome = true

/-- The total number of entries of the `dependent_cells_` sets of the sheet. -/
def Sheet.totalDependents (sheet : Sheet) : Nat :=
  (sheet.cell_index_.map (fun e => e.2.dependent_cells_.length)).sum

/-- The pointers the search from `this` can ever hold: `this` and the members of the
`dependent_cells_` sets. -/
def Sheet.universe (sheet : Sheet) (this : Position) : Finset Position :=
  (this :: sheet.cell_index_.flatMap (fun e => e.2.dependent_cells_)).toFinset

/-- The number of pointers of `U` not yet in `enter_container`. -/
def unentered (U : Finset Position) (enter_container : List Position) : Nat :=
  (U \ enter_container.toFinset).card

/-- The iterations one element of `to_enter_collection` can still cause: an element that
is already entered may push dependents once more before the number of pointers not yet
entered drops. -/
def loopWeight (d : Nat) (U : Finset Position) (enter_container : List Position)
    (v : Position) : Nat :=
  Cell.FindCircularDependency.bound d
    (unentered U enter_container + if v ∈ enter_container then 1 else 0)

/-- The termination measure of the search loop: the sum of the weights of the elements of
`to_enter_collection`. -/
def loopMeasure (d : Nat) (U : Finset Position) (enter_container : List Position)
    (to_enter_collection : List Position) : Nat :=
  (to_enter_collection.map (loopWeight d U enter_container)).sum

/-- A sheet whose dependent edges form a cycle: A1 and A2 are each a dependent of the
other, and A3 is a cell apart. -/
def cyclicSheet : Sheet :=
  { cell_index_ :=
      [(A1, { dependent_cells_ := [A2] }), (A2, { dependent_cells_ := [A1] }), (A3, {})] }

/-! # Theorems -/

/-! ## Containers -/

theorem Map.find?_cons {κ ν : Type} [DecidableEq κ] (m : List (κ × ν)) (e : κ × ν) (k : κ) :
    Map.find? (e :: m) k = if e.1 = k then some e.2 else Map.find? m k := by
  obtain ⟨k1, v1⟩ := e
  rfl

theorem Map.find?_replace_self {κ ν : Type} [DecidableEq κ] (m : List (κ × ν)) (k : κ)
    (v : ν) (h : (Map.find? m k).isSome = true) :
    Map.find? (m.map (fun e => if e.1 = k then (k, v) else e)) k = some v := by
  induction m with
  | nil => simp [Map.find?] at h
  | cons e m ih =>
    rw [List.map_cons, Map.find?_cons]
    rw [Map.find?_cons] at h
    by_cases hk : e.1 = k
    · rw [if_pos hk, if_pos rfl]
    · rw [if_neg hk] at h
      rw [if_neg hk, if_neg hk]
      exact ih h

theorem Map.find?_replace_other {κ ν : Type} [DecidableEq κ] (m : List (κ × ν)) (k k2 : κ)
    (v : ν) (hne : k2 ≠ k) :
    Map.find? (m.map (fun e => if e.1 = k then (k, v) else e)) k2 = Map.find? m k2 := by
  induction m with
  | nil => rfl
  | cons e m ih =>
    rw [List.map_cons, Map.find?_cons, Map.find?_cons, ih]
    by_cases hk : e.1 = k
    · have h2 : ¬ k = k2 := fun h => hne h.symm
      have h3 : ¬ e.1 = k2 := fun h => h2 (hk ▸ h)
      rw [if_pos hk, if_neg h2, if_neg h3]
    · rw [if_neg hk]

theorem Map.find?_set_self {κ ν : Type} [DecidableEq κ] (m : List (κ × ν)) (k : κ) (v : ν) :
    Map.find? (Map.set m k v) k = some v := by
  unfold Map.set
  split
  · rename_i h
    exact Map.find?_replace_self m k v h
  · simp [Map.find?]

theorem Map.find?_set_other {κ ν : Type} [DecidableEq κ] (m : List (κ × ν)) (k k2 : κ)
    (v : ν) (hne : k2 ≠ k) : Map.find? (Map.set m k v) k2 = Map.find? m k2 := by
  unfold Map.set
  split
  · exact Map.find?_replace_other m k k2 v hne
  · have h2 : ¬ k = k2 := fun h => hne h.symm
    simp [Map.find?, h2]

theorem Map.keys_set {κ ν : Type} [DecidableEq κ] (m : List (κ × ν)) (k : κ) (v : ν) :
    (Map.set m k v).map Prod.fst
      = if (Map.find? m k).isSome then m.map Prod.fst else k :: m.map Prod.fst := by
  unfold Map.set
  split
  · simp only [List.map_map]
    apply List.map_congr_left
    intro e _
    by_cases hk : e.1 = k <;> simp [hk]
  · simp

theorem Map.find?_eq_none {κ ν : Type} [DecidableEq κ] (m : List (κ × ν)) (k : κ) :
    Map.find? m k = none ↔ k ∉ m.map Prod.fst := by
  induction m with
  | nil => simp [Map.find?]
  | cons e m ih =>
    obtain ⟨k1, v1⟩ := e
    by_cases hk : k1 = k
    · simp [Map.find?, hk]
    · have h2 : ¬ k = k1 := fun h => hk h.symm
      simp [Map.find?, hk, h2, ih]

theorem Map.find?_erase_self {κ ν : Type} [DecidableEq κ] (m : List (κ × ν)) (k : κ) :
    Map.find? (Map.erase m k) k = none := by
  rw [Map.find?_eq_none]
  simp [Map.erase, List.mem_map, List.mem_filter]

theorem Map.find?_erase_other {κ ν : Type} [DecidableEq κ] (m : List (κ × ν)) (k k2 : κ)
    (hne : k2 ≠ k) : Map.find? (Map.erase m k) k2 = Map.find? m k2 := by
  induction m with
  | nil => rfl
  | cons e m ih =>
    unfold Map.erase at ih ⊢
    rw [List.filter_cons, Map.find?_cons]
    by_cases hk : e.1 = k
    · have h3 : ¬ e.1 = k2 := fun h => hne (h.symm.trans hk)
      simp only [hk, decide_True, Bool.not_true, Bool.false_eq_true, if_false]
      rw [ih, if_neg (fun h => hne h.symm)]
    · simp only [hk, decide_False, Bool.not_false, if_true]
      rw [Map.find?_cons, ih]

/-! ## Pointers -/

theorem Sheet.deref_store_self (sheet : Sheet) (p : Position) (c : Cell) :
    (sheet.store p c).deref p = some c :=
  Map.find?_set_self _ _ _

theorem Sheet.deref_store_other (sheet : Sheet) (p q : Position) (c : Cell) (hne : q ≠ p) :
    (sheet.store p c).deref q = sheet.deref q :=
  Map.find?_set_other _ _ _ _ hne

theorem Sheet.deref_materialize_self (sheet : Sheet) (q : Position) :
    (sheet.materialize q).deref q = some {} :=
  Map.find?_set_self _ _ _

theorem Sheet.deref_materialize_other (sheet : Sheet) (q p : Position) (hne : p ≠ q) :
    (sheet.materialize q).deref p = sheet.deref p :=
  Map.find?_set_other _ _ _ _ hne


/-! ## The calls back into SetCell -/

theorem Map.set_present {κ ν : Type} [DecidableEq κ] (m : List (κ × ν)) (k : κ) (v : ν)
    (h : (Map.find? m k).isSome = true) :
    Map.set m k v = m.map (fun e => if e.1 = k then (k, v) else e) := by
  unfold Map.set
  rw [if_pos h]

theorem Map.set_absent {κ ν : Type} [DecidableEq κ] (m : List (κ × ν)) (k : κ) (v : ν)
    (h : Map.find? m k = none) : Map.set m k v = (k, v) :: m := by
  unfold Map.set
  rw [h]
  rfl

theorem Map.set_set {κ ν : Type} [DecidableEq κ] (m : List (κ × ν)) (k : κ) (v w : ν) :
    Map.set (Map.set m k v) k w = Map.set m k w := by
  have hs : (Map.find? (Map.set m k v) k).isSome = true := by
    rw [Map.find?_set_self]; rfl
  rw [Map.set_present _ k w hs]
  cases h : Map.find? m k with
  | some x =>
    have hp : (Map.find? m k).isSome = true := by rw [h]; rfl
    rw [Map.set_present m k v hp, Map.set_present m k w hp, List.map_map]
    apply List.map_congr_left
    intro e _
    by_cases hk : e.1 = k <;> simp [hk]
  | none =>
    rw [Map.set_absent m k v h, Map.set_absent m k w h, List.map_cons, if_pos rfl]
    congr 1
    have hmem := (Map.find?_eq_none m k).1 h
    conv_rhs => rw [← List.map_id m]
    apply List.map_congr_left
    intro e he
    have : e.1 ≠ k := fun h => hmem (h ▸ List.mem_map_of_mem Prod.fst he)
    simp [this]

theorem Sheet.store_store (sheet : Sheet) (p : Position) (c d : Cell) :
    (sheet.store p c).store p d = sheet.store p d := by
  unfold Sheet.store
  simp only [Map.set_set]

theorem Sheet.deref_modify_self (sheet : Sheet) (p : Position) (f : Cell → Cell) :
    (sheet.modify p f).deref p = (sheet.deref p).map f := by
  unfold Sheet.modify
  cases h : sheet.deref p with
  | none => simp [h]
  | some c => simp [Sheet.deref_store_self]

theorem Sheet.deref_modify_other (sheet : Sheet) (p q : Position) (f : Cell → Cell)
    (hne : q ≠ p) : (sheet.modify p f).deref q = sheet.deref q := by
  unfold Sheet.modify
  cases h : sheet.deref p with
  | none => rfl
  | some c => exact Sheet.deref_store_other _ _ _ _ hne

theorem Sheet.modify_of_deref (sheet : Sheet) (p : Position) (f : Cell → Cell) (c : Cell)
    (h : sheet.deref p = some c) : sheet.modify p f = sheet.store p (f c) := by
  unfold Sheet.modify
  rw [h]

theorem Sheet.SetCellWith_empty (L : Lib) (S : Position → String → Sheet → Out Unit)
    (q : Position) (sheet : Sheet) (hv : q.IsValid L = true) (hq : sheet.deref q = none) :
    Sheet.SetCellWith L S q "" sheet = (.ok (), sheet.materialize q) := by
  have h0 : (Cell.moveConstruct {}).1 = ({} : Cell) := rfl
  have hd : (sheet.store q {}).deref q = some {} := Sheet.deref_store_self _ _ _
  have hset : Cell.Set L S q "" (sheet.store q {}) = (.ok (), sheet.store q {}) := by
    unfold Cell.Set
    rw [hd]
    have hi : Cell.IsInitialized ({} : Cell) = false := rfl
    have hl : ¬ (2 ≤ "".length) := by decide
    simp only [hi, if_neg hl, Bool.false_eq_true, if_false]
    rw [Sheet.modify_of_deref _ _ _ _ hd, Sheet.store_store]
  unfold Sheet.SetCellWith
  simp only [hv, Bool.not_true, Bool.false_eq_true, if_false, hq, h0, hset]
  rfl

theorem Sheet.SetCellN_materializes (L : Lib) (n : Nat) :
    Materializes L (Sheet.SetCellN L (n + 1)) := by
  intro q sheet hv hq
  exact Sheet.SetCellWith_empty L _ q sheet hv hq

theorem Sheet.GetCell_valid (L : Lib) (sheet : Sheet) (q : Position)
    (hv : q.IsValid L = true) :
    sheet.GetCell L q = .ok (if (sheet.deref q).isSome then some q else none) := by
  unfold Sheet.GetCell Sheet.GetCellInternal
  simp only [hv, Bool.not_true, Bool.false_eq_true, if_false]
  split <;> rfl

theorem Sheet.ensure_present (sheet : Sheet) (q : Position) :
    ((sheet.ensure q).deref q).isSome = true := by
  unfold Sheet.ensure
  split
  · assumption
  · rw [Sheet.deref_materialize_self]; rfl

theorem Cell.link_valid (L : Lib) (S : Position → String → Sheet → Out Unit)
    (hS : Materializes L S) (this q : Position) (sheet : Sheet) (hv : q.IsValid L = true) :
    Cell.link L S this q sheet = (.ok (), (sheet.ensure q).linked this q) := by
  have hmade : ∀ t : Sheet, (t.deref q).isSome = true →
      (match (t.modify this
          (fun c => { c with referenced_cells_ := List.insert q c.referenced_cells_ })).deref q with
        | none => ((.error .DanglingPointer, t.modify this
            (fun c => { c with referenced_cells_ := List.insert q c.referenced_cells_ })) : Out Unit)
        | some rc => (.ok (), (t.modify this
            (fun c => { c with referenced_cells_ := List.insert q c.referenced_cells_ })).store q
              { rc with dependent_cells_ := List.insert this rc.dependent_cells_ }))
        = (.ok (), t.linked this q) := by
    intro t ht
    have hp : ((t.modify this
          (fun c => { c with referenced_cells_ := List.insert q c.referenced_cells_ })).deref
            q).isSome = true := by
      by_cases hq : q = this
      · subst hq
        rw [Sheet.deref_modify_self]
        cases h : t.deref q with
        | none => rw [h] at ht; exact absurd ht (by decide)
        | some c => rfl
      · rw [Sheet.deref_modify_other _ _ _ _ hq]; exact ht
    cases h : (t.modify this
          (fun c => { c with referenced_cells_ := List.insert q c.referenced_cells_ })).deref q with
    | none => rw [h] at hp; exact absurd hp (by decide)
    | some rc =>
      simp only []
      unfold Sheet.linked
      rw [Sheet.modify_of_deref _ _ _ _ h]
  unfold Cell.link
  rw [Sheet.GetCell_valid L sheet q hv]
  cases hq : sheet.deref q with
  | some c =>
    have he : sheet.ensure q = sheet := by unfold Sheet.ensure; rw [hq]; rfl
    simp only [Option.isSome_some, if_true]
    rw [he]
    exact hmade sheet (by rw [hq]; rfl)
  | none =>
    have he : sheet.ensure q = sheet.materialize q := by unfold Sheet.ensure; rw [hq]; rfl
    have hm : ((sheet.materialize q).deref q).isSome = true := by
      rw [Sheet.deref_materialize_self]; rfl
    simp only [Option.isSome_none, Bool.false_eq_true, if_false, hS q sheet hv hq,
      Sheet.GetCell_valid L _ q hv, hm, if_true]
    rw [he]
    exact hmade _ hm

/-! ## Steps -/

theorem Sheet.steps_trans {ok : Position → Cell → Cell → Prop} {s t u : Sheet}
    (h1 : Sheet.Steps ok s t) (h2 : Sheet.Steps ok t u) : Sheet.Steps ok s u := by
  induction h2 with
  | refl => exact h1
  | store t2 p c c1 _ hd hok ih => exact Sheet.Steps.store _ _ p c c1 ih hd hok
  | materialize t2 q _ hd ih => exact Sheet.Steps.materialize _ _ q ih hd

theorem Sheet.steps_weaken {ok ok2 : Position → Cell → Cell → Prop} {s t : Sheet}
    (hw : ∀ p c c1, ok p c c1 → ok2 p c c1) (h : Sheet.Steps ok s t) :
    Sheet.Steps ok2 s t := by
  induction h with
  | refl => exact Sheet.Steps.refl _
  | store t2 p c c1 _ hd hok ih => exact Sheet.Steps.store _ _ p c c1 ih hd (hw _ _ _ hok)
  | materialize t2 q _ hd ih => exact Sheet.Steps.materialize _ _ q ih hd

theorem Sheet.steps_store {ok : Position → Cell → Cell → Prop} (s : Sheet) (p : Position)
    (c c1 : Cell) (hd : s.deref p = some c) (hok : ok p c c1) :
    Sheet.Steps ok s (s.store p c1) :=
  Sheet.Steps.store _ _ p c c1 (Sheet.Steps.refl _) hd hok

theorem Sheet.steps_modify {ok : Position → Cell → Cell → Prop} (s : Sheet) (p : Position)
    (f : Cell → Cell) (hok : ∀ c, ok p c (f c)) : Sheet.Steps ok s (s.modify p f) := by
  unfold Sheet.modify
  cases h : s.deref p with
  | none => exact Sheet.Steps.refl _
  | some c => exact Sheet.steps_store s p c (f c) h (hok c)

theorem Sheet.steps_ensure {ok : Position → Cell → Cell → Prop} (s : Sheet) (q : Position) :
    Sheet.Steps ok s (s.ensure q) := by
  unfold Sheet.ensure
  cases h : s.deref q with
  | none => exact Sheet.Steps.materialize _ _ q (Sheet.Steps.refl _) h
  | some c => exact Sheet.Steps.refl _

theorem Sheet.steps_linked (s : Sheet) (this q : Position) :
    Sheet.Steps Cell.Grow s (s.linked this q) := by
  unfold Sheet.linked
  refine Sheet.steps_trans (Sheet.steps_modify s this _ ?_) (Sheet.steps_modify _ q _ ?_)
  · intro c
    exact ⟨⟨rfl, rfl⟩, List.Subset.refl _, fun x hx => List.mem_insert_of_mem hx⟩
  · intro c
    exact ⟨⟨rfl, rfl⟩, fun x hx => List.mem_insert_of_mem hx, List.Subset.refl _⟩

theorem Cell.link_steps (L : Lib) (S : Position → String → Sheet → Out Unit)
    (hS : Materializes L S) (this q : Position) (sheet : Sheet) :
    Sheet.Steps Cell.Grow sheet (Cell.link L S this q sheet).2 := by
  by_cases hv : q.IsValid L = true
  · rw [Cell.link_valid L S hS this q sheet hv]
    exact Sheet.steps_trans (Sheet.steps_ensure sheet q) (Sheet.steps_linked _ this q)
  · have : Cell.link L S this q sheet = (.error .InvalidPositionException, sheet) := by
      unfold Cell.link Sheet.GetCell Sheet.GetCellInternal
      simp [hv]
    rw [this]
    exact Sheet.Steps.refl _

theorem Cell.Refresh.attach_steps (L : Lib) (S : Position → String → Sheet → Out Unit)
    (hS : Materializes L S) (this : Position) (qs : List Position) (sheet : Sheet) :
    Sheet.Steps Cell.Grow sheet (Cell.Refresh.attach L S this qs sheet).2 := by
  induction qs generalizing sheet with
  | nil => exact Sheet.Steps.refl _
  | cons q rest ih =>
    unfold Cell.Refresh.attach
    have h1 := Cell.link_steps L S hS this q sheet
    cases h : Cell.link L S this q sheet with
    | mk r sheet1 =>
      rw [h] at h1
      cases r with
      | error x => exact h1
      | ok u => exact Sheet.steps_trans h1 (ih sheet1)

theorem Cell.Refresh.detach_steps (this : Position) (rs : List Position) (sheet : Sheet) :
    Sheet.Steps Cell.Same sheet (Cell.Refresh.detach this rs sheet).2 := by
  induction rs generalizing sheet with
  | nil => exact Sheet.Steps.refl _
  | cons r rest ih =>
    unfold Cell.Refresh.detach
    cases h : sheet.deref r with
    | none => exact Sheet.Steps.refl _
    | some c =>
      dsimp only
      refine Sheet.steps_trans ?_ (ih _)
      exact Sheet.steps_store sheet r c _ h ⟨rfl, rfl⟩

theorem Cell.Refresh_steps (L : Lib) (S : Position → String → Sheet → Out Unit)
    (hS : Materializes L S) (this : Position) (sheet : Sheet) :
    Sheet.Steps Cell.Same sheet (Cell.Refresh L S this sheet).2 := by
  unfold Cell.Refresh
  cases h : sheet.deref this with
  | none => exact Sheet.Steps.refl _
  | some c =>
    dsimp only
    have h1 := Cell.Refresh.detach_steps this c.referenced_cells_ sheet
    cases hd : Cell.Refresh.detach this c.referenced_cells_ sheet with
    | mk r sheet1 =>
      rw [hd] at h1
      cases r with
      | error x => exact h1
      | ok u =>
        dsimp only
        have h2 : Sheet.Steps Cell.Same sheet1
            (sheet1.modify this (fun c => { c with referenced_cells_ := [] })) :=
          Sheet.steps_modify _ _ _ (fun c => ⟨rfl, rfl⟩)
        cases hv : ((sheet1.modify this
            (fun c => { c with referenced_cells_ := [] })).deref this).bind Cell.cell_value_ with
        | none => exact Sheet.steps_trans h1 h2
        | some cell_value =>
          exact Sheet.steps_trans h1 (Sheet.steps_trans h2
            (Sheet.steps_weaken (fun _ _ _ hg => hg.1)
              (Cell.Refresh.attach_steps L S hS this _ _)))

theorem Cell.InvalidateCache_grow (p : Position) (c : Cell) : Cell.Grow p c c.InvalidateCache := by
  unfold Cell.InvalidateCache
  split
  · exact ⟨⟨rfl, rfl⟩, List.Subset.refl _, List.Subset.refl _⟩
  · exact ⟨⟨rfl, rfl⟩, List.Subset.refl _, List.Subset.refl _⟩

theorem Cell.Set.invalidateDependents_steps (ds : List Position) (sheet : Sheet) :
    Sheet.Steps Cell.Grow sheet (Cell.Set.invalidateDependents ds sheet).2 := by
  induction ds generalizing sheet with
  | nil => exact Sheet.Steps.refl _
  | cons d rest ih =>
    unfold Cell.Set.invalidateDependents
    cases h : sheet.deref d with
    | none => exact Sheet.Steps.refl _
    | some c =>
      dsimp only
      refine Sheet.steps_trans ?_ (ih _)
      exact Sheet.steps_store sheet d c _ h (Cell.InvalidateCache_grow d c)

theorem Cell.Set.invalidate_steps (this : Position) (sheet : Sheet) :
    Sheet.Steps Cell.Grow sheet (Cell.Set.invalidate this sheet).2 := by
  unfold Cell.Set.invalidate
  cases h : sheet.deref this with
  | none => exact Sheet.Steps.refl _
  | some c =>
    dsimp only
    split
    · exact Sheet.steps_trans
        (Sheet.steps_store sheet this c _ h (Cell.InvalidateCache_grow this c))
        (Cell.Set.invalidateDependents_steps _ _)
    · exact Sheet.Steps.refl _

theorem Cell.Set.formulaPos_steps (L : Lib) (S : Position → String → Sheet → Out Unit)
    (hS : Materializes L S) (this : Position) (sheet : Sheet) :
    Sheet.Steps Cell.Grow sheet (Cell.Set.formulaPos L S this sheet).2 := by
  unfold Cell.Set.formulaPos
  cases h : sheet.deref this with
  | none => exact Sheet.Steps.refl _
  | some c =>
    dsimp only
    split
    · exact Cell.link_steps L S hS this _ sheet
    · exact Sheet.Steps.refl _

theorem Cell.off_self (this : Position) (c c1 : Cell) : Cell.Off this this c c1 :=
  fun h => absurd rfl h

theorem Cell.off_of_grow (this p : Position) (c c1 : Cell) (h : Cell.Grow p c c1) :
    Cell.Off this p c c1 :=
  fun _ => h.1

theorem Cell.off_of_same (this p : Position) (c c1 : Cell) (h : Cell.Same p c c1) :
    Cell.Off this p c c1 :=
  fun _ => h

theorem Cell.Set.commit_steps (L : Lib) (S : Position → String → Sheet → Out Unit)
    (hS : Materializes L S) (this : Position) (f : Formula) (sheet2 : Sheet) :
    Sheet.Steps (Cell.Off this) sheet2 (Cell.Set.commit L S this f sheet2).2 := by
  unfold Cell.Set.commit
  dsimp only
  cases hfound : (if !(f.GetReferencedCells L).isEmpty then
            Cell.FindCircularDependency L this (f.GetReferencedCells L) sheet2
          else .ok false : Except Exception Bool) with
  | error x => exact Sheet.Steps.refl _
  | ok b =>
    cases b with
    | true => exact Sheet.Steps.refl _
    | false =>
      dsimp only
      have h3 : Sheet.Steps (Cell.Off this) sheet2
          (sheet2.modify this (fun c => { c with cell_value_ := some f })) :=
        Sheet.steps_modify _ _ _ (fun c => Cell.off_self this _ _)
      have h4 := Sheet.steps_weaken (Cell.off_of_same this)
        (Cell.Refresh_steps L S hS this
          (sheet2.modify this (fun c => { c with cell_value_ := some f })))
      cases hr : Cell.Refresh L S this
          (sheet2.modify this (fun c => { c with cell_value_ := some f })) with
      | mk r4 sheet4 =>
        rw [hr] at h4
        cases r4 with
        | error x => exact Sheet.steps_trans h3 h4
        | ok u4 =>
          exact Sheet.steps_trans h3 (Sheet.steps_trans h4
            (Sheet.steps_weaken (Cell.off_of_grow this)
              (Cell.Set.invalidate_steps this sheet4)))

theorem Cell.Set_steps (L : Lib) (S : Position → String → Sheet → Out Unit)
    (hS : Materializes L S) (this : Position) (text : String) (sheet : Sheet) :
    Sheet.Steps (Cell.Off this) sheet (Cell.Set L S this text sheet).2 := by
  unfold Cell.Set
  cases h : sheet.deref this with
  | none => exact Sheet.Steps.refl _
  | some c0 =>
    dsimp only
    have h0 : Sheet.Steps (Cell.Off this) sheet
        (if c0.IsInitialized then sheet.store this c0.Clear else sheet) := by
      split
      · exact Sheet.steps_store sheet this c0 _ h (Cell.off_self this _ _)
      · exact Sheet.Steps.refl _
    have htext : Sheet.Steps (Cell.Off this) sheet
        ((if c0.IsInitialized then sheet.store this c0.Clear else sheet).modify this
          (fun c => { c with text_ := text })) :=
      Sheet.steps_trans h0 (Sheet.steps_modify _ _ _ (fun c => Cell.off_self this _ _))
    split
    · split
      · cases hp : ParseFormula L
            (if charAt text 1 == ESCAPE_SIGN then substr text 2 else substr text 1) with
        | none => exact h0
        | some f =>
          dsimp only
          have h1 : Sheet.Steps (Cell.Off this) sheet
              ((if c0.IsInitialized then sheet.store this c0.Clear else sheet).modify this
                (fun c =>
                  { c with text_ := (String.singleton FORMULA_SIGN ++ f.GetExpression L) })) :=
            Sheet.steps_trans h0 (Sheet.steps_modify _ _ _ (fun c => Cell.off_self this _ _))
          have h2 := Sheet.steps_weaken (Cell.off_of_grow this)
            (Cell.Set.formulaPos_steps L S hS this
              ((if c0.IsInitialized then sheet.store this c0.Clear else sheet).modify this
                (fun c =>
                  { c with text_ := (String.singleton FORMULA_SIGN ++ f.GetExpression L) })))
          cases hfp : Cell.Set.formulaPos L S this
              ((if c0.IsInitialized then sheet.store this c0.Clear else sheet).modify this
                (fun c =>
                  { c with text_ := (String.singleton FORMULA_SIGN ++ f.GetExpression L) })) with
          | mk r sheet2 =>
            rw [hfp] at h2
            cases r with
            | error x => exact Sheet.steps_trans h1 h2
            | ok u =>
              exact Sheet.steps_trans h1 (Sheet.steps_trans h2
                (Cell.Set.commit_steps L S hS this f sheet2))
      · exact htext
    · exact htext

/-! ## What steps preserve -/

theorem Sheet.kept_of_steps {ok : Position → Cell → Cell → Prop} {P : Position → Prop}
    {s t : Sheet} (hw : ∀ p c c1, ok p c c1 → P p → Cell.SameContent c c1)
    (h : Sheet.Steps ok s t) : Sheet.Kept P s t := by
  induction h with
  | refl =>
    intro p _
    refine ⟨fun c hc => ⟨c, hc, rfl, rfl⟩, fun hn c1 hc1 => ?_⟩
    rw [hn] at hc1
    exact absurd hc1 (by simp)
  | store t2 p0 c c1 _ hd hok ih =>
    intro p hP
    by_cases hp : p = p0
    · subst hp
      have hsame := hw p c c1 hok hP
      rw [Sheet.deref_store_self]
      refine ⟨fun cs hcs => ?_, fun hn c1x hc1x => ?_⟩
      · obtain ⟨ct, hct, h1, h2⟩ := (ih p hP).1 cs hcs
        rw [hd] at hct
        cases hct
        exact ⟨c1, rfl, hsame.1.trans h1, hsame.2.trans h2⟩
      · cases hc1x
        have := (ih p hP).2 hn c hd
        exact ⟨hsame.1.trans this.1, hsame.2.trans this.2⟩
    · rw [Sheet.deref_store_other _ _ _ _ hp]
      exact ih p hP
  | materialize t2 q _ hd ih =>
    intro p hP
    by_cases hp : p = q
    · subst hp
      rw [Sheet.deref_materialize_self]
      refine ⟨fun cs hcs => ?_, fun hn c1x hc1x => ?_⟩
      · obtain ⟨ct, hct, _, _⟩ := (ih p hP).1 cs hcs
        rw [hd] at hct
        exact absurd hct (by simp)
      · cases hc1x
        exact ⟨rfl, rfl⟩
    · rw [Sheet.deref_materialize_other _ _ _ hp]
      exact ih p hP

theorem Sheet.mono_of_steps {s t : Sheet} (h : Sheet.Steps Cell.Grow s t) : Sheet.Mono s t := by
  induction h with
  | refl => exact fun p c hc => ⟨c, hc, List.Subset.refl _, List.Subset.refl _⟩
  | store t2 p0 c c1 _ hd hok ih =>
    intro p cs hcs
    obtain ⟨ct, hct, h1, h2⟩ := ih p cs hcs
    by_cases hp : p = p0
    · subst hp
      rw [hd] at hct
      cases hct
      rw [Sheet.deref_store_self]
      exact ⟨c1, rfl, List.Subset.trans h1 hok.2.1, List.Subset.trans h2 hok.2.2⟩
    · rw [Sheet.deref_store_other _ _ _ _ hp]
      exact ⟨ct, hct, h1, h2⟩
  | materialize t2 q _ hd ih =>
    intro p cs hcs
    obtain ⟨ct, hct, h1, h2⟩ := ih p cs hcs
    by_cases hp : p = q
    · subst hp
      rw [hd] at hct
      exact absurd hct (by simp)
    · rw [Sheet.deref_materialize_other _ _ _ hp]
      exact ⟨ct, hct, h1, h2⟩

theorem Sheet.kept_all_of_same {s t : Sheet} (h : Sheet.Steps Cell.Same s t) :
    Sheet.Kept (fun _ => True) s t :=
  Sheet.kept_of_steps (fun _ _ _ hok _ => hok) h

theorem Sheet.kept_all_of_grow {s t : Sheet} (h : Sheet.Steps Cell.Grow s t) :
    Sheet.Kept (fun _ => True) s t :=
  Sheet.kept_of_steps (fun _ _ _ hok _ => hok.1) h

theorem Sheet.kept_off_of_steps {s t : Sheet} {this : Position}
    (h : Sheet.Steps (Cell.Off this) s t) : Sheet.Kept (fun p => p ≠ this) s t :=
  Sheet.kept_of_steps (fun _ _ _ hok hp => hok hp) h

theorem Sheet.linkedIn_mono {s t : Sheet} (h : Sheet.Mono s t) (this q : Position)
    (hl : s.LinkedIn this q) : t.LinkedIn this q := by
  obtain ⟨cq, ct, hq, ht, h1, h2⟩ := hl
  obtain ⟨cq1, hq1, hs1, _⟩ := h q cq hq
  obtain ⟨ct1, ht1, _, hs2⟩ := h this ct ht
  exact ⟨cq1, ct1, hq1, ht1, hs1 h1, hs2 h2⟩

theorem Sheet.linked_linkedIn (t : Sheet) (this q : Position)
    (ht : (t.deref this).isSome = true) (hq : (t.deref q).isSome = true) :
    (t.linked this q).LinkedIn this q := by
  unfold Sheet.linked Sheet.LinkedIn
  cases hct : t.deref this with
  | none => rw [hct] at ht; exact absurd ht (by decide)
  | some ct0 =>
    cases hcq : t.deref q with
    | none => rw [hcq] at hq; exact absurd hq (by decide)
    | some cq0 =>
      by_cases hqt : q = this
      · subst hqt
        rw [Sheet.deref_modify_self, Sheet.deref_modify_self, hct]
        exact ⟨_, _, rfl, rfl, List.mem_insert_self _ _,
          List.mem_insert_self _ _⟩
      · have htq : this ≠ q := fun h => hqt h.symm
        rw [Sheet.deref_modify_self, Sheet.deref_modify_other _ _ _ _ hqt,
          Sheet.deref_modify_other _ _ _ _ htq, Sheet.deref_modify_self, hct, hcq]
        exact ⟨_, _, rfl, rfl, List.mem_insert_self _ _, List.mem_insert_self _ _⟩

theorem Sheet.stays_of_steps {ok : Position → Cell → Cell → Prop} {s t : Sheet}
    (h : Sheet.Steps ok s t) (p : Position) (hp : (s.deref p).isSome = true) :
    (t.deref p).isSome = true := by
  induction h with
  | refl => exact hp
  | store t2 p0 c c1 _ hd hok ih =>
    by_cases hpp : p = p0
    · subst hpp; rw [Sheet.deref_store_self]; rfl
    · rw [Sheet.deref_store_other _ _ _ _ hpp]; exact ih
  | materialize t2 q _ hd ih =>
    by_cases hpp : p = q
    · subst hpp; rw [Sheet.deref_materialize_self]; rfl
    · rw [Sheet.deref_materialize_other _ _ _ hpp]; exact ih

theorem Cell.Refresh.attach_linked (L : Lib) (S : Position → String → Sheet → Out Unit)
    (hS : Materializes L S) (this : Position) (qs : List Position) (sheet : Sheet)
    (ht : (sheet.deref this).isSome = true) (hv : ∀ q ∈ qs, q.IsValid L = true) :
    (Cell.Refresh.attach L S this qs sheet).1 = .ok () ∧
      ∀ q ∈ qs, (Cell.Refresh.attach L S this qs sheet).2.LinkedIn this q := by
  induction qs generalizing sheet with
  | nil => exact ⟨rfl, fun q hq => absurd hq (List.not_mem_nil q)⟩
  | cons q rest ih =>
    have hvq := hv q (List.mem_cons_self _ _)
    unfold Cell.Refresh.attach
    rw [Cell.link_valid L S hS this q sheet hvq]
    dsimp only
    have hte : ((sheet.ensure q).deref this).isSome = true :=
      Sheet.stays_of_steps (@Sheet.steps_ensure Cell.Grow sheet q) this ht
    have hl := Sheet.linked_linkedIn (sheet.ensure q) this q hte (Sheet.ensure_present sheet q)
    have ht1 : (((sheet.ensure q).linked this q).deref this).isSome = true :=
      Sheet.stays_of_steps (Sheet.steps_linked _ this q) this hte
    obtain ⟨ih1, ih2⟩ := ih ((sheet.ensure q).linked this q) ht1
      (fun x hx => hv x (List.mem_cons_of_mem _ hx))
    refine ⟨ih1, fun x hx => ?_⟩
    rcases List.mem_cons.1 hx with hxq | hxr
    · subst hxq
      exact Sheet.linkedIn_mono
        (Sheet.mono_of_steps (Cell.Refresh.attach_steps L S hS this rest _)) this x hl
    · exact ih2 x hxr

/-! ## Referenced cells and the cycle check -/

theorem mem_setInsert (x p : Position) (s : List Position) :
    x ∈ setInsert p s ↔ x = p ∨ x ∈ s := by
  induction s with
  | nil => simp [setInsert]
  | cons q s ih =>
    unfold setInsert
    by_cases hpq : p = q
    · subst hpq
      simp
    · rw [if_neg hpq]
      by_cases hlt : p.lt q = true
      · rw [if_pos hlt]; simp
      · rw [if_neg hlt, List.mem_cons, ih, List.mem_cons]
        constructor
        · rintro (h | h | h)
          · exact Or.inr (Or.inl h)
          · exact Or.inl h
          · exact Or.inr (Or.inr h)
        · rintro (h | h | h)
          · exact Or.inr (Or.inl h)
          · exact Or.inl h
          · exact Or.inr (Or.inr h)

theorem Formula.GetReferencedCells_valid (L : Lib) (f : Formula) :
    ∀ q ∈ f.GetReferencedCells L, q.IsValid L = true := by
  unfold Formula.GetReferencedCells
  have key : ∀ (cells : List Position) (acc : List Position),
      (∀ q ∈ acc, q.IsValid L = true) →
      ∀ q ∈ cells.foldl
        (fun cells cell => if cell.IsValid L then setInsert cell cells else cells) acc,
        q.IsValid L = true := by
    intro cells
    induction cells with
    | nil => exact fun acc h => h
    | cons c rest ih =>
      intro acc hacc
      rw [List.foldl_cons]
      apply ih
      by_cases hc : c.IsValid L = true
      · rw [if_pos hc]
        intro q hq
        rcases (mem_setInsert q c acc).1 hq with h | h
        · rw [h]; exact hc
        · exact hacc q h
      · rw [if_neg hc]; exact hacc
  exact key _ [] (fun q hq => absurd hq (List.not_mem_nil q))

theorem Cell.FindCircularDependency.refs_mem (L : Lib) (sheet : Sheet) (ref : List Position) :
    ∀ (acc rc : List (Option Position)),
      Cell.FindCircularDependency.refs L sheet ref acc = .ok rc →
      (∀ x ∈ acc, x ∈ rc) ∧ ∀ q ∈ ref, (sheet.deref q).isSome = true → some q ∈ rc := by
  induction ref with
  | nil =>
    intro acc rc h
    unfold Cell.FindCircularDependency.refs at h
    cases h
    exact ⟨fun x hx => hx, fun q hq => absurd hq (List.not_mem_nil q)⟩
  | cons p rest ih =>
    intro acc rc h
    unfold Cell.FindCircularDependency.refs at h
    by_cases hv : p.IsValid L = true
    · rw [Sheet.GetCell_valid L sheet p hv] at h
      dsimp only at h
      obtain ⟨h1, h2⟩ := ih _ rc h
      refine ⟨fun x hx => h1 x (List.mem_insert_of_mem hx), fun q hq hpres => ?_⟩
      rcases List.mem_cons.1 hq with hqp | hqr
      · subst hqp
        apply h1
        rw [hpres]
        exact List.mem_insert_self _ _
      · exact h2 q hqr hpres
    · have : sheet.GetCell L p = .error .InvalidPositionException := by
        unfold Sheet.GetCell Sheet.GetCellInternal
        simp [hv]
      rw [this] at h
      cases h

theorem Cell.FindCircularDependency_self (L : Lib) (this : Position) (ref : List Position)
    (sheet : Sheet) (hmem : this ∈ ref) (hpres : (sheet.deref this).isSome = true) :
    Cell.FindCircularDependency L this ref sheet ≠ .ok false := by
  unfold Cell.FindCircularDependency
  cases h : Cell.FindCircularDependency.refs L sheet ref [] with
  | error x => simp
  | ok rc =>
    dsimp only
    have hin := (Cell.FindCircularDependency.refs_mem L sheet ref [] rc h).2 this hmem hpres
    have hb : Cell.FindCircularDependency.budget sheet
        = (Cell.FindCircularDependency.budget sheet - 1) + 1 := by
      unfold Cell.FindCircularDependency.budget
      simp
    rw [hb]
    unfold Cell.FindCircularDependency.loop
    simp [hin]

theorem Cell.Refresh_linked (L : Lib) (S : Position → String → Sheet → Out Unit)
    (hS : Materializes L S) (this : Position) (sheet sheet4 : Sheet) (c3 : Cell) (f : Formula)
    (h3 : sheet.deref this = some c3) (hf : c3.cell_value_ = some f)
    (hr : Cell.Refresh L S this sheet = (.ok (), sheet4)) :
    ∀ q ∈ f.GetReferencedCells L, sheet4.LinkedIn this q := by
  unfold Cell.Refresh at hr
  rw [h3] at hr
  dsimp only at hr
  have hk := Sheet.kept_all_of_same (Cell.Refresh.detach_steps this c3.referenced_cells_ sheet)
  cases hd : Cell.Refresh.detach this c3.referenced_cells_ sheet with
  | mk r sheet1 =>
    rw [hd] at hr hk
    cases r with
    | error x => cases hr
    | ok u =>
      dsimp only at hr hk
      obtain ⟨c1, hc1, _, hv1⟩ := (hk this trivial).1 c3 h3
      have h2 : (sheet1.modify this (fun c => { c with referenced_cells_ := [] })).deref this
          = some { c1 with referenced_cells_ := [] } := by
        rw [Sheet.deref_modify_self, hc1]; rfl
      rw [h2] at hr
      have hbind : (some ({ c1 with referenced_cells_ := [] } : Cell)).bind Cell.cell_value_
          = some f := by
        simp [hv1, hf]
      rw [hbind] at hr
      dsimp only at hr
      have ha := Cell.Refresh.attach_linked L S hS this (f.GetReferencedCells L)
        (sheet1.modify this (fun c => { c with referenced_cells_ := [] }))
        (by rw [h2]; rfl) (Formula.GetReferencedCells_valid L f)
      rw [hr] at ha
      exact ha.2

/-! ## What a successful Set leaves at its cell -/

theorem Cell.Set.commit_spec (L : Lib) (S : Position → String → Sheet → Out Unit)
    (hS : Materializes L S) (this : Position) (f : Formula) (sheet2 sheet5 : Sheet)
    (c2 : Cell) (h2 : sheet2.deref this = some c2)
    (h : Cell.Set.commit L S this f sheet2 = (.ok (), sheet5)) :
    this ∉ f.GetReferencedCells L ∧
      (∃ c, sheet5.deref this = some c ∧ c.text_ = c2.text_ ∧ c.cell_value_ = some f) ∧
      ∀ q ∈ f.GetReferencedCells L, sheet5.LinkedIn this q := by
  unfold Cell.Set.commit at h
  dsimp only at h
  cases hfound : (if !(f.GetReferencedCells L).isEmpty then
            Cell.FindCircularDependency L this (f.GetReferencedCells L) sheet2
          else .ok false : Except Exception Bool) with
  | error x => rw [hfound] at h; cases h
  | ok b =>
    rw [hfound] at h
    cases b with
    | true => cases h
    | false =>
      dsimp only at h
      have hnot : this ∉ f.GetReferencedCells L := by
        intro hmem
        have hne : (f.GetReferencedCells L).isEmpty = false := by
          cases hl : f.GetReferencedCells L with
          | nil => rw [hl] at hmem; exact absurd hmem (List.not_mem_nil _)
          | cons a l => rfl
        rw [hne] at hfound
        exact Cell.FindCircularDependency_self L this _ sheet2 hmem (by rw [h2]; rfl) hfound
      have h3 : (sheet2.modify this (fun c => { c with cell_value_ := some f })).deref this
          = some { c2 with cell_value_ := some f } := by
        rw [Sheet.deref_modify_self, h2]; rfl
      have hk4 := Sheet.kept_all_of_same (Cell.Refresh_steps L S hS this
        (sheet2.modify this (fun c => { c with cell_value_ := some f })))
      cases hr : Cell.Refresh L S this
          (sheet2.modify this (fun c => { c with cell_value_ := some f })) with
      | mk r4 sheet4 =>
        rw [hr] at h hk4
        cases r4 with
        | error x => cases h
        | ok u4 =>
          dsimp only at h hk4
          have hl4 := Cell.Refresh_linked L S hS this _ sheet4 _ f h3 rfl hr
          have hs5 := Cell.Set.invalidate_steps this sheet4
          rw [h] at hs5
          dsimp only at hs5
          obtain ⟨c4, hc4, ht4, hv4⟩ := (hk4 this trivial).1 _ h3
          obtain ⟨c5, hc5, ht5, hv5⟩ := (Sheet.kept_all_of_grow hs5 this trivial).1 c4 hc4
          refine ⟨hnot, ⟨c5, hc5, ?_, ?_⟩, fun q hq => ?_⟩
          · rw [ht5, ht4]
          · rw [hv5, hv4]
          · exact Sheet.linkedIn_mono (Sheet.mono_of_steps hs5) this q (hl4 q hq)

theorem Cell.Set_formula_spec (L : Lib) (S : Position → String → Sheet → Out Unit)
    (hS : Materializes L S) (this : Position) (text : String) (sheet sheet5 : Sheet)
    (hlen : 2 ≤ text.length) (hsign : Cell.IsText text = false)
    (h : Cell.Set L S this text sheet = (.ok (), sheet5)) :
    ∃ f, ParseFormula L
          (if charAt text 1 == ESCAPE_SIGN then substr text 2 else substr text 1) = some f ∧
      this ∉ f.GetReferencedCells L ∧
      (∃ c, sheet5.deref this = some c ∧
        c.text_ = String.singleton FORMULA_SIGN ++ f.GetExpression L ∧
        c.cell_value_ = some f) ∧
      ∀ q ∈ f.GetReferencedCells L, sheet5.LinkedIn this q := by
  unfold Cell.Set at h
  cases hd : sheet.deref this with
  | none => rw [hd] at h; cases h
  | some c0 =>
    rw [hd] at h
    simp only [hlen, hsign, if_true, Bool.not_false] at h
    cases hp : ParseFormula L
        (if charAt text 1 == ESCAPE_SIGN then substr text 2 else substr text 1) with
    | none => rw [hp] at h; cases h
    | some f =>
      rw [hp] at h
      dsimp only at h
      refine ⟨f, rfl, ?_⟩
      have h0 : ∃ c, (if c0.IsInitialized then sheet.store this c0.Clear else sheet).deref this
          = some c := by
        split
        · exact ⟨_, Sheet.deref_store_self _ _ _⟩
        · exact ⟨_, hd⟩
      obtain ⟨c00, hc00⟩ := h0
      have h1 : ((if c0.IsInitialized then sheet.store this c0.Clear else sheet).modify this
          (fun c =>
            { c with text_ := (String.singleton FORMULA_SIGN ++ f.GetExpression L) })).deref this
          = some { c00 with text_ := (String.singleton FORMULA_SIGN ++ f.GetExpression L) } := by
        rw [Sheet.deref_modify_self, hc00]; rfl
      have hk := Sheet.kept_all_of_grow (Cell.Set.formulaPos_steps L S hS this
        ((if c0.IsInitialized then sheet.store this c0.Clear else sheet).modify this
          (fun c =>
            { c with text_ := (String.singleton FORMULA_SIGN ++ f.GetExpression L) })))
      cases hfp : Cell.Set.formulaPos L S this
          ((if c0.IsInitialized then sheet.store this c0.Clear else sheet).modify this
            (fun c =>
              { c with text_ := (String.singleton FORMULA_SIGN ++ f.GetExpression L) })) with
      | mk r sheet2 =>
        rw [hfp] at h hk
        cases r with
        | error x => cases h
        | ok u =>
          dsimp only at h hk
          obtain ⟨c2, hc2, ht2, _⟩ := (hk this trivial).1 _ h1
          obtain ⟨hnot, ⟨c, hc, ht, hv⟩, hl⟩ :=
            Cell.Set.commit_spec L S hS this f sheet2 sheet5 c2 hc2 h
          exact ⟨hnot, ⟨c, hc, by rw [ht, ht2], hv⟩, hl⟩

theorem Cell.Set_text_spec (L : Lib) (S : Position → String → Sheet → Out Unit)
    (this : Position) (text : String) (sheet sheet5 : Sheet)
    (htext : ¬ (2 ≤ text.length ∧ Cell.IsText text = false))
    (h : Cell.Set L S this text sheet = (.ok (), sheet5)) :
    ∃ c, sheet5.deref this = some c ∧ c.text_ = text ∧ c.cell_value_ = none := by
  unfold Cell.Set at h
  cases hd : sheet.deref this with
  | none => rw [hd] at h; cases h
  | some c0 =>
    rw [hd] at h
    dsimp only at h
    have h0 : ∃ c, (if c0.IsInitialized then sheet.store this c0.Clear else sheet).deref this
        = some c ∧ c.cell_value_ = none := by
      by_cases hi : c0.IsInitialized = true
      · rw [if_pos hi]
        exact ⟨_, Sheet.deref_store_self _ _ _, rfl⟩
      · rw [if_neg hi]
        refine ⟨c0, hd, ?_⟩
        unfold Cell.IsInitialized at hi
        cases hv : c0.cell_value_ with
        | none => rfl
        | some f => rw [hv] at hi; simp at hi
    obtain ⟨c00, hc00, hv00⟩ := h0
    have hres : sheet5 = (if c0.IsInitialized then sheet.store this c0.Clear else sheet).modify
        this (fun c => { c with text_ := text }) := by
      by_cases hlen : 2 ≤ text.length
      · have hs : Cell.IsText text = true := by
          cases ht : Cell.IsText text with
          | true => rfl
          | false => exact absurd ⟨hlen, ht⟩ htext
        rw [if_pos hlen, hs] at h
        simp only [Bool.not_true, Bool.false_eq_true, if_false] at h
        cases h
        rfl
      · rw [if_neg hlen] at h
        cases h
        rfl
    rw [hres, Sheet.deref_modify_self, hc00]
    exact ⟨_, rfl, rfl, hv00⟩

/-! ## What a successful SetCell did -/

theorem Sheet.SetCellWith_ok (L : Lib) (S : Position → String → Sheet → Out Unit)
    (pos : Position) (text : String) (sheet after : Sheet)
    (h : Sheet.SetCellWith L S pos text sheet = (.ok (), after)) :
    pos.IsValid L = true ∧
      ∃ sheet0 sheet1, (∀ p, p ≠ pos → sheet0.deref p = sheet.deref p) ∧
        Cell.Set L S pos text sheet0 = (.ok (), sheet1) ∧
        (∀ p, after.deref p = sheet1.deref p) ∧
        (((sheet.deref pos).isSome = true ∧ Sheet.Steps (fun _ _ _ => True) sheet sheet0 ∧
            after = sheet1) ∨
          (sheet.deref pos = none ∧ sheet0 = sheet.store pos {} ∧
            after = { sheet1 with
              row_elem_count_ :=
                Map.set sheet1.row_elem_count_ pos.row
                  (counterAt sheet1.row_elem_count_ pos.row + 1),
              col_elem_count_ :=
                Map.set sheet1.col_elem_count_ pos.col
                  (counterAt sheet1.col_elem_count_ pos.col + 1) })) := by
  unfold Sheet.SetCellWith at h
  by_cases hv : pos.IsValid L = true
  swap
  · simp only [hv, Bool.not_false, if_true] at h
    cases h
  refine ⟨hv, ?_⟩
  simp only [hv, Bool.not_true, Bool.false_eq_true, if_false] at h
  cases hd : sheet.deref pos with
  | none =>
    rw [hd] at h
    dsimp only at h
    cases hs : Cell.Set L S pos text (sheet.store pos (Cell.moveConstruct {}).1) with
    | mk r sheet1 =>
      rw [hs] at h
      cases r with
      | error x => cases h
      | ok u =>
        dsimp only at h
        cases h
        exact ⟨_, sheet1, fun p hp => Sheet.deref_store_other _ _ _ _ hp, hs, fun p => rfl,
          Or.inr ⟨rfl, rfl, rfl⟩⟩
  | some c =>
    rw [hd] at h
    dsimp only at h
    unfold Sheet.SetCell.attempt Sheet.CleanCell at h
    have hi : (sheet.store pos (Cell.moveConstruct c).2).IsInitialized pos = true := by
      unfold Sheet.IsInitialized
      rw [Sheet.deref_store_self]; rfl
    simp only [hv, Bool.not_true, Bool.false_eq_true, if_false, hi, if_true] at h
    cases hs : Cell.Set L S pos text
        (((sheet.store pos (Cell.moveConstruct c).2).modify pos Cell.Clear).modify pos
          (fun c1 => c1.CopyDependedAndReferencedCells (Cell.moveConstruct c).1)) with
    | mk r sheet1 =>
      rw [hs] at h
      cases r with
      | ok u =>
        dsimp only at h
        cases h
        refine ⟨_, _, fun p hp => ?_, hs, fun p => rfl, Or.inl ⟨rfl, ?_, rfl⟩⟩
        · rw [Sheet.deref_modify_other _ _ _ _ hp, Sheet.deref_modify_other _ _ _ _ hp,
            Sheet.deref_store_other _ _ _ _ hp]
        · exact Sheet.steps_trans (Sheet.steps_store sheet pos c _ hd trivial)
            (Sheet.steps_trans (Sheet.steps_modify _ pos _ (fun _ => trivial))
              (Sheet.steps_modify _ pos _ (fun _ => trivial)))
      | error x =>
        exfalso
        cases x <;> dsimp only at h <;> try (cases h)
        unfold Sheet.SetCell.rollback at h
        split at h <;> cases h

theorem Cell.IsText_eq_false (text : String) :
    Cell.IsText text = false ↔ charAt text 0 = FORMULA_SIGN := by
  unfold Cell.IsText
  simp

theorem Cell.GetValue_of_empty (L : Lib) (q : Position) (sheet : Sheet) (cq : Cell)
    (hq : sheet.deref q = some cq) (ht : cq.text_ = "") :
    Cell.GetValue L q sheet = (.ok (.text ""), sheet) := by
  unfold Cell.GetValue Cell.GetValueN
  rw [hq]
  have hf : cq.IsFormula = false := by unfold Cell.IsFormula; rw [ht]; rfl
  have he : strEmpty cq.text_ = true := by rw [ht]; rfl
  dsimp only
  by_cases hc : cq.HasCache = true
  · rw [if_pos hc]
    unfold Cell.GetCache
    simp only [hf, Bool.false_eq_true, if_false, ht]
    rfl
  · rw [if_neg hc]
    simp only [hf, Bool.false_eq_true, if_false, ht]
    rfl

/-! ## No call on a valid position reports an invalid position -/

theorem Cell.Refresh.detach_notInvalid (this : Position) (rs : List Position) (sheet : Sheet) :
    (Cell.Refresh.detach this rs sheet).1 ≠ .error .InvalidPositionException := by
  induction rs generalizing sheet with
  | nil => unfold Cell.Refresh.detach; simp
  | cons r rest ih =>
    unfold Cell.Refresh.detach
    cases h : sheet.deref r with
    | none => simp
    | some c => exact ih _

theorem Cell.Refresh.attach_ok (L : Lib) (S : Position → String → Sheet → Out Unit)
    (hS : Materializes L S) (this : Position) (qs : List Position) (sheet : Sheet)
    (hv : ∀ q ∈ qs, q.IsValid L = true) :
    (Cell.Refresh.attach L S this qs sheet).1 = .ok () := by
  induction qs generalizing sheet with
  | nil => rfl
  | cons q rest ih =>
    unfold Cell.Refresh.attach
    rw [Cell.link_valid L S hS this q sheet (hv q (List.mem_cons_self _ _))]
    exact ih _ (fun x hx => hv x (List.mem_cons_of_mem _ hx))

theorem Cell.Refresh_notInvalid (L : Lib) (S : Position → String → Sheet → Out Unit)
    (hS : Materializes L S) (this : Position) (sheet : Sheet) :
    (Cell.Refresh L S this sheet).1 ≠ .error .InvalidPositionException := by
  unfold Cell.Refresh
  cases h : sheet.deref this with
  | none => simp
  | some c =>
    dsimp only
    have h1 := Cell.Refresh.detach_notInvalid this c.referenced_cells_ sheet
    cases hd : Cell.Refresh.detach this c.referenced_cells_ sheet with
    | mk r sheet1 =>
      rw [hd] at h1
      cases r with
      | error x => exact h1
      | ok u =>
        dsimp only
        cases hv : ((sheet1.modify this
            (fun c => { c with referenced_cells_ := [] })).deref this).bind Cell.cell_value_ with
        | none => simp
        | some cell_value =>
          dsimp only
          rw [Cell.Refresh.attach_ok L S hS this _ _
            (Formula.GetReferencedCells_valid L cell_value)]
          simp

theorem Cell.Set.invalidateDependents_notInvalid (ds : List Position) (sheet : Sheet) :
    (Cell.Set.invalidateDependents ds sheet).1 ≠ .error .InvalidPositionException := by
  induction ds generalizing sheet with
  | nil => unfold Cell.Set.invalidateDependents; simp
  | cons d rest ih =>
    unfold Cell.Set.invalidateDependents
    cases h : sheet.deref d with
    | none => simp
    | some c => exact ih _

theorem Cell.Set.invalidate_notInvalid (this : Position) (sheet : Sheet) :
    (Cell.Set.invalidate this sheet).1 ≠ .error .InvalidPositionException := by
  unfold Cell.Set.invalidate
  cases h : sheet.deref this with
  | none => simp
  | some c =>
    dsimp only
    split
    · exact Cell.Set.invalidateDependents_notInvalid _ _
    · simp

theorem Cell.FindCircularDependency.loop_notInvalid (sheet : Sheet)
    (rc : List (Option Position)) (fuel : Nat) :
    ∀ (stack enter : List Position),
      Cell.FindCircularDependency.loop sheet rc fuel stack enter
        ≠ .error .InvalidPositionException := by
  induction fuel with
  | zero =>
    intro stack enter
    cases stack with
    | nil => unfold Cell.FindCircularDependency.loop; simp
    | cons a l => unfold Cell.FindCircularDependency.loop; simp
  | succ n ih =>
    intro stack enter
    cases stack with
    | nil => unfold Cell.FindCircularDependency.loop; simp
    | cons a l =>
      unfold Cell.FindCircularDependency.loop
      dsimp only
      split
      · cases h : sheet.deref a with
        | none => simp
        | some c => exact ih _ _
      · simp

theorem Cell.FindCircularDependency.refs_ok (L : Lib) (sheet : Sheet) (ref : List Position)
    (hv : ∀ q ∈ ref, q.IsValid L = true) :
    ∀ acc, ∃ rc, Cell.FindCircularDependency.refs L sheet ref acc = .ok rc := by
  induction ref with
  | nil => exact fun acc => ⟨acc, rfl⟩
  | cons p rest ih =>
    intro acc
    unfold Cell.FindCircularDependency.refs
    rw [Sheet.GetCell_valid L sheet p (hv p (List.mem_cons_self _ _))]
    exact ih (fun x hx => hv x (List.mem_cons_of_mem _ hx)) _

theorem Cell.FindCircularDependency_notInvalid (L : Lib) (this : Position)
    (ref : List Position) (sheet : Sheet) (hv : ∀ q ∈ ref, q.IsValid L = true) :
    Cell.FindCircularDependency L this ref sheet ≠ .error .InvalidPositionException := by
  unfold Cell.FindCircularDependency
  obtain ⟨rc, hrc⟩ := Cell.FindCircularDependency.refs_ok L sheet ref hv []
  rw [hrc]
  exact Cell.FindCircularDependency.loop_notInvalid sheet rc _ _ _

theorem Cell.Set.formulaPos_ok (L : Lib) (S : Position → String → Sheet → Out Unit)
    (hS : Materializes L S) (this : Position) (sheet : Sheet) :
    (Cell.Set.formulaPos L S this sheet).1 ≠ .error .InvalidPositionException := by
  unfold Cell.Set.formulaPos
  cases h : sheet.deref this with
  | none => simp
  | some c =>
    dsimp only
    by_cases hv : (Position.FromString L c.text_).IsValid L = true
    · rw [if_pos hv, Cell.link_valid L S hS this _ sheet hv]
      simp
    · rw [if_neg hv]
      simp

theorem Cell.Set.commit_notInvalid (L : Lib) (S : Position → String → Sheet → Out Unit)
    (hS : Materializes L S) (this : Position) (f : Formula) (sheet2 : Sheet) :
    (Cell.Set.commit L S this f sheet2).1 ≠ .error .InvalidPositionException := by
  unfold Cell.Set.commit
  dsimp only
  have hfc : (if !(f.GetReferencedCells L).isEmpty then
            Cell.FindCircularDependency L this (f.GetReferencedCells L) sheet2
          else .ok false : Except Exception Bool) ≠ .error .InvalidPositionException := by
    split
    · exact Cell.FindCircularDependency_notInvalid L this _ sheet2
        (Formula.GetReferencedCells_valid L f)
    · simp
  cases hfound : (if !(f.GetReferencedCells L).isEmpty then
            Cell.FindCircularDependency L this (f.GetReferencedCells L) sheet2
          else .ok false : Except Exception Bool) with
  | error x =>
    rw [hfound] at hfc
    dsimp only
    intro hx
    cases hx
    exact hfc rfl
  | ok b =>
    cases b with
    | true => simp
    | false =>
      dsimp only
      have h4 := Cell.Refresh_notInvalid L S hS this
        (sheet2.modify this (fun c => { c with cell_value_ := some f }))
      cases hr : Cell.Refresh L S this
          (sheet2.modify this (fun c => { c with cell_value_ := some f })) with
      | mk r4 sheet4 =>
        rw [hr] at h4
        cases r4 with
        | error x => exact h4
        | ok u4 => exact Cell.Set.invalidate_notInvalid this sheet4

theorem Cell.Set_notInvalid (L : Lib) (S : Position → String → Sheet → Out Unit)
    (hS : Materializes L S) (this : Position) (text : String) (sheet : Sheet) :
    (Cell.Set L S this text sheet).1 ≠ .error .InvalidPositionException := by
  unfold Cell.Set
  cases h : sheet.deref this with
  | none => simp
  | some c0 =>
    dsimp only
    split
    · split
      · cases hp : ParseFormula L
            (if charAt text 1 == ESCAPE_SIGN then substr text 2 else substr text 1) with
        | none => simp
        | some f =>
          dsimp only
          have h2 := Cell.Set.formulaPos_ok L S hS this
              ((if c0.IsInitialized then sheet.store this c0.Clear else sheet).modify this
                (fun c =>
                  { c with text_ := (String.singleton FORMULA_SIGN ++ f.GetExpression L) }))
          cases hfp : Cell.Set.formulaPos L S this
              ((if c0.IsInitialized then sheet.store this c0.Clear else sheet).modify this
                (fun c =>
                  { c with text_ := (String.singleton FORMULA_SIGN ++ f.GetExpression L) })) with
          | mk r sheet2 =>
            rw [hfp] at h2
            cases r with
            | error x => exact h2
            | ok u => exact Cell.Set.commit_notInvalid L S hS this f sheet2
      · simp
    · simp

theorem Sheet.SetCellWith_notInvalid (L : Lib) (S : Position → String → Sheet → Out Unit)
    (hS : Materializes L S) (pos : Position) (text : String) (sheet : Sheet)
    (hv : pos.IsValid L = true) :
    (Sheet.SetCellWith L S pos text sheet).1 ≠ .error .InvalidPositionException := by
  unfold Sheet.SetCellWith
  simp only [hv, Bool.not_true, Bool.false_eq_true, if_false]
  cases hd : sheet.deref pos with
  | none =>
    dsimp only
    have h1 := Cell.Set_notInvalid L S hS pos text (sheet.store pos (Cell.moveConstruct {}).1)
    cases hs : Cell.Set L S pos text (sheet.store pos (Cell.moveConstruct {}).1) with
    | mk r sheet1 =>
      rw [hs] at h1
      cases r with
      | error x => exact h1
      | ok u => simp
  | some c =>
    dsimp only
    unfold Sheet.SetCell.attempt Sheet.CleanCell
    have hi : (sheet.store pos (Cell.moveConstruct c).2).IsInitialized pos = true := by
      unfold Sheet.IsInitialized
      rw [Sheet.deref_store_self]; rfl
    simp only [hv, Bool.not_true, Bool.false_eq_true, if_false, hi, if_true]
    have h1 := Cell.Set_notInvalid L S hS pos text
        (((sheet.store pos (Cell.moveConstruct c).2).modify pos Cell.Clear).modify pos
          (fun c1 => c1.CopyDependedAndReferencedCells (Cell.moveConstruct c).1))
    cases hs : Cell.Set L S pos text
        (((sheet.store pos (Cell.moveConstruct c).2).modify pos Cell.Clear).modify pos
          (fun c1 => c1.CopyDependedAndReferencedCells (Cell.moveConstruct c).1)) with
    | mk r sheet1 =>
      rw [hs] at h1
      cases r with
      | ok u => simp
      | error x =>
        cases x <;> dsimp only <;> try (simp; done)
        · exact absurd rfl h1
        · unfold Sheet.SetCell.rollback Sheet.CleanCell
          simp only [hv, Bool.not_true, Bool.false_eq_true, if_false]
          by_cases hi2 : sheet1.IsInitialized pos = true
          · rw [if_pos hi2]; simp
          · rw [if_neg hi2]; simp

/-! ## Counters -/

theorem counterAt_set_self (m : List (Int × Int)) (k v : Int) :
    counterAt (Map.set m k v) k = v := by
  unfold counterAt
  rw [Map.find?_set_self]
  rfl

theorem counterAt_set_other (m : List (Int × Int)) (k r v : Int) (h : r ≠ k) :
    counterAt (Map.set m k v) r = counterAt m r := by
  unfold counterAt
  rw [Map.find?_set_other _ _ _ _ h]

theorem counterAt_erase_self (m : List (Int × Int)) (k : Int) :
    counterAt (Map.erase m k) k = 0 := by
  unfold counterAt
  rw [Map.find?_erase_self]
  rfl

theorem counterAt_erase_other (m : List (Int × Int)) (k r : Int) (h : r ≠ k) :
    counterAt (Map.erase m k) r = counterAt m r := by
  unfold counterAt
  rw [Map.find?_erase_other _ _ _ h]

theorem Map.mem_of_find? {κ ν : Type} [DecidableEq κ] (m : List (κ × ν)) (k : κ) (v : ν)
    (h : Map.find? m k = some v) : (k, v) ∈ m := by
  induction m with
  | nil => simp [Map.find?] at h
  | cons e m ih =>
    rw [Map.find?_cons] at h
    by_cases hk : e.1 = k
    · rw [if_pos hk] at h
      cases h
      rw [← hk]
      exact List.mem_cons_self _ _
    · rw [if_neg hk] at h
      exact List.mem_cons_of_mem _ (ih h)

theorem Map.mem_set {κ ν : Type} [DecidableEq κ] (m : List (κ × ν)) (k : κ) (v : ν)
    (e : κ × ν) (he : e ∈ Map.set m k v) : e = (k, v) ∨ e ∈ m := by
  unfold Map.set at he
  split at he
  · obtain ⟨a, ha, hae⟩ := List.mem_map.1 he
    by_cases hk : a.1 = k
    · rw [if_pos hk] at hae
      exact Or.inl hae.symm
    · rw [if_neg hk] at hae
      exact Or.inr (hae ▸ ha)
  · rcases List.mem_cons.1 he with h | h
    · exact Or.inl h
    · exact Or.inr h

theorem allPositive_set (m : List (Int × Int)) (k v : Int) (hm : AllPositive m)
    (hv : 0 < v) : AllPositive (Map.set m k v) := by
  intro e he
  rcases Map.mem_set m k v e he with h | h
  · rw [h]; exact hv
  · exact hm e h

theorem allPositive_erase_set (m : List (Int × Int)) (k v : Int) (hm : AllPositive m) :
    AllPositive (Map.erase (Map.set m k v) k) := by
  intro e he
  unfold Map.erase at he
  obtain ⟨h1, h2⟩ := List.mem_filter.1 he
  rcases Map.mem_set m k v e h1 with h | h
  · rw [h] at h2
    simp at h2
  · exact hm e h

theorem counterAt_nonneg (m : List (Int × Int)) (r : Int) (hm : AllPositive m) :
    0 ≤ counterAt m r := by
  unfold counterAt
  cases h : Map.find? m r with
  | none => simp
  | some v => exact le_of_lt (hm _ (Map.mem_of_find? m r v h))

theorem counterAt_pos_of_key (m : List (Int × Int)) (r : Int) (hm : AllPositive m)
    (hr : r ∈ m.map Prod.fst) : 0 < counterAt m r := by
  unfold counterAt
  cases h : Map.find? m r with
  | none => exact absurd hr ((Map.find?_eq_none m r).1 h)
  | some v => exact hm _ (Map.mem_of_find? m r v h)

theorem key_of_counterAt_ne (m : List (Int × Int)) (r : Int) (h : counterAt m r ≠ 0) :
    r ∈ m.map Prod.fst := by
  by_contra hn
  apply h
  unfold counterAt
  rw [(Map.find?_eq_none m r).2 hn]
  rfl

theorem counterAt_decrement (m : List (Int × Int)) (k r : Int) :
    counterAt (counterDecrement m k) r
      = if r = k then counterAt m k - 1 else counterAt m r := by
  unfold counterDecrement
  dsimp only
  rw [counterAt_set_self]
  by_cases hz : counterAt m k - 1 = 0
  · rw [if_pos hz]
    by_cases hr : r = k
    · rw [if_pos hr, hr, counterAt_erase_self, hz]
    · rw [if_neg hr, counterAt_erase_other _ _ _ hr, counterAt_set_other _ _ _ _ hr]
  · rw [if_neg hz]
    by_cases hr : r = k
    · rw [if_pos hr, hr, counterAt_set_self]
    · rw [if_neg hr, counterAt_set_other _ _ _ _ hr]

theorem allPositive_decrement (m : List (Int × Int)) (k : Int) (hm : AllPositive m)
    (hk : 1 ≤ counterAt m k) : AllPositive (counterDecrement m k) := by
  unfold counterDecrement
  dsimp only
  rw [counterAt_set_self]
  by_cases hz : counterAt m k - 1 = 0
  · rw [if_pos hz]
    exact allPositive_erase_set m k _ hm
  · rw [if_neg hz]
    apply allPositive_set m k _ hm
    omega

/-! ## Stored cells per row and column -/

theorem Sheet.mem_positions (sheet : Sheet) (p : Position) :
    p ∈ sheet.positions ↔ (sheet.deref p).isSome = true := by
  unfold Sheet.positions Sheet.deref
  cases h : Map.find? sheet.cell_index_ p with
  | none =>
    have := (Map.find?_eq_none sheet.cell_index_ p).1 h
    simp [this]
  | some c =>
    have : ¬ p ∉ sheet.cell_index_.map Prod.fst := by
      intro hn
      rw [(Map.find?_eq_none sheet.cell_index_ p).2 hn] at h
      cases h
    simp only [Option.isSome_some, iff_true]
    exact not_not.1 this

theorem Sheet.positions_store_live (sheet : Sheet) (p : Position) (c : Cell)
    (h : (sheet.deref p).isSome = true) : (sheet.store p c).positions = sheet.positions := by
  unfold Sheet.positions Sheet.store
  dsimp only
  unfold Sheet.deref at h
  rw [Map.keys_set, if_pos h]

theorem Sheet.positions_store_new (sheet : Sheet) (p : Position) (c : Cell)
    (h : sheet.deref p = none) : (sheet.store p c).positions = p :: sheet.positions := by
  unfold Sheet.positions Sheet.store
  dsimp only
  rw [Map.keys_set]
  unfold Sheet.deref at h
  rw [h]
  rfl

theorem filter_cons_length (q : Position) (l : List Position) (P : Position → Bool) :
    (((q :: l).filter P).length : Int)
      = ((l.filter P).length : Int) + (if P q = true then 1 else 0) := by
  by_cases h : P q = true
  · rw [List.filter_cons_of_pos h, if_pos h]
    simp
  · rw [List.filter_cons_of_neg h, if_neg h]
    simp

theorem filter_erase_length (l : List Position) (k : Position) (P : Position → Bool)
    (hn : l.Nodup) (hk : k ∈ l) :
    (((l.filter (fun x => !decide (x = k))).filter P).length : Int)
      = ((l.filter P).length : Int) - (if P k = true then 1 else 0) := by
  induction l with
  | nil => exact absurd hk (List.not_mem_nil k)
  | cons a l ih =>
    obtain ⟨hal, hl⟩ := List.nodup_cons.1 hn
    by_cases hak : a = k
    · subst hak
      have hself : l.filter (fun x => !decide (x = a)) = l := by
        apply List.filter_eq_self.2
        intro x hx
        have : x ≠ a := fun h => hal (h ▸ hx)
        simp [this]
      have h1 : (a :: l).filter (fun x => !decide (x = a)) = l := by
        rw [List.filter_cons_of_neg (by simp), hself]
      rw [h1, filter_cons_length]
      omega
    · have hkl : k ∈ l := by
        rcases List.mem_cons.1 hk with h | h
        · exact absurd h.symm hak
        · exact h
      have h1 : (a :: l).filter (fun x => !decide (x = k))
          = a :: l.filter (fun x => !decide (x = k)) := by
        rw [List.filter_cons_of_pos (by simp [hak])]
      rw [h1, filter_cons_length, filter_cons_length, ih hl hkl]
      omega

theorem Map.keys_erase {κ ν : Type} [DecidableEq κ] (m : List (κ × ν)) (k : κ) :
    (Map.erase m k).map Prod.fst = (m.map Prod.fst).filter (fun x => !decide (x = k)) := by
  unfold Map.erase
  rw [List.filter_map]
  rfl

/-! ## Steps keep the counters in line -/

theorem Sheet.counted_refl (s : Sheet) : Sheet.Counted s s :=
  ⟨fun _ => rfl, fun _ => rfl, fun h => h, fun h => h, fun h => h⟩

theorem Sheet.counted_trans {s t u : Sheet} (h1 : Sheet.Counted s t) (h2 : Sheet.Counted t u) :
    Sheet.Counted s u :=
  ⟨fun r => (h2.1 r).trans (h1.1 r), fun c => (h2.2.1 c).trans (h1.2.1 c),
    fun h => h2.2.2.1 (h1.2.2.1 h), fun h => h2.2.2.2.1 (h1.2.2.2.1 h),
    fun h => h2.2.2.2.2 (h1.2.2.2.2 h)⟩

theorem Sheet.counted_store (s : Sheet) (p : Position) (c : Cell)
    (h : (s.deref p).isSome = true) : Sheet.Counted s (s.store p c) := by
  have hp := Sheet.positions_store_live s p c h
  refine ⟨fun r => ?_, fun r => ?_, fun h => h, fun h => h, fun h => ?_⟩
  · unfold Sheet.cellsInRow
    rw [hp]
    rfl
  · unfold Sheet.cellsInCol
    rw [hp]
    rfl
  · rw [hp]; exact h

theorem Sheet.counted_materialize (s : Sheet) (q : Position) (h : s.deref q = none) :
    Sheet.Counted s (s.materialize q) := by
  have hp : (s.materialize q).positions = q :: s.positions :=
    Sheet.positions_store_new s q {} h
  refine ⟨fun r => ?_, fun r => ?_, fun hpos => ?_, fun hpos => ?_, fun hn => ?_⟩
  · unfold Sheet.cellsInRow
    rw [hp, filter_cons_length]
    show _ - counterAt (Map.set s.row_elem_count_ q.row _) r = _
    by_cases hr : q.row = r
    · subst hr
      rw [counterAt_set_self]
      simp
    · rw [counterAt_set_other _ _ _ _ (fun h => hr h.symm)]
      simp [hr]
  · unfold Sheet.cellsInCol
    rw [hp, filter_cons_length]
    show _ - counterAt (Map.set s.col_elem_count_ q.col _) r = _
    by_cases hr : q.col = r
    · subst hr
      rw [counterAt_set_self]
      simp
    · rw [counterAt_set_other _ _ _ _ (fun h => hr h.symm)]
      simp [hr]
  · exact allPositive_set _ _ _ hpos (by have := counterAt_nonneg _ q.row hpos; omega)
  · exact allPositive_set _ _ _ hpos (by have := counterAt_nonneg _ q.col hpos; omega)
  · rw [hp]
    refine List.nodup_cons.2 ⟨fun hmem => ?_, hn⟩
    have := (Sheet.mem_positions s q).1 hmem
    rw [h] at this
    exact absurd this (by decide)

theorem Sheet.counted_of_steps {ok : Position → Cell → Cell → Prop} {s t : Sheet}
    (h : Sheet.Steps ok s t) : Sheet.Counted s t := by
  induction h with
  | refl => exact Sheet.counted_refl _
  | store t2 p c c1 _ hd _ ih =>
    exact Sheet.counted_trans ih (Sheet.counted_store t2 p c1 (by rw [hd]; rfl))
  | materialize t2 q _ hd ih =>
    exact Sheet.counted_trans ih (Sheet.counted_materialize t2 q hd)

theorem Sheet.exact_of_counted {s t : Sheet} (hs : s.Exact) (h : Sheet.Counted s t) :
    t.Exact := by
  obtain ⟨h1, h2, h3, h4, h5⟩ := hs
  obtain ⟨k1, k2, k3, k4, k5⟩ := h
  refine ⟨fun r => ?_, fun c => ?_, k3 h3, k4 h4, k5 h5⟩
  · have a := h1 r
    have b := k1 r
    omega
  · have a := h2 c
    have b := k2 c
    omega

/-! ## Calls that return keep the counters exact -/

theorem Sheet.exact_SetCell (L : Lib) (pos : Position) (text : String) (sheet after : Sheet)
    (hs : sheet.Exact) (h : Sheet.SetCell L pos text sheet = (.ok (), after)) :
    after.Exact := by
  obtain ⟨_, sheet0, sheet1, _, hset, _, hcase⟩ :=
    Sheet.SetCellWith_ok L (Sheet.SetCellN L 1) pos text sheet after h
  have hS := Sheet.SetCellN_materializes L 0
  have hc1 := Sheet.counted_of_steps (Cell.Set_steps L _ hS pos text sheet0)
  rw [hset] at hc1
  dsimp only at hc1
  rcases hcase with ⟨_, hsteps, hafter⟩ | ⟨hnone, h0, hafter⟩
  · rw [hafter]
    exact Sheet.exact_of_counted hs (Sheet.counted_trans (Sheet.counted_of_steps hsteps) hc1)
  · obtain ⟨h1, h2, h3, h4, h5⟩ := hs
    obtain ⟨k1, k2, k3, k4, k5⟩ := hc1
    have hp0 : sheet0.positions = pos :: sheet.positions := by
      rw [h0]; exact Sheet.positions_store_new sheet pos {} hnone
    have hr0 : sheet0.row_elem_count_ = sheet.row_elem_count_ := by rw [h0]; rfl
    have hc0 : sheet0.col_elem_count_ = sheet.col_elem_count_ := by rw [h0]; rfl
    have hpa : after.positions = sheet1.positions := by rw [hafter]; rfl
    rw [hr0] at k1 k3
    rw [hc0] at k2 k4
    have hn0 : sheet0.positions.Nodup := by
      rw [hp0]
      refine List.nodup_cons.2 ⟨fun hmem => ?_, h5⟩
      have := (Sheet.mem_positions sheet pos).1 hmem
      rw [hnone] at this
      exact absurd this (by decide)
    refine ⟨fun r => ?_, fun c => ?_, ?_, ?_, ?_⟩
    · have a := h1 r
      have b := k1 r
      have hcr : after.cellsInRow r = sheet1.cellsInRow r := by
        unfold Sheet.cellsInRow; rw [hpa]
      have h0r : sheet0.cellsInRow r
          = sheet.cellsInRow r + (if decide (pos.row = r) = true then 1 else 0) := by
        unfold Sheet.cellsInRow
        rw [hp0, filter_cons_length]
      rw [hcr, hafter]
      show counterAt (Map.set sheet1.row_elem_count_ pos.row _) r = _
      by_cases hr : pos.row = r
      · subst hr
        rw [counterAt_set_self]
        simp only [decide_True, if_true] at h0r
        omega
      · rw [counterAt_set_other _ _ _ _ (fun h => hr h.symm)]
        simp only [hr, decide_False, Bool.false_eq_true, if_false] at h0r
        omega
    · have a := h2 c
      have b := k2 c
      have hcr : after.cellsInCol c = sheet1.cellsInCol c := by
        unfold Sheet.cellsInCol; rw [hpa]
      have h0r : sheet0.cellsInCol c
          = sheet.cellsInCol c + (if decide (pos.col = c) = true then 1 else 0) := by
        unfold Sheet.cellsInCol
        rw [hp0, filter_cons_length]
      rw [hcr, hafter]
      show counterAt (Map.set sheet1.col_elem_count_ pos.col _) c = _
      by_cases hr : pos.col = c
      · subst hr
        rw [counterAt_set_self]
        simp only [decide_True, if_true] at h0r
        omega
      · rw [counterAt_set_other _ _ _ _ (fun h => hr h.symm)]
        simp only [hr, decide_False, Bool.false_eq_true, if_false] at h0r
        omega
    · rw [hafter]
      exact allPositive_set _ _ _ (k3 h3)
        (by have := counterAt_nonneg _ pos.row (k3 h3); omega)
    · rw [hafter]
      exact allPositive_set _ _ _ (k4 h4)
        (by have := counterAt_nonneg _ pos.col (k4 h4); omega)
    · rw [hpa]
      exact k5 hn0

theorem Sheet.exact_ClearCell (L : Lib) (pos : Position) (sheet after : Sheet)
    (hs : sheet.Exact) (h : Sheet.ClearCell L pos sheet = (.ok (), after)) :
    after.Exact := by
  unfold Sheet.ClearCell at h
  by_cases hv : pos.IsValid L = true
  swap
  · simp only [hv, Bool.not_false, if_true] at h
    cases h
  simp only [hv, Bool.not_true, Bool.false_eq_true, if_false] at h
  by_cases hi : sheet.IsInitialized pos = true
  swap
  · rw [if_neg hi] at h
    cases h
    exact hs
  rw [if_pos hi] at h
  cases h
  obtain ⟨h1, h2, h3, h4, h5⟩ := hs
  have hmem : pos ∈ sheet.positions := (Sheet.mem_positions sheet pos).2 hi
  have hpos : ∀ t : Sheet, t.cell_index_ = Map.erase sheet.cell_index_ pos →
      t.positions = sheet.positions.filter (fun x => !decide (x = pos)) := by
    intro t ht
    unfold Sheet.positions
    rw [ht, Map.keys_erase]
  have hrow : 1 ≤ counterAt sheet.row_elem_count_ pos.row := by
    rw [h1]
    unfold Sheet.cellsInRow
    have : 0 < (sheet.positions.filter (fun p => decide (p.row = pos.row))).length :=
      List.length_pos_of_mem (List.mem_filter.2 ⟨hmem, by simp⟩)
    omega
  have hcol : 1 ≤ counterAt sheet.col_elem_count_ pos.col := by
    rw [h2]
    unfold Sheet.cellsInCol
    have : 0 < (sheet.positions.filter (fun p => decide (p.col = pos.col))).length :=
      List.length_pos_of_mem (List.mem_filter.2 ⟨hmem, by simp⟩)
    omega
  refine ⟨fun r => ?_, fun c => ?_, allPositive_decrement _ _ h3 hrow,
    allPositive_decrement _ _ h4 hcol, ?_⟩
  · show counterAt (counterDecrement sheet.row_elem_count_ pos.row) r = _
    rw [counterAt_decrement]
    unfold Sheet.cellsInRow
    rw [hpos _ rfl, filter_erase_length _ _ _ h5 hmem]
    have a := h1 r
    unfold Sheet.cellsInRow at a
    by_cases hr : r = pos.row
    · subst hr
      simp only [decide_True, if_true]
      omega
    · have hr2 : ¬ pos.row = r := fun h => hr h.symm
      simp only [hr, hr2, decide_False, Bool.false_eq_true, if_false]
      omega
  · show counterAt (counterDecrement sheet.col_elem_count_ pos.col) c = _
    rw [counterAt_decrement]
    unfold Sheet.cellsInCol
    rw [hpos _ rfl, filter_erase_length _ _ _ h5 hmem]
    have a := h2 c
    unfold Sheet.cellsInCol at a
    by_cases hr : c = pos.col
    · subst hr
      simp only [decide_True, if_true]
      omega
    · have hr2 : ¬ pos.col = c := fun h => hr h.symm
      simp only [hr, hr2, decide_False, Bool.false_eq_true, if_false]
      omega
  · rw [hpos _ rfl]
    exact h5.filter _

theorem Sheet.exact_empty : Sheet.Exact {} := by
  refine ⟨fun r => rfl, fun c => rfl, ?_, ?_, List.nodup_nil⟩
  · intro e he; exact absurd he (List.not_mem_nil e)
  · intro e he; exact absurd he (List.not_mem_nil e)

theorem Sheet.exact_run (L : Lib) (calls : List Call) :
    ∀ (sheet after : Sheet), sheet.Exact → Sheet.run L sheet calls = some after →
      after.Exact := by
  induction calls with
  | nil =>
    intro sheet after hs h
    unfold Sheet.run at h
    cases h
    exact hs
  | cons c rest ih =>
    intro sheet after hs h
    unfold Sheet.run at h
    cases hc : sheet.call L c with
    | mk r sheet1 =>
      rw [hc] at h
      cases r with
      | error x => cases h
      | ok u =>
        dsimp only at h
        refine ih sheet1 after ?_ h
        cases c with
        | SetCell pos text => exact Sheet.exact_SetCell L pos text sheet sheet1 hs hc
        | ClearCell pos => exact Sheet.exact_ClearCell L pos sheet sheet1 hs hc

/-! ## The printable size -/

theorem getLast?_sorted_max (l : List Int) (hs : l.Sorted (fun a b => a ≤ b)) (m : Int)
    (h : l.getLast? = some m) : m ∈ l ∧ ∀ x ∈ l, x ≤ m := by
  induction l with
  | nil => simp at h
  | cons a t ih =>
    cases t with
    | nil =>
      simp at h
      subst h
      simp
    | cons b t2 =>
      rw [List.getLast?_cons_cons] at h
      obtain ⟨hm, hmax⟩ := ih (List.Sorted.of_cons hs) h
      refine ⟨List.mem_cons_of_mem _ hm, fun x hx => ?_⟩
      rcases List.mem_cons.1 hx with hxa | hxt
      · rw [hxa]
        exact List.rel_of_sorted_cons hs m hm
      · exact hmax x hxt

theorem Sheet.GetSortedElements_back (m : List (Int × Int)) (hne : m ≠ []) :
    ∃ k, (Sheet.GetSortedElements m).getLast? = some k ∧ k ∈ m.map Prod.fst ∧
      ∀ x ∈ m.map Prod.fst, x ≤ k := by
  unfold Sheet.GetSortedElements
  have hperm := List.perm_insertionSort (fun a b : Int => a ≤ b) (m.map Prod.fst)
  have hsorted := List.sorted_insertionSort (fun a b : Int => a ≤ b) (m.map Prod.fst)
  cases hl : ((m.map Prod.fst).insertionSort (fun a b => a ≤ b)).getLast? with
  | none =>
    rw [List.getLast?_eq_none_iff] at hl
    rw [hl] at hperm
    have := hperm.symm.eq_nil
    simp at this
    exact absurd this hne
  | some k =>
    obtain ⟨hk, hmax⟩ := getLast?_sorted_max _ hsorted k hl
    exact ⟨k, rfl, hperm.mem_iff.1 hk, fun x hx => hmax x (hperm.mem_iff.2 hx)⟩

theorem Sheet.cellsInRow_pos (sheet : Sheet) (p : Position) (hp : p ∈ sheet.positions) :
    1 ≤ sheet.cellsInRow p.row := by
  unfold Sheet.cellsInRow
  have : 0 < (sheet.positions.filter (fun q => decide (q.row = p.row))).length :=
    List.length_pos_of_mem (List.mem_filter.2 ⟨hp, by simp⟩)
  omega

theorem Sheet.cellsInCol_pos (sheet : Sheet) (p : Position) (hp : p ∈ sheet.positions) :
    1 ≤ sheet.cellsInCol p.col := by
  unfold Sheet.cellsInCol
  have : 0 < (sheet.positions.filter (fun q => decide (q.col = p.col))).length :=
    List.length_pos_of_mem (List.mem_filter.2 ⟨hp, by simp⟩)
  omega

theorem Sheet.exists_in_row (sheet : Sheet) (r : Int) (h : 0 < sheet.cellsInRow r) :
    ∃ p ∈ sheet.positions, p.row = r := by
  unfold Sheet.cellsInRow at h
  have hlen : 0 < (sheet.positions.filter (fun q => decide (q.row = r))).length := by omega
  obtain ⟨p, hp⟩ := List.exists_mem_of_length_pos hlen
  obtain ⟨h1, h2⟩ := List.mem_filter.1 hp
  exact ⟨p, h1, by simpa using h2⟩

theorem Sheet.exists_in_col (sheet : Sheet) (c : Int) (h : 0 < sheet.cellsInCol c) :
    ∃ p ∈ sheet.positions, p.col = c := by
  unfold Sheet.cellsInCol at h
  have hlen : 0 < (sheet.positions.filter (fun q => decide (q.col = c))).length := by omega
  obtain ⟨p, hp⟩ := List.exists_mem_of_length_pos hlen
  obtain ⟨h1, h2⟩ := List.mem_filter.1 hp
  exact ⟨p, h1, by simpa using h2⟩

theorem Sheet.GetPrintableSize_exact (sheet : Sheet) (hs : sheet.Exact) :
    ∃ size, sheet.GetPrintableSize = .ok size ∧
      (sheet.positions = [] → size = ⟨0, 0⟩) ∧
      (sheet.positions ≠ [] →
        (∃ p ∈ sheet.positions, size.rows = 1 + p.row) ∧
        (∀ p ∈ sheet.positions, 1 + p.row ≤ size.rows) ∧
        (∃ p ∈ sheet.positions, size.cols = 1 + p.col) ∧
        (∀ p ∈ sheet.positions, 1 + p.col ≤ size.cols)) := by
  obtain ⟨h1, h2, h3, h4, _⟩ := hs
  unfold Sheet.GetPrintableSize
  cases hidx : sheet.cell_index_ with
  | nil =>
    refine ⟨⟨0, 0⟩, rfl, fun _ => rfl, fun hne => ?_⟩
    exact absurd (by unfold Sheet.positions; rw [hidx]; rfl) hne
  | cons e rest =>
    have hp0 : e.1 ∈ sheet.positions := by
      unfold Sheet.positions; rw [hidx]; exact List.mem_cons_self _ _
    have hrowkey : ∀ p ∈ sheet.positions, p.row ∈ sheet.row_elem_count_.map Prod.fst := by
      intro p hp
      apply key_of_counterAt_ne
      have := Sheet.cellsInRow_pos sheet p hp
      rw [h1]; omega
    have hcolkey : ∀ p ∈ sheet.positions, p.col ∈ sheet.col_elem_count_.map Prod.fst := by
      intro p hp
      apply key_of_counterAt_ne
      have := Sheet.cellsInCol_pos sheet p hp
      rw [h2]; omega
    have hrne : sheet.row_elem_count_ ≠ [] := by
      intro hnil
      have := hrowkey e.1 hp0
      rw [hnil] at this
      exact absurd this (List.not_mem_nil _)
    have hcne : sheet.col_elem_count_ ≠ [] := by
      intro hnil
      have := hcolkey e.1 hp0
      rw [hnil] at this
      exact absurd this (List.not_mem_nil _)
    obtain ⟨kr, hkr, hkrmem, hkrmax⟩ := Sheet.GetSortedElements_back _ hrne
    obtain ⟨kc, hkc, hkcmem, hkcmax⟩ := Sheet.GetSortedElements_back _ hcne
    have hend : sheet.GetEndPosPrintableZone = .ok ⟨kr, kc⟩ := by
      unfold Sheet.GetEndPosPrintableZone
      have : sheet.row_elem_count_.isEmpty = false := by
        cases hm : sheet.row_elem_count_ with
        | nil => exact absurd hm hrne
        | cons a l => rfl
      rw [this, hkr, hkc]
      rfl
    rw [hend]
    refine ⟨⟨kr - 0 + 1, kc - 0 + 1⟩, rfl, fun hnil => ?_, fun _ => ⟨?_, ?_, ?_, ?_⟩⟩
    · rw [hnil] at hp0
      exact absurd hp0 (List.not_mem_nil _)
    · have hpos := counterAt_pos_of_key _ kr h3 hkrmem
      rw [h1] at hpos
      obtain ⟨p, hp, hpr⟩ := Sheet.exists_in_row sheet kr hpos
      exact ⟨p, hp, by show kr - 0 + 1 = 1 + p.row; omega⟩
    · intro p hp
      have := hkrmax p.row (hrowkey p hp)
      show 1 + p.row ≤ kr - 0 + 1
      omega
    · have hpos := counterAt_pos_of_key _ kc h4 hkcmem
      rw [h2] at hpos
      obtain ⟨p, hp, hpc⟩ := Sheet.exists_in_col sheet kc hpos
      exact ⟨p, hp, by show kc - 0 + 1 = 1 + p.col; omega⟩
    · intro p hp
      have := hkcmax p.col (hcolkey p hp)
      show 1 + p.col ≤ kc - 0 + 1
      omega

/-! ## Two levels of SetCell are all the recursion there is -/

theorem Cell.link_eq (L : Lib) (S1 S2 : Position → String → Sheet → Out Unit)
    (h1 : Materializes L S1) (h2 : Materializes L S2) : Cell.link L S1 = Cell.link L S2 := by
  funext this q sheet
  by_cases hv : q.IsValid L = true
  · rw [Cell.link_valid L S1 h1 this q sheet hv, Cell.link_valid L S2 h2 this q sheet hv]
  · unfold Cell.link Sheet.GetCell Sheet.GetCellInternal
    simp [hv]

theorem Cell.Refresh.attach_eq (L : Lib) (S1 S2 : Position → String → Sheet → Out Unit)
    (h1 : Materializes L S1) (h2 : Materializes L S2) :
    Cell.Refresh.attach L S1 = Cell.Refresh.attach L S2 := by
  funext this qs
  induction qs with
  | nil => rfl
  | cons q rest ih =>
    funext sheet
    unfold Cell.Refresh.attach
    rw [Cell.link_eq L S1 S2 h1 h2, ih]

theorem Cell.Refresh_eq (L : Lib) (S1 S2 : Position → String → Sheet → Out Unit)
    (h1 : Materializes L S1) (h2 : Materializes L S2) :
    Cell.Refresh L S1 = Cell.Refresh L S2 := by
  funext this sheet
  unfold Cell.Refresh
  rw [Cell.Refresh.attach_eq L S1 S2 h1 h2]

theorem Cell.Set_eq (L : Lib) (S1 S2 : Position → String → Sheet → Out Unit)
    (h1 : Materializes L S1) (h2 : Materializes L S2) : Cell.Set L S1 = Cell.Set L S2 := by
  have hf : Cell.Set.formulaPos L S1 = Cell.Set.formulaPos L S2 := by
    funext this sheet
    unfold Cell.Set.formulaPos
    rw [Cell.link_eq L S1 S2 h1 h2]
  have hc : Cell.Set.commit L S1 = Cell.Set.commit L S2 := by
    funext this f sheet
    unfold Cell.Set.commit
    rw [Cell.Refresh_eq L S1 S2 h1 h2]
  funext this text sheet
  unfold Cell.Set
  rw [hf, hc]

theorem Sheet.SetCellWith_eq (L : Lib) (S1 S2 : Position → String → Sheet → Out Unit)
    (h1 : Materializes L S1) (h2 : Materializes L S2) :
    Sheet.SetCellWith L S1 = Sheet.SetCellWith L S2 := by
  funext pos text sheet
  unfold Sheet.SetCellWith Sheet.SetCell.attempt
  rw [Cell.Set_eq L S1 S2 h1 h2]

/-- Any depth of at least two gives what `Sheet.SetCell` gives. -/
theorem Sheet.SetCellN_depth (L : Lib) (n : Nat) :
    Sheet.SetCellN L (n + 2) = Sheet.SetCell L := by
  funext pos text sheet
  show Sheet.SetCellWith L (Sheet.SetCellN L (n + 1)) pos text sheet
    = Sheet.SetCellWith L (Sheet.SetCellN L 1) pos text sheet
  rw [Sheet.SetCellWith_eq L _ _ (Sheet.SetCellN_materializes L n)
    (Sheet.SetCellN_materializes L 0)]

/-! ## The value of a text cell -/

theorem Cell.GetValue_of_text (L : Lib) (q : Position) (sheet : Sheet) (c : Cell)
    (hq : sheet.deref q = some c) (hf : c.IsFormula = false) :
    Cell.GetValue L q sheet
      = (.ok (.text (if (!strEmpty c.text_ && charAt c.text_ 0 == ESCAPE_SIGN) = true
            then substr c.text_ 1 else c.text_)), sheet) := by
  unfold Cell.GetValue Cell.GetValueN
  rw [hq]
  dsimp only
  by_cases hc : c.HasCache = true
  · rw [if_pos hc]
    unfold Cell.GetCache
    simp only [hf, Bool.false_eq_true, if_false]
    split <;> rfl
  · rw [if_neg hc]
    simp only [hf, Bool.false_eq_true, if_false]
    split <;> rfl

theorem charAt_of_empty (s : String) (h : strEmpty s = true) : charAt s 0 = Char.ofNat 0 := by
  unfold strEmpty at h
  unfold charAt
  cases hd : s.data with
  | nil => rfl
  | cons a l => rw [hd] at h; cases h

/-! ## The set of referenced positions -/

theorem Position.lt_trans (a b c : Position) (h1 : a.lt b = true) (h2 : b.lt c = true) :
    a.lt c = true := by
  unfold Position.lt at *
  simp only [Bool.or_eq_true, Bool.and_eq_true, decide_eq_true_eq] at *
  omega

theorem Position.lt_of_not (a b : Position) (hne : a ≠ b) (h : ¬ a.lt b = true) :
    b.lt a = true := by
  unfold Position.lt at *
  simp only [Bool.or_eq_true, Bool.and_eq_true, decide_eq_true_eq] at *
  have hrc : ¬ (a.row = b.row ∧ a.col = b.col) := by
    rintro ⟨h1, h2⟩
    apply hne
    cases a; cases b
    simp only [Position.mk.injEq]
    exact ⟨h1, h2⟩
  omega

theorem setInsert_sorted (p : Position) (l : List Position)
    (hl : l.Pairwise (fun a b => a.lt b = true)) :
    (setInsert p l).Pairwise (fun a b => a.lt b = true) := by
  induction l with
  | nil => simp [setInsert]
  | cons q t ih =>
    unfold setInsert
    obtain ⟨hq, ht⟩ := List.pairwise_cons.1 hl
    by_cases hpq : p = q
    · rw [if_pos hpq]; exact hl
    · rw [if_neg hpq]
      by_cases hlt : p.lt q = true
      · rw [if_pos hlt]
        refine List.pairwise_cons.2 ⟨fun x hx => ?_, hl⟩
        rcases List.mem_cons.1 hx with h | h
        · rw [h]; exact hlt
        · exact Position.lt_trans p q x hlt (hq x h)
      · rw [if_neg hlt]
        refine List.pairwise_cons.2 ⟨fun x hx => ?_, ih ht⟩
        rcases (mem_setInsert x p t).1 hx with h | h
        · rw [h]; exact Position.lt_of_not p q hpq hlt
        · exact hq x h

theorem Formula.GetReferencedCells_fold (L : Lib) (cells : List Position) :
    ∀ acc : List Position, acc.Pairwise (fun a b => a.lt b = true) →
      (cells.foldl (fun cells cell => if cell.IsValid L then setInsert cell cells else cells)
          acc).Pairwise (fun a b => a.lt b = true) ∧
        ∀ q, q ∈ cells.foldl
            (fun cells cell => if cell.IsValid L then setInsert cell cells else cells) acc
          ↔ q ∈ acc ∨ (q ∈ cells ∧ q.IsValid L = true) := by
  induction cells with
  | nil =>
    intro acc hacc
    exact ⟨hacc, fun q => by simp⟩
  | cons c rest ih =>
    intro acc hacc
    rw [List.foldl_cons]
    by_cases hc : c.IsValid L = true
    · rw [if_pos hc]
      obtain ⟨h1, h2⟩ := ih (setInsert c acc) (setInsert_sorted c acc hacc)
      refine ⟨h1, fun q => ?_⟩
      rw [h2 q, mem_setInsert, List.mem_cons]
      constructor
      · rintro ((h | h) | ⟨h, hv⟩)
        · exact Or.inr ⟨Or.inl h, h ▸ hc⟩
        · exact Or.inl h
        · exact Or.inr ⟨Or.inr h, hv⟩
      · rintro (h | ⟨h | h, hv⟩)
        · exact Or.inl (Or.inr h)
        · exact Or.inl (Or.inl h)
        · exact Or.inr ⟨h, hv⟩
    · rw [if_neg hc]
      obtain ⟨h1, h2⟩ := ih acc hacc
      refine ⟨h1, fun q => ?_⟩
      rw [h2 q, List.mem_cons]
      constructor
      · rintro (h | ⟨h, hv⟩)
        · exact Or.inl h
        · exact Or.inr ⟨Or.inr h, hv⟩
      · rintro (h | ⟨h | h, hv⟩)
        · exact Or.inl h
        · rw [h] at hv; exact absurd hv hc
        · exact Or.inr ⟨h, hv⟩

/-! ## The search loop ends -/

theorem Cell.FindCircularDependency.bound_pos (d k : Nat) :
    1 ≤ Cell.FindCircularDependency.bound d k := by
  cases k with
  | zero => exact Nat.le_refl 1
  | succ n => unfold Cell.FindCircularDependency.bound; omega

theorem Cell.FindCircularDependency.bound_succ (d k : Nat) :
    Cell.FindCircularDependency.bound d k ≤ Cell.FindCircularDependency.bound d (k + 1) := by
  induction k with
  | zero =>
    show 1 ≤ d * 1 + 1
    omega
  | succ n ih =>
    show d * Cell.FindCircularDependency.bound d n + 1
      ≤ d * Cell.FindCircularDependency.bound d (n + 1) + 1
    have := Nat.mul_le_mul_left d ih
    omega

theorem Cell.FindCircularDependency.bound_mono (d : Nat) {j k : Nat} (h : j ≤ k) :
    Cell.FindCircularDependency.bound d j ≤ Cell.FindCircularDependency.bound d k := by
  induction h with
  | refl => exact Nat.le_refl _
  | step _ ih => exact Nat.le_trans ih (Cell.FindCircularDependency.bound_succ d _)

theorem Cell.FindCircularDependency.push_eq (enter : List Position) (deps rest : List Position) :
    deps.foldl (fun st dependent => if !enter.contains dependent then dependent :: st else st)
        rest
      = (deps.filter (fun x => !enter.contains x)).reverse ++ rest := by
  induction deps generalizing rest with
  | nil => rfl
  | cons a t ih =>
    rw [List.foldl_cons, ih]
    by_cases ha : (!enter.contains a) = true
    · rw [if_pos ha]
      simp only [List.filter_cons, ha, if_true, List.reverse_cons, List.append_assoc,
        List.singleton_append]
    · rw [if_neg ha]
      simp only [List.filter_cons, ha, Bool.false_eq_true, if_false]

theorem unentered_insert (U : Finset Position) (E : List Position) (v : Position)
    (hU : v ∈ U) (hE : v ∉ E) : unentered U (v :: E) + 1 = unentered U E := by
  unfold unentered
  rw [List.toFinset_cons, Finset.sdiff_insert]
  have hmem : v ∈ U \ E.toFinset := by
    rw [Finset.mem_sdiff]
    exact ⟨hU, fun h => hE (List.mem_toFinset.1 h)⟩
  rw [Finset.card_erase_of_mem hmem]
  have : 0 < (U \ E.toFinset).card := Finset.card_pos.2 ⟨v, hmem⟩
  omega

theorem loopMeasure_cons (d : Nat) (U : Finset Position) (E : List Position) (v : Position)
    (stack : List Position) :
    loopMeasure d U E (v :: stack) = loopWeight d U E v + loopMeasure d U E stack := by
  unfold loopMeasure
  rw [List.map_cons, List.sum_cons]

theorem loopMeasure_append (d : Nat) (U : Finset Position) (E : List Position)
    (s1 s2 : List Position) :
    loopMeasure d U E (s1 ++ s2) = loopMeasure d U E s1 + loopMeasure d U E s2 := by
  unfold loopMeasure
  rw [List.map_append, List.sum_append]

theorem loopMeasure_pushed (d : Nat) (U : Finset Position) (E : List Position)
    (pushed : List Position) (hp : ∀ x ∈ pushed, x ∉ E) :
    loopMeasure d U E pushed
      = pushed.length * Cell.FindCircularDependency.bound d (unentered U E) := by
  induction pushed with
  | nil => simp [loopMeasure]
  | cons a t ih =>
    rw [loopMeasure_cons, ih (fun x hx => hp x (List.mem_cons_of_mem _ hx))]
    unfold loopWeight
    rw [if_neg (hp a (List.mem_cons_self _ _)), List.length_cons]
    simp only [Nat.add_zero]
    rw [Nat.succ_mul]
    omega

theorem loopMeasure_le (d : Nat) (U : Finset Position) (E E1 : List Position)
    (stack : List Position) (h : ∀ v ∈ stack, loopWeight d U E1 v ≤ loopWeight d U E v) :
    loopMeasure d U E1 stack ≤ loopMeasure d U E stack := by
  induction stack with
  | nil => exact Nat.le_refl _
  | cons a t ih =>
    rw [loopMeasure_cons, loopMeasure_cons]
    have h1 := h a (List.mem_cons_self _ _)
    have h2 := ih (fun v hv => h v (List.mem_cons_of_mem _ hv))
    omega

theorem loopMeasure_step (d : Nat) (U : Finset Position) (E : List Position)
    (curr : Position) (rest deps : List Position) (hcurr : curr ∈ U)
    (hlen : deps.length ≤ d) :
    loopMeasure d U (List.insert curr E)
        (deps.foldl
          (fun st dependent =>
            if !(List.insert curr E).contains dependent then dependent :: st else st) rest) + 1
      ≤ loopMeasure d U E (curr :: rest) := by
  rw [Cell.FindCircularDependency.push_eq, loopMeasure_append, loopMeasure_cons]
  have hpushed : ∀ x ∈ (deps.filter (fun x => !(List.insert curr E).contains x)).reverse,
      x ∉ List.insert curr E := by
    intro x hx
    have := (List.mem_filter.1 (List.mem_reverse.1 hx)).2
    simpa using this
  rw [loopMeasure_pushed d U _ _ hpushed]
  have hlen2 : (deps.filter (fun x => !(List.insert curr E).contains x)).reverse.length ≤ d := by
    rw [List.length_reverse]
    exact Nat.le_trans (List.length_filter_le _ _) hlen
  by_cases hE : curr ∈ E
  · rw [List.insert_of_mem hE]
    have hw : loopWeight d U E curr
        = d * Cell.FindCircularDependency.bound d (unentered U E) + 1 := by
      unfold loopWeight
      rw [if_pos hE]
      rfl
    rw [List.insert_of_mem hE] at hlen2
    have hmul := Nat.mul_le_mul_right (Cell.FindCircularDependency.bound d (unentered U E)) hlen2
    rw [hw]
    omega
  · rw [List.insert_of_not_mem hE]
    rw [List.insert_of_not_mem hE] at hlen2
    have hk := unentered_insert U E curr hcurr hE
    have hw : loopWeight d U E curr
        = d * Cell.FindCircularDependency.bound d (unentered U (curr :: E)) + 1 := by
      unfold loopWeight
      rw [if_neg hE, ← hk]
      rfl
    have hmul := Nat.mul_le_mul_right
      (Cell.FindCircularDependency.bound d (unentered U (curr :: E))) hlen2
    have hrest : loopMeasure d U (curr :: E) rest ≤ loopMeasure d U E rest := by
      apply loopMeasure_le
      intro v _
      unfold loopWeight
      apply Cell.FindCircularDependency.bound_mono
      rw [← hk]
      by_cases h1 : v ∈ curr :: E
      · rw [if_pos h1]
        split <;> omega
      · rw [if_neg h1]
        split <;> omega
    rw [hw]
    omega

theorem Cell.FindCircularDependency.loop_terminates (sheet : Sheet)
    (rc : List (Option Position)) (U : Finset Position) (d : Nat)
    (hU : ∀ p c, sheet.deref p = some c → ∀ x ∈ c.dependent_cells_, x ∈ U)
    (hd : ∀ p c, sheet.deref p = some c → c.dependent_cells_.length ≤ d) (fuel : Nat) :
    ∀ (stack enter : List Position), (∀ v ∈ stack, v ∈ U) →
      loopMeasure d U enter stack ≤ fuel →
      Cell.FindCircularDependency.loop sheet rc fuel stack enter ≠ .error .OutOfFuel := by
  induction fuel with
  | zero =>
    intro stack enter _ hm
    cases stack with
    | nil => unfold Cell.FindCircularDependency.loop; simp
    | cons a l =>
      rw [loopMeasure_cons] at hm
      have := Cell.FindCircularDependency.bound_pos d
        (unentered U enter + if a ∈ enter then 1 else 0)
      unfold loopWeight at hm
      omega
  | succ n ih =>
    intro stack enter hstack hm
    cases stack with
    | nil => unfold Cell.FindCircularDependency.loop; simp
    | cons a l =>
      unfold Cell.FindCircularDependency.loop
      dsimp only
      split
      · cases h : sheet.deref a with
        | none => simp
        | some c =>
          dsimp only
          have hstep := loopMeasure_step d U enter a l c.dependent_cells_
            (hstack a (List.mem_cons_self _ _)) (hd a c h)
          apply ih
          · intro v hv
            rw [Cell.FindCircularDependency.push_eq] at hv
            rcases List.mem_append.1 hv with h1 | h1
            · exact hU a c h v (List.mem_filter.1 (List.mem_reverse.1 h1)).1
            · exact hstack v (List.mem_cons_of_mem _ h1)
          · omega
      · simp

theorem Cell.FindCircularDependency.loop_nil (sheet : Sheet) (rc : List (Option Position))
    (fuel : Nat) (enter : List Position) :
    Cell.FindCircularDependency.loop sheet rc fuel [] enter = .ok false := by
  cases fuel <;> rfl

theorem Cell.FindCircularDependency.loop_fuel (sheet : Sheet) (rc : List (Option Position))
    (fuel : Nat) :
    ∀ (stack enter : List Position),
      Cell.FindCircularDependency.loop sheet rc fuel stack enter ≠ .error .OutOfFuel →
      ∀ more, Cell.FindCircularDependency.loop sheet rc (fuel + more) stack enter
        = Cell.FindCircularDependency.loop sheet rc fuel stack enter := by
  induction fuel with
  | zero =>
    intro stack enter h more
    cases stack with
    | nil =>
      rw [Cell.FindCircularDependency.loop_nil, Cell.FindCircularDependency.loop_nil]
    | cons a l =>
      unfold Cell.FindCircularDependency.loop at h
      exact absurd rfl h
  | succ n ih =>
    intro stack enter h more
    cases stack with
    | nil =>
      rw [Cell.FindCircularDependency.loop_nil, Cell.FindCircularDependency.loop_nil]
    | cons a l =>
      have hadd : n + 1 + more = (n + more) + 1 := by omega
      rw [hadd]
      unfold Cell.FindCircularDependency.loop at h ⊢
      dsimp only at h ⊢
      split
      · rename_i hc
        rw [if_pos hc] at h
        cases hd : sheet.deref a with
        | none => rfl
        | some c =>
          rw [hd] at h
          dsimp only at h ⊢
          exact ih _ _ h more
      · rfl

theorem length_flatMap_sum {α β : Type} (l : List α) (f : α → List β) :
    (l.flatMap f).length = (l.map (fun e => (f e).length)).sum := by
  induction l with
  | nil => rfl
  | cons a t ih =>
    rw [List.flatMap_cons, List.length_append, ih, List.map_cons, List.sum_cons]

theorem le_sum_of_mem (l : List Nat) (x : Nat) (h : x ∈ l) : x ≤ l.sum := by
  induction l with
  | nil => exact absurd h (List.not_mem_nil x)
  | cons a t ih =>
    rw [List.sum_cons]
    rcases List.mem_cons.1 h with h1 | h1
    · omega
    · have := ih h1
      omega

theorem Sheet.dependents_in_universe (sheet : Sheet) (this p : Position) (c : Cell)
    (h : sheet.deref p = some c) : ∀ x ∈ c.dependent_cells_, x ∈ sheet.universe this := by
  intro x hx
  unfold Sheet.universe
  rw [List.mem_toFinset]
  refine List.mem_cons_of_mem _ (List.mem_flatMap.2 ⟨(p, c), ?_, hx⟩)
  exact Map.mem_of_find? _ _ _ h

theorem Sheet.dependents_length_le (sheet : Sheet) (p : Position) (c : Cell)
    (h : sheet.deref p = some c) : c.dependent_cells_.length ≤ sheet.totalDependents := by
  unfold Sheet.totalDependents
  apply le_sum_of_mem
  exact List.mem_map.2 ⟨(p, c), Map.mem_of_find? _ _ _ h, rfl⟩

theorem Cell.FindCircularDependency.budget_enough (sheet : Sheet) (this : Position) :
    loopMeasure sheet.totalDependents (sheet.universe this) [] [this]
      < Cell.FindCircularDependency.budget sheet := by
  have hcard : (sheet.universe this).card ≤ sheet.cell_index_.length + sheet.totalDependents + 1 := by
    unfold Sheet.universe
    refine Nat.le_trans (List.toFinset_card_le _) ?_
    rw [List.length_cons, length_flatMap_sum]
    unfold Sheet.totalDependents
    omega
  have hm : loopMeasure sheet.totalDependents (sheet.universe this) [] [this]
      = Cell.FindCircularDependency.bound sheet.totalDependents (sheet.universe this).card := by
    unfold loopMeasure loopWeight unentered
    simp
  rw [hm]
  have hb : Cell.FindCircularDependency.budget sheet
      = Cell.FindCircularDependency.bound sheet.totalDependents
          (sheet.cell_index_.length + sheet.totalDependents + 1) + 1 := rfl
  rw [hb]
  have := Cell.FindCircularDependency.bound_mono sheet.totalDependents hcard
  omega

theorem Cell.FindCircularDependency.loop_budget (sheet : Sheet) (rc : List (Option Position))
    (this : Position) :
    Cell.FindCircularDependency.loop sheet rc (Cell.FindCircularDependency.budget sheet)
        [this] [] ≠ .error .OutOfFuel := by
  apply Cell.FindCircularDependency.loop_terminates sheet rc (sheet.universe this)
    sheet.totalDependents (Sheet.dependents_in_universe sheet this)
    (Sheet.dependents_length_le sheet)
  · intro v hv
    rw [List.mem_singleton] at hv
    rw [hv]
    unfold Sheet.universe
    rw [List.mem_toFinset]
    exact List.mem_cons_self _ _
  · exact Nat.le_of_lt (Cell.FindCircularDependency.budget_enough sheet this)

theorem Cell.FindCircularDependency.refs_error (L : Lib) (sheet : Sheet) (ref : List Position) :
    ∀ (acc : List (Option Position)) (x : Exception),
      Cell.FindCircularDependency.refs L sheet ref acc = .error x →
      x = .InvalidPositionException := by
  induction ref with
  | nil =>
    intro acc x h
    unfold Cell.FindCircularDependency.refs at h
    cases h
  | cons p rest ih =>
    intro acc x h
    unfold Cell.FindCircularDependency.refs at h
    by_cases hv : p.IsValid L = true
    · rw [Sheet.GetCell_valid L sheet p hv] at h
      exact ih _ x h
    · have : sheet.GetCell L p = .error .InvalidPositionException := by
        unfold Sheet.GetCell Sheet.GetCellInternal
        simp [hv]
      rw [this] at h
      cases h
      rfl

/-! ## The search loop decides reachability -/

theorem Cell.FindCircularDependency.loop_step (sheet : Sheet) (rc : List (Option Position))
    (fuel : Nat) (a : Position) (l enter : List Position) :
    Cell.FindCircularDependency.loop sheet rc (fuel + 1) (a :: l) enter
      = if !rc.contains (some a) then
          match sheet.deref a with
          | none => .error .DanglingPointer
          | some c =>
            Cell.FindCircularDependency.loop sheet rc fuel
              (c.dependent_cells_.foldl
                (fun st dependent =>
                  if !(List.insert a enter).contains dependent then dependent :: st else st)
                l)
              (List.insert a enter)
        else .ok true := by
  rw [Cell.FindCircularDependency.loop]

theorem Cell.FindCircularDependency.mem_pushed (enter deps rest : List Position)
    (x : Position) :
    x ∈ deps.foldl (fun st dependent => if !enter.contains dependent then dependent :: st else st)
        rest
      ↔ (x ∈ deps ∧ x ∉ enter) ∨ x ∈ rest := by
  rw [Cell.FindCircularDependency.push_eq, List.mem_append, List.mem_reverse, List.mem_filter]
  simp

theorem Cell.FindCircularDependency.loop_sound (sheet : Sheet) (rc : List (Option Position))
    (this : Position) (fuel : Nat) :
    ∀ (stack enter : List Position), (∀ v ∈ stack, sheet.Reach this v) →
      Cell.FindCircularDependency.loop sheet rc fuel stack enter = .ok true →
      ∃ r, some r ∈ rc ∧ sheet.Reach this r := by
  induction fuel with
  | zero =>
    intro stack enter _ h
    cases stack with
    | nil => rw [Cell.FindCircularDependency.loop_nil] at h; cases h
    | cons a l => unfold Cell.FindCircularDependency.loop at h; cases h
  | succ n ih =>
    intro stack enter hstack h
    cases stack with
    | nil => rw [Cell.FindCircularDependency.loop_nil] at h; cases h
    | cons a l =>
      rw [Cell.FindCircularDependency.loop_step] at h
      by_cases hc : rc.contains (some a) = true
      · exact ⟨a, by simpa using hc, hstack a (List.mem_cons_self _ _)⟩
      · rw [Bool.not_eq_true] at hc
        simp only [hc, Bool.not_false, if_true] at h
        cases hd : sheet.deref a with
        | none => rw [hd] at h; cases h
        | some c =>
          rw [hd] at h
          dsimp only at h
          apply ih _ _ _ h
          intro v hv
          rcases (Cell.FindCircularDependency.mem_pushed _ _ _ v).1 hv with h1 | h1
          · exact Relation.ReflTransGen.tail (hstack a (List.mem_cons_self _ _)) ⟨c, hd, h1.1⟩
          · exact hstack v (List.mem_cons_of_mem _ h1)

theorem Cell.FindCircularDependency.loop_complete (sheet : Sheet)
    (rc : List (Option Position)) (fuel : Nat) :
    ∀ (stack enter : List Position),
      (∀ v ∈ enter, rc.contains (some v) = false ∧
        ∀ c, sheet.deref v = some c → ∀ d ∈ c.dependent_cells_, d ∈ enter ∨ d ∈ stack) →
      Cell.FindCircularDependency.loop sheet rc fuel stack enter = .ok false →
      ∃ E : List Position, (∀ v ∈ stack, v ∈ E) ∧ (∀ v ∈ enter, v ∈ E) ∧
        ∀ v ∈ E, rc.contains (some v) = false ∧
          ∀ c, sheet.deref v = some c → ∀ d ∈ c.dependent_cells_, d ∈ E := by
  have base : ∀ enter : List Position,
      (∀ v ∈ enter, rc.contains (some v) = false ∧
        ∀ c, sheet.deref v = some c → ∀ d ∈ c.dependent_cells_, d ∈ enter ∨ d ∈ []) →
      ∃ E : List Position, (∀ v ∈ ([] : List Position), v ∈ E) ∧ (∀ v ∈ enter, v ∈ E) ∧
        ∀ v ∈ E, rc.contains (some v) = false ∧
          ∀ c, sheet.deref v = some c → ∀ d ∈ c.dependent_cells_, d ∈ E := by
    intro enter hinv
    refine ⟨enter, fun v hv => absurd hv (List.not_mem_nil v), fun v hv => hv, fun v hv => ?_⟩
    refine ⟨(hinv v hv).1, fun c hc d hd => ?_⟩
    rcases (hinv v hv).2 c hc d hd with h1 | h1
    · exact h1
    · exact absurd h1 (List.not_mem_nil d)
  induction fuel with
  | zero =>
    intro stack enter hinv h
    cases stack with
    | nil => exact base enter hinv
    | cons a l => unfold Cell.FindCircularDependency.loop at h; cases h
  | succ n ih =>
    intro stack enter hinv h
    cases stack with
    | nil => exact base enter hinv
    | cons a l =>
      rw [Cell.FindCircularDependency.loop_step] at h
      by_cases hc : rc.contains (some a) = true
      · simp only [hc, Bool.not_true, Bool.false_eq_true, if_false] at h
        cases h
      · rw [Bool.not_eq_true] at hc
        simp only [hc, Bool.not_false, if_true] at h
        cases hd : sheet.deref a with
        | none => rw [hd] at h; cases h
        | some c =>
          rw [hd] at h
          dsimp only at h
          have hstep : ∀ v ∈ List.insert a enter, rc.contains (some v) = false ∧
              ∀ c1, sheet.deref v = some c1 → ∀ d ∈ c1.dependent_cells_,
                d ∈ List.insert a enter ∨
                  d ∈ c.dependent_cells_.foldl
                    (fun st dependent =>
                      if !(List.insert a enter).contains dependent then dependent :: st
                      else st)
                    l := by
            intro v hv
            rcases List.mem_insert_iff.1 hv with h1 | h1
            · subst h1
              refine ⟨hc, fun c1 hc1 d hdm => ?_⟩
              rw [hd] at hc1
              cases hc1
              by_cases hin : d ∈ List.insert v enter
              · exact Or.inl hin
              · exact Or.inr ((Cell.FindCircularDependency.mem_pushed _ _ _ d).2
                  (Or.inl ⟨hdm, hin⟩))
            · refine ⟨(hinv v h1).1, fun c1 hc1 d hdm => ?_⟩
              rcases (hinv v h1).2 c1 hc1 d hdm with h2 | h2
              · exact Or.inl (List.mem_insert_of_mem h2)
              · rcases List.mem_cons.1 h2 with h3 | h3
                · rw [h3]; exact Or.inl (List.mem_insert_self _ _)
                · exact Or.inr ((Cell.FindCircularDependency.mem_pushed _ _ _ d).2 (Or.inr h3))
          obtain ⟨E, hs, he, hE⟩ := ih _ _ hstep h
          refine ⟨E, fun v hv => ?_, fun v hv => he v (List.mem_insert_of_mem hv), hE⟩
          rcases List.mem_cons.1 hv with h1 | h1
          · rw [h1]; exact he a (List.mem_insert_self _ _)
          · exact hs v ((Cell.FindCircularDependency.mem_pushed _ _ _ v).2 (Or.inr h1))

theorem Cell.FindCircularDependency.loop_error (sheet : Sheet) (rc : List (Option Position))
    (hclosed : sheet.Closed) (fuel : Nat) :
    ∀ (stack enter : List Position), (∀ v ∈ stack, (sheet.deref v).isSome = true) →
      ∀ x, Cell.FindCircularDependency.loop sheet rc fuel stack enter = .error x →
        x = .OutOfFuel := by
  induction fuel with
  | zero =>
    intro stack enter _ x h
    cases stack with
    | nil => rw [Cell.FindCircularDependency.loop_nil] at h; cases h
    | cons a l => unfold Cell.FindCircularDependency.loop at h; cases h; rfl
  | succ n ih =>
    intro stack enter hstack x h
    cases stack with
    | nil => rw [Cell.FindCircularDependency.loop_nil] at h; cases h
    | cons a l =>
      rw [Cell.FindCircularDependency.loop_step] at h
      by_cases hc : rc.contains (some a) = true
      · simp only [hc, Bool.not_true, Bool.false_eq_true, if_false] at h
        cases h
      · rw [Bool.not_eq_true] at hc
        simp only [hc, Bool.not_false, if_true] at h
        cases hd : sheet.deref a with
        | none =>
          have := hstack a (List.mem_cons_self _ _)
          rw [hd] at this
          cases this
        | some c =>
          rw [hd] at h
          dsimp only at h
          apply ih _ _ _ x h
          intro v hv
          rcases (Cell.FindCircularDependency.mem_pushed _ _ _ v).1 hv with h1 | h1
          · exact hclosed (a, c) (Map.mem_of_find? _ _ _ hd) v h1.1
          · exact hstack v (List.mem_cons_of_mem _ h1)

theorem Cell.FindCircularDependency.refs_sub (L : Lib) (sheet : Sheet) (ref : List Position) :
    ∀ (acc rc : List (Option Position)),
      Cell.FindCircularDependency.refs L sheet ref acc = .ok rc →
      ∀ r, some r ∈ rc → some r ∈ acc ∨ (r ∈ ref ∧ (sheet.deref r).isSome = true) := by
  induction ref with
  | nil =>
    intro acc rc h r hr
    unfold Cell.FindCircularDependency.refs at h
    cases h
    exact Or.inl hr
  | cons p rest ih =>
    intro acc rc h r hr
    unfold Cell.FindCircularDependency.refs at h
    by_cases hv : p.IsValid L = true
    · rw [Sheet.GetCell_valid L sheet p hv] at h
      dsimp only at h
      rcases ih _ rc h r hr with h1 | h1
      · rcases List.mem_insert_iff.1 h1 with h2 | h2
        · by_cases hp : (sheet.deref p).isSome = true
          · rw [if_pos hp] at h2
            cases h2
            exact Or.inr ⟨List.mem_cons_self _ _, hp⟩
          · rw [if_neg hp] at h2
            cases h2
        · exact Or.inl h2
      · exact Or.inr ⟨List.mem_cons_of_mem _ h1.1, h1.2⟩
    · have : sheet.GetCell L p = .error .InvalidPositionException := by
        unfold Sheet.GetCell Sheet.GetCellInternal
        simp [hv]
      rw [this] at h
      cases h

theorem Sheet.reach_closed (sheet : Sheet) (E : List Position)
    (hE : ∀ v ∈ E, ∀ c, sheet.deref v = some c → ∀ d ∈ c.dependent_cells_, d ∈ E)
    (a b : Position) (ha : a ∈ E) (h : sheet.Reach a b) : b ∈ E := by
  induction h with
  | refl => exact ha
  | tail _ hedge ih =>
    obtain ⟨c, hc, hd⟩ := hedge
    exact hE _ ih c hc _ hd

/-! ## Text cells -/

/-- After a successful `SetCell(p, s)` with an `s` that does not start with `=`,
whatever the sheet held before, `GetText()` of the cell at `p` is `s` and `GetValue()`
returns, without changing the sheet, the string `s` without its first character when `s`
starts with the escape sign, and `s` itself otherwise. -/
theorem Sheet.SetCell_text_value (L : Lib) (sheet after : Sheet) (p : Position) (s : String)
    (hs : charAt s 0 ≠ FORMULA_SIGN) (h : Sheet.SetCell L p s sheet = (.ok (), after)) :
    after.textAt p = some s ∧
      Cell.GetValue L p after
        = (.ok (.text (if charAt s 0 = ESCAPE_SIGN then substr s 1 else s)), after) := by
  obtain ⟨_, sheet0, sheet1, _, hset, hafter, _⟩ :=
    Sheet.SetCellWith_ok L (Sheet.SetCellN L 1) p s sheet after h
  have hn : ¬ (2 ≤ s.length ∧ Cell.IsText s = false) := by
    rw [Cell.IsText_eq_false]
    exact fun hh => hs hh.2
  obtain ⟨c, hc, ht, _⟩ := Cell.Set_text_spec L _ p s sheet0 sheet1 hn hset
  have hc2 : after.deref p = some c := by rw [hafter p, hc]
  refine ⟨by unfold Sheet.textAt; rw [hc2]; simp [Cell.GetText, ht], ?_⟩
  have hf : c.IsFormula = false := by
    unfold Cell.IsFormula
    rw [ht]
    by_cases he : strEmpty s = true
    · rw [if_pos he]
    · rw [if_neg he]
      have : ¬ charAt s 0 = '=' := hs
      simp [this]
  rw [Cell.GetValue_of_text L p after c hc2 hf, ht]
  by_cases he : strEmpty s = true
  · have h0 := charAt_of_empty s he
    have hne : ¬ charAt s 0 = ESCAPE_SIGN := by rw [h0]; decide
    simp [he, hne]
  · by_cases hesc : charAt s 0 = ESCAPE_SIGN
    · simp [he, hesc]
    · simp [he, hesc]

/-! ## The claims -/

/-- C1, the code on the claim's witness: A1 = "2", A2 = "=A1+3", A3 = "=A2*A2" are set and
read as "2", 5 and 25, every call succeeding; `SetCell(A1, "4")` then succeeds, and
`GetValue` still gives 5 for A2 and 25 for A3, the values cached before the write, while
evaluating the same formulas from scratch on that sheet gives 7 and 49.  With the formula
`=1` at A1 instead (values 1, 4, 16), `SetCell(A1, "=4")` succeeds and `GetValue` then
gives 7 for A2 but still 16 for A3, where evaluating from scratch gives 49. -/
theorem C1_stale_cache_after_write :
    Sheet.outcomes stdLib {} [(A1, "2"), (A2, "=A1+3"), (A3, "=A2*A2")]
        = [.ok (), .ok (), .ok ()] ∧
      Sheet.readAll stdLib scenario1 [A1, A2, A3]
        = [.ok (.text "2"), .ok (.number 5), .ok (.number 25)] ∧
      (Sheet.SetCell stdLib A1 "4" scenario1Read).1 = .ok () ∧
      Sheet.readAll stdLib (Sheet.SetCell stdLib A1 "4" scenario1Read).2 [A2, A3]
        = [.ok (.number 5), .ok (.number 25)] ∧
      Sheet.readAll stdLib (Sheet.SetCell stdLib A1 "4" scenario1Read).2.dropCaches [A2, A3]
        = [.ok (.number 7), .ok (.number 49)] ∧
      (Sheet.SetCell stdLib A1 "=4" formulaChainRead).1 = .ok () ∧
      Sheet.readAll stdLib (Sheet.SetCell stdLib A1 "=4" formulaChainRead).2 [A2, A3]
        = [.ok (.number 7), .ok (.number 16)] ∧
      Sheet.readAll stdLib (Sheet.SetCell stdLib A1 "=4" formulaChainRead).2.dropCaches [A2, A3]
        = [.ok (.number 7), .ok (.number 49)] := by
  decide!

/-- C2, the code on the claim's witness: from scenario 1 the first `SetCell(A1, "=A3")`
throws `CircularDependencyException`, the same call repeated succeeds, and afterwards A1
lists A3, A3 lists A2 and A2 lists A1 in `GetReferencedCells()`: a cycle. -/
theorem C2_repeated_SetCell_closes_cycle :
    (Sheet.SetCell stdLib A1 "=A3" scenario1).1 = .error .CircularDependencyException ∧
      (Sheet.SetCell stdLib A1 "=A3" (Sheet.SetCell stdLib A1 "=A3" scenario1).2).1 = .ok () ∧
      (Sheet.afterSets stdLib scenario1 [(A1, "=A3"), (A1, "=A3")]).referencesAt stdLib A1
        = some [A3] ∧
      (Sheet.afterSets stdLib scenario1 [(A1, "=A3"), (A1, "=A3")]).referencesAt stdLib A3
        = some [A2] ∧
      (Sheet.afterSets stdLib scenario1 [(A1, "=A3"), (A1, "=A3")]).referencesAt stdLib A2
        = some [A1] := by
  decide!

/-- C3, the code on a failing input: in scenario 1 the cell A1 has no predecessor and
the successor A2; `SetCell(A1, "=A3")` throws `CircularDependencyException`, and
afterwards A1 has its text back but the predecessor A2 and no successor: the two sets
come back exchanged. -/
theorem C3_rollback_exchanges_adjacency :
    scenario1.adjacency A1 = some ([], [A2]) ∧
      scenario1.textAt A1 = some "2" ∧
      (Sheet.SetCell stdLib A1 "=A3" scenario1).1 = .error .CircularDependencyException ∧
      (Sheet.SetCell stdLib A1 "=A3" scenario1).2.textAt A1 = some "2" ∧
      (Sheet.SetCell stdLib A1 "=A3" scenario1).2.adjacency A1 = some ([A2], []) := by
  decide!

/-- C4, the code on a failing input: A1 holds the text "hello"; `SetCell(A1, "=(")` fails
with `FormulaException`, and afterwards `GetText` of A1 is "" and `GetValue` of A1 is the
empty string. -/
theorem C4_FormulaException_empties_cell :
    (Sheet.SetCell stdLib A1 "hello" {}).1 = .ok () ∧
      (Sheet.SetCell stdLib A1 "hello" {}).2.textAt A1 = some "hello" ∧
      (Sheet.SetCell stdLib A1 "=(" (Sheet.SetCell stdLib A1 "hello" {}).2).1
        = .error .FormulaException ∧
      (Sheet.SetCell stdLib A1 "=(" (Sheet.SetCell stdLib A1 "hello" {}).2).2.textAt A1
        = some "" ∧
      (Cell.GetValue stdLib A1
          (Sheet.SetCell stdLib A1 "=(" (Sheet.SetCell stdLib A1 "hello" {}).2).2).1
        = .ok (.text "") := by
  decide!

/-- C5, the code on the claim's witness: `SetCell(A2, "=A1")` and `SetCell(A2, "hello")`
succeed, A2 is then a text cell without formula that still has A1 in its predecessor set
and is still in the successor set of A1, and `SetCell(A1, "=A2")` throws
`CircularDependencyException`. -/
theorem C5_stale_edge_reports_cycle :
    Sheet.outcomes stdLib {} [(A2, "=A1"), (A2, "hello"), (A1, "=A2")]
        = [.ok (), .ok (), .error .CircularDependencyException] ∧
      (Sheet.afterSets stdLib {} [(A2, "=A1"), (A2, "hello")]).textAt A2 = some "hello" ∧
      (Sheet.afterSets stdLib {} [(A2, "=A1"), (A2, "hello")]).referencesAt stdLib A2
        = some [] ∧
      (Sheet.afterSets stdLib {} [(A2, "=A1"), (A2, "hello")]).adjacency A2 = some ([A1], []) ∧
      (Sheet.afterSets stdLib {} [(A2, "=A1"), (A2, "hello")]).adjacency A1
        = some ([], [A2]) := by
  decide!

/-- C6: for a position with `!pos.IsValid()`, each of `SetCell(pos, text)`,
`ClearCell(pos)` and `GetCell(pos)` throws `InvalidPositionException` and the sheet (cell
map and both counter maps) is the one before the call; for a valid position none of the
three ends with `InvalidPositionException`. -/
theorem C6_invalid_position (L : Lib) (sheet : Sheet) (pos : Position) (text : String) :
    (pos.IsValid L = false →
      Sheet.SetCell L pos text sheet = (.error .InvalidPositionException, sheet) ∧
        Sheet.ClearCell L pos sheet = (.error .InvalidPositionException, sheet) ∧
        sheet.GetCell L pos = .error .InvalidPositionException) ∧
    (pos.IsValid L = true →
      (Sheet.SetCell L pos text sheet).1 ≠ .error .InvalidPositionException ∧
        (Sheet.ClearCell L pos sheet).1 ≠ .error .InvalidPositionException ∧
        sheet.GetCell L pos ≠ .error .InvalidPositionException) := by
  constructor
  · intro hv
    refine ⟨?_, ?_, ?_⟩
    · show Sheet.SetCellWith L _ pos text sheet = _
      unfold Sheet.SetCellWith
      simp [hv]
    · unfold Sheet.ClearCell
      simp [hv]
    · unfold Sheet.GetCell Sheet.GetCellInternal
      simp [hv]
  · intro hv
    refine ⟨?_, ?_, ?_⟩
    · exact Sheet.SetCellWith_notInvalid L _ (Sheet.SetCellN_materializes L 0) pos text sheet hv
    · unfold Sheet.ClearCell
      simp only [hv, Bool.not_true, Bool.false_eq_true, if_false]
      split <;> simp
    · rw [Sheet.GetCell_valid L sheet pos hv]
      simp

/-- C6 at concrete inputs: the position (-1, 0) is invalid and the three calls throw
`InvalidPositionException` on scenario 1 without changing it; A1 is valid and none of
the three calls on it ends with that exception. -/
theorem C6_invalid_position_witness :
    (Position.IsValid stdLib ⟨-1, 0⟩ = false ∧ Position.IsValid stdLib A1 = true) ∧
    (Sheet.SetCell stdLib ⟨-1, 0⟩ "x" scenario1 = (.error .InvalidPositionException, scenario1) ∧
      Sheet.ClearCell stdLib ⟨-1, 0⟩ scenario1 = (.error .InvalidPositionException, scenario1) ∧
      scenario1.GetCell stdLib ⟨-1, 0⟩ = .error .InvalidPositionException) ∧
    ((Sheet.SetCell stdLib A1 "x" scenario1).1 ≠ .error .InvalidPositionException ∧
      (Sheet.ClearCell stdLib A1 scenario1).1 ≠ .error .InvalidPositionException ∧
      scenario1.GetCell stdLib A1 ≠ .error .InvalidPositionException) :=
  ⟨⟨by decide, by decide⟩,
    (C6_invalid_position stdLib scenario1 ⟨-1, 0⟩ "x").1 (by decide),
    (C6_invalid_position stdLib scenario1 A1 "x").2 (by decide)⟩

/-- C7, amended: whenever `SetCell(p, s)` succeeds, `GetText()` of the cell at `p` is `s`
if `s` is not a formula (it is shorter than two characters or does not start with `=`),
and if `s` is a formula it is `"="` followed by `GetExpression()` of the formula parsed
from `s[2..]` when `s[1]` is the escape sign and from `s[1..]` otherwise. -/
theorem C7_GetText_after_SetCell (L : Lib) (sheet after : Sheet) (p : Position) (s : String)
    (h : Sheet.SetCell L p s sheet = (.ok (), after)) :
    (¬ (2 ≤ s.length ∧ charAt s 0 = FORMULA_SIGN) → after.textAt p = some s) ∧
      (2 ≤ s.length ∧ charAt s 0 = FORMULA_SIGN →
        ∃ f, ParseFormula L
              (if charAt s 1 == ESCAPE_SIGN then substr s 2 else substr s 1) = some f ∧
          after.textAt p = some (String.singleton FORMULA_SIGN ++ f.GetExpression L)) := by
  obtain ⟨_, sheet0, sheet1, _, hset, hafter, _⟩ :=
    Sheet.SetCellWith_ok L (Sheet.SetCellN L 1) p s sheet after h
  unfold Sheet.textAt
  rw [hafter p]
  constructor
  · intro hn
    have hn2 : ¬ (2 ≤ s.length ∧ Cell.IsText s = false) := by
      rw [Cell.IsText_eq_false]; exact hn
    obtain ⟨c, hc, ht, _⟩ := Cell.Set_text_spec L _ p s sheet0 sheet1 hn2 hset
    rw [hc]
    simp [Cell.GetText, ht]
  · rintro ⟨hlen, hsign⟩
    obtain ⟨f, hf, _, ⟨c, hc, ht, _⟩, _⟩ :=
      Cell.Set_formula_spec L _ (Sheet.SetCellN_materializes L 0) p s sheet0 sheet1 hlen
        ((Cell.IsText_eq_false s).2 hsign) hset
    refine ⟨f, hf, ?_⟩
    rw [hc]
    simp [Cell.GetText, ht]

/-- C7, counterexample to the claim as stated: on the empty sheet `SetCell` of A1 with the
three characters `=`, escape sign, `1` succeeds and `GetText()` is `"=1"`, but no formula
parses from `s[1..]`, the escape sign followed by `1`. -/
theorem C7_escape_counterexample :
    (Sheet.SetCell stdLib A1 (String.mk [FORMULA_SIGN, ESCAPE_SIGN, '1']) {}).1 = .ok () ∧
      (Sheet.SetCell stdLib A1 (String.mk [FORMULA_SIGN, ESCAPE_SIGN, '1']) {}).2.textAt A1
        = some "=1" ∧
      ¬ ∃ f, ParseFormula stdLib (substr (String.mk [FORMULA_SIGN, ESCAPE_SIGN, '1']) 1)
            = some f ∧
          (Sheet.SetCell stdLib A1 (String.mk [FORMULA_SIGN, ESCAPE_SIGN, '1']) {}).2.textAt A1
            = some (String.singleton FORMULA_SIGN ++ f.GetExpression stdLib) := by
  refine ⟨by decide!, by decide!, ?_⟩
  rintro ⟨f, hf, _⟩
  have hnone : ParseFormula stdLib (substr (String.mk [FORMULA_SIGN, ESCAPE_SIGN, '1']) 1)
      = none := by decide!
  rw [hnone] at hf
  cases hf

/-- C7, the amended claim at concrete inputs: the text `"x"` is stored as it is, and the
formula `"=A1+3"` is stored as `"="` followed by the canonical expression. -/
theorem C7_GetText_after_SetCell_witness :
    (Sheet.SetCell stdLib A1 "x" {}).2.textAt A1 = some "x" ∧
      ∃ f, ParseFormula stdLib
            (if charAt "=A1+3" 1 == ESCAPE_SIGN then substr "=A1+3" 2 else substr "=A1+3" 1)
            = some f ∧
        (Sheet.SetCell stdLib A2 "=A1+3" {}).2.textAt A2
          = some (String.singleton FORMULA_SIGN ++ f.GetExpression stdLib) :=
  ⟨(C7_GetText_after_SetCell stdLib {} (Sheet.SetCell stdLib A1 "x" {}).2 A1 "x"
      (by decide!)).1 (by decide),
    (C7_GetText_after_SetCell stdLib {} (Sheet.SetCell stdLib A2 "=A1+3" {}).2 A2 "=A1+3"
      (by decide!)).2 (by decide)⟩

/-- C8: on a sheet reached from the empty sheet by `SetCell` and `ClearCell` calls none
of which throws, the row and column counters count exactly the stored cells of each row
and column, no position is stored twice, and `GetPrintableSize()` returns `{0, 0}` when
no cell is stored and otherwise a size whose rows are 1 + the largest row and whose
columns are 1 + the largest column over the positions that hold a cell. -/
theorem C8_printable_size (L : Lib) (calls : List Call) (sheet : Sheet)
    (h : Sheet.run L {} calls = some sheet) :
    (∀ r, counterAt sheet.row_elem_count_ r = sheet.cellsInRow r) ∧
      (∀ c, counterAt sheet.col_elem_count_ c = sheet.cellsInCol c) ∧
      sheet.positions.Nodup ∧
      ∃ size, sheet.GetPrintableSize = .ok size ∧
        (sheet.positions = [] → size = ⟨0, 0⟩) ∧
        (sheet.positions ≠ [] →
          (∃ p ∈ sheet.positions, size.rows = 1 + p.row) ∧
          (∀ p ∈ sheet.positions, 1 + p.row ≤ size.rows) ∧
          (∃ p ∈ sheet.positions, size.cols = 1 + p.col) ∧
          (∀ p ∈ sheet.positions, 1 + p.col ≤ size.cols)) := by
  have hex := Sheet.exact_run L calls {} sheet Sheet.exact_empty h
  exact ⟨hex.1, hex.2.1, hex.2.2.2.2, Sheet.GetPrintableSize_exact sheet hex⟩

/-- C8 at the claim's witness: `SetCell(A1, "x")`, `SetCell(C3, "y")` return and give the
printable size `{3, 3}`; `ClearCell(C3)` then gives `{1, 1}` and `ClearCell(A1)`
`{0, 0}`. -/
theorem C8_printable_size_witness :
    Sheet.run stdLib {} [.SetCell A1 "x", .SetCell C3 "y"] = some scenario6 ∧
    ((∀ r, counterAt scenario6.row_elem_count_ r = scenario6.cellsInRow r) ∧
      (∀ c, counterAt scenario6.col_elem_count_ c = scenario6.cellsInCol c) ∧
      scenario6.positions.Nodup ∧
      ∃ size, scenario6.GetPrintableSize = .ok size ∧
        (scenario6.positions = [] → size = ⟨0, 0⟩) ∧
        (scenario6.positions ≠ [] →
          (∃ p ∈ scenario6.positions, size.rows = 1 + p.row) ∧
          (∀ p ∈ scenario6.positions, 1 + p.row ≤ size.rows) ∧
          (∃ p ∈ scenario6.positions, size.cols = 1 + p.col) ∧
          (∀ p ∈ scenario6.positions, 1 + p.col ≤ size.cols))) ∧
    scenario6.GetPrintableSize = .ok ⟨3, 3⟩ ∧
    (Sheet.run stdLib {} [.SetCell A1 "x", .SetCell C3 "y", .ClearCell C3]).map
        Sheet.GetPrintableSize = some (.ok ⟨1, 1⟩) ∧
    (Sheet.run stdLib {} [.SetCell A1 "x", .SetCell C3 "y", .ClearCell C3, .ClearCell A1]).map
        Sheet.GetPrintableSize = some (.ok ⟨0, 0⟩) :=
  ⟨by decide!,
    C8_printable_size stdLib [.SetCell A1 "x", .SetCell C3 "y"] scenario6 (by decide!),
    by decide!, by decide!, by decide!⟩

/-- C9: after a successful `SetCell(p, text)` with a formula `text` (at least two
characters, the first `=`), the cell at `p` lives and for every position `q` of its
`GetReferencedCells()`: `GetCell(q)` gives a cell, `p` is in the `dependent_cells_` of
that cell and `q` in the `referenced_cells_` of the cell at `p`; and when `q` held no
cell before the call, the cell now at `q` is empty (text `""`, no formula) and the
formula lookup of `q` reads it as 0. -/
theorem C9_referenced_cells_linked (L : Lib) (sheet after : Sheet) (p : Position)
    (text : String) (hlen : 2 ≤ text.length) (hsign : charAt text 0 = FORMULA_SIGN)
    (h : Sheet.SetCell L p text sheet = (.ok (), after)) :
    ∃ cp, after.deref p = some cp ∧
      ∀ q ∈ cp.GetReferencedCells L,
        ∃ cq, after.GetCell L q = .ok (some q) ∧ after.deref q = some cq ∧
          p ∈ cq.dependent_cells_ ∧ q ∈ cp.referenced_cells_ ∧
          (sheet.deref q = none →
            cq.text_ = "" ∧ cq.cell_value_ = none ∧
              Formula.Evaluate.args L (Cell.GetValue L) q after = (.ok 0, after)) := by
  obtain ⟨_, sheet0, sheet1, h0, hset, hafter, _⟩ :=
    Sheet.SetCellWith_ok L (Sheet.SetCellN L 1) p text sheet after h
  have hS := Sheet.SetCellN_materializes L 0
  obtain ⟨f, _, hnot, ⟨c, hc, _, hv⟩, hl⟩ :=
    Cell.Set_formula_spec L _ hS p text sheet0 sheet1 hlen
      ((Cell.IsText_eq_false text).2 hsign) hset
  have hk := Sheet.kept_off_of_steps (Cell.Set_steps L _ hS p text sheet0)
  rw [hset] at hk
  dsimp only at hk
  refine ⟨c, by rw [hafter p, hc], fun q hq => ?_⟩
  have hrefs : c.GetReferencedCells L = f.GetReferencedCells L := by
    unfold Cell.GetReferencedCells
    rw [hv]
  rw [hrefs] at hq
  have hqv := Formula.GetReferencedCells_valid L f q hq
  obtain ⟨cq, ct, hcq, hct, hdep, href⟩ := hl q hq
  rw [hc] at hct
  cases hct
  have hcq2 : after.deref q = some cq := by rw [hafter q, hcq]
  have hget : after.GetCell L q = .ok (some q) := by
    rw [Sheet.GetCell_valid L after q hqv, hcq2]
    rfl
  refine ⟨cq, hget, hcq2, hdep, href, fun hnone => ?_⟩
  have hqp : q ≠ p := fun heq => hnot (heq ▸ hq)
  have hempty := (hk q hqp).2 (by rw [h0 q hqp, hnone]) cq hcq
  refine ⟨hempty.1, hempty.2, ?_⟩
  unfold Formula.Evaluate.args
  simp only [hqv, Bool.not_true, Bool.false_eq_true, if_false, hget,
    Cell.GetValue_of_empty L q after cq hcq2 hempty.1]
  rfl

/-- C9 at the claim's witness: on the empty sheet `SetCell(A1, "=B5")` succeeds; A1 then
lists B5, B5 holds an empty cell with A1 among its dependents, and A1 evaluates to 0. -/
theorem C9_referenced_cells_linked_witness :
    (2 ≤ "=B5".length ∧ charAt "=B5" 0 = FORMULA_SIGN ∧
      Sheet.SetCell stdLib A1 "=B5" {} = (.ok (), (Sheet.SetCell stdLib A1 "=B5" {}).2)) ∧
    (∃ cp, (Sheet.SetCell stdLib A1 "=B5" {}).2.deref A1 = some cp ∧
      ∀ q ∈ cp.GetReferencedCells stdLib,
        ∃ cq, (Sheet.SetCell stdLib A1 "=B5" {}).2.GetCell stdLib q = .ok (some q) ∧
          (Sheet.SetCell stdLib A1 "=B5" {}).2.deref q = some cq ∧
          A1 ∈ cq.dependent_cells_ ∧ q ∈ cp.referenced_cells_ ∧
          ((({} : Sheet)).deref q = none →
            cq.text_ = "" ∧ cq.cell_value_ = none ∧
              Formula.Evaluate.args stdLib (Cell.GetValue stdLib) q
                  (Sheet.SetCell stdLib A1 "=B5" {}).2
                = (.ok 0, (Sheet.SetCell stdLib A1 "=B5" {}).2))) ∧
    (Sheet.SetCell stdLib A1 "=B5" {}).2.referencesAt stdLib A1 = some [B5] ∧
    (Sheet.SetCell stdLib A1 "=B5" {}).2.adjacency B5 = some ([], [A1]) ∧
    (Cell.GetValue stdLib A1 (Sheet.SetCell stdLib A1 "=B5" {}).2).1 = .ok (.number 0) :=
  ⟨⟨by decide, by decide, by decide!⟩,
    C9_referenced_cells_linked stdLib {} (Sheet.SetCell stdLib A1 "=B5" {}).2 A1 "=B5"
      (by decide) (by decide) (by decide!),
    by decide!, by decide!, by decide!⟩

/-- C10, the code on a failing input: on the empty sheet `SetCell(A1, "=")` succeeds and
stores the text "=" without a formula, `IsFormula()` is nevertheless true of that cell,
and `GetValue` dereferences the null `cell_value_`.  When A1 held the formula `=1` and
had been read, `SetCell(A1, "=")` succeeds as well and `GetValue` returns the number 1
left in the cache. -/
theorem C10_lone_sign_GetValue_null :
    (Sheet.SetCell stdLib A1 "=" {}).1 = .ok () ∧
      (Sheet.SetCell stdLib A1 "=" {}).2.textAt A1 = some "=" ∧
      ((Sheet.SetCell stdLib A1 "=" {}).2.deref A1).map Cell.cell_value_ = some none ∧
      ((Sheet.SetCell stdLib A1 "=" {}).2.deref A1).map Cell.IsFormula = some true ∧
      (Cell.GetValue stdLib A1 (Sheet.SetCell stdLib A1 "=" {}).2).1 = .error .NullPointer ∧
      (Sheet.SetCell stdLib A1 "=" cachedOne).1 = .ok () ∧
      (Sheet.SetCell stdLib A1 "=" cachedOne).2.textAt A1 = some "=" ∧
      (Cell.GetValue stdLib A1 (Sheet.SetCell stdLib A1 "=" cachedOne).2).1
        = .ok (.number 1) := by
  decide!

/-- C11, the code on a failing input: A1 holds the formula `=1` with a populated cache;
`SetCell` of A1 with the escape sign followed by `7` succeeds, and right after it
`GetText()` is that input and `GetValue()` is the string "7", as claimed. Then
`SetCell(A1, "=(")` fails with `FormulaException`: the last successful input of the cell
is still the escaped text, but `GetText()` and `GetValue()` of A1 now give the empty
string. -/
theorem C11_failed_SetCell_loses_text :
    (cachedOne.deref A1).map Cell.HasCache = some true ∧
      (Sheet.SetCell stdLib A1 (String.mk [ESCAPE_SIGN, '7']) cachedOne).1 = .ok () ∧
      quotedSeven.textAt A1 = some (String.mk [ESCAPE_SIGN, '7']) ∧
      (Cell.GetValue stdLib A1 quotedSeven).1 = .ok (.text "7") ∧
      (Sheet.SetCell stdLib A1 "=(" quotedSeven).1 = .error .FormulaException ∧
      (Sheet.SetCell stdLib A1 "=(" quotedSeven).2.textAt A1 = some "" ∧
      (Cell.GetValue stdLib A1 (Sheet.SetCell stdLib A1 "=(" quotedSeven).2).1
        = .ok (.text "") := by
  decide!

/-- C12, the code on failing inputs: with the text "7" at B1 the formula `=B1+1` at B2
evaluates to 8 and with "7a" to the error `Value`, as claimed; but with "7.5" it
evaluates to `Value`, not 8.5, and with "-7a" it evaluates to -6, not `Value`. The sign-led
decimal "-7.5" is read as a number (result -6.5). -/
theorem C12_text_operand_coercion :
    (Cell.GetValue stdLib B2 (coercion "7")).1 = .ok (.number 8) ∧
      (Cell.GetValue stdLib B2 (coercion "7a")).1 = .ok (.error ⟨.Value⟩) ∧
      (Cell.GetValue stdLib B1 (coercion "7.5")).1 = .ok (.text "7.5") ∧
      (Cell.GetValue stdLib B2 (coercion "7.5")).1 = .ok (.error ⟨.Value⟩) ∧
      (Cell.GetValue stdLib B1 (coercion "-7a")).1 = .ok (.text "-7a") ∧
      (Cell.GetValue stdLib B2 (coercion "-7a")).1 = .ok (.number (-6)) ∧
      (Cell.GetValue stdLib B2 (coercion "-7.5")).1 = .ok (.number (-13 / 2)) := by
  decide!

/-- C13, the code on a failing input: on the empty sheet `SetCell(D1, "=ZZZZ9999999")`
succeeds, the formula stored at D1 references a position that is not valid and lists no
referenced cell, and `GetValue` of D1 does not return the error `Ref`: the bare
`FormulaError::Category::Ref` thrown by the cell lookup escapes `Formula::Evaluate`. -/
theorem C13_Ref_escapes_Evaluate :
    (Sheet.SetCell stdLib D1 "=ZZZZ9999999" {}).1 = .ok () ∧
      ((Sheet.SetCell stdLib D1 "=ZZZZ9999999" {}).2.deref D1).map
          (fun c => c.cell_value_.map (fun f => f.ast_.GetCells.map (Position.IsValid stdLib)))
        = some (some [false]) ∧
      (Sheet.SetCell stdLib D1 "=ZZZZ9999999" {}).2.referencesAt stdLib D1 = some [] ∧
      (Cell.GetValue stdLib D1 (Sheet.SetCell stdLib D1 "=ZZZZ9999999" {}).2).1
        = .error (.ThrownCategory .Ref) ∧
      ((Sheet.SetCell stdLib D1 "=ZZZZ9999999" {}).2.deref D1).map
          (fun c => c.cell_value_.map (fun f =>
            (f.Evaluate stdLib (Cell.GetValue stdLib)
              (Sheet.SetCell stdLib D1 "=ZZZZ9999999" {}).2).1))
        = some (some (.error (.ThrownCategory .Ref))) := by
  decide!

/-- C14, the code on failing inputs: the stream operator writes `#DIV/0!` for an error of
category `Ref` and for one of category `Value`; with the text "7a" at B1 and `=B1+1` at
B2 the value of B2 is the error `Value` and `PrintValues` writes `#DIV/0!` for it. -/
theorem C14_every_error_prints_DIV0 :
    FormulaError.print ⟨.Ref⟩ = "#DIV/0!" ∧
      FormulaError.print ⟨.Value⟩ = "#DIV/0!" ∧
      FormulaError.print ⟨.Div0⟩ = "#DIV/0!" ∧
      (Cell.GetValue stdLib B2 (coercion "7a")).1 = .ok (.error ⟨.Value⟩) ∧
      (Sheet.PrintValues stdLib printNumber (coercion "7a")).1
        = .ok (String.mk [Char.ofNat 9, '7', 'a', Char.ofNat 10,
            Char.ofNat 9, '#', 'D', 'I', 'V', '/', '0', '!', Char.ofNat 10]) := by
  decide!

/-- C15, the code on a failing input: A1 = "2" and A2 = "=A1+3" are set, so A1 has the
successor A2; `ClearCell(A1)` returns and afterwards no cell is stored at A1, while A2
still has A1 in its predecessor set; the next `SetCell` on A2 dereferences that pointer
to the removed cell. -/
theorem C15_ClearCell_erases_cell :
    (Sheet.afterSets stdLib {} [(A1, "2"), (A2, "=A1+3")]).adjacency A1 = some ([], [A2]) ∧
      (Sheet.ClearCell stdLib A1 (Sheet.afterSets stdLib {} [(A1, "2"), (A2, "=A1+3")])).1
        = .ok () ∧
      clearedA1.deref A1 = none ∧
      clearedA1.GetCell stdLib A1 = .ok none ∧
      clearedA1.adjacency A2 = some ([A1], []) ∧
      (Sheet.SetCell stdLib A2 "=5" clearedA1).1 = .error .DanglingPointer := by
  decide!

/-- C16: for every formula, the list `GetReferencedCells()` returns is strictly increasing
in the order of `Position` (so sorted and without duplicates), and a position is in it
exactly when it occurs among the referenced cells of the tree, `ast_.GetCells()`, and
`IsValid()` holds of it. -/
theorem C16_GetReferencedCells_sorted_valid (L : Lib) (f : Formula) :
    (f.GetReferencedCells L).Pairwise (fun a b => a.lt b = true) ∧
      (f.GetReferencedCells L).Nodup ∧
      ∀ q, q ∈ f.GetReferencedCells L ↔ q ∈ f.ast_.GetCells ∧ q.IsValid L = true := by
  obtain ⟨h1, h2⟩ := Formula.GetReferencedCells_fold L f.ast_.GetCells [] List.Pairwise.nil
  refine ⟨h1, ?_, fun q => ?_⟩
  · refine List.Pairwise.imp ?_ h1
    intro a b hab heq
    subst heq
    unfold Position.lt at hab
    simp at hab
  · unfold Formula.GetReferencedCells
    rw [h2 q]
    simp

/-- C17, the code on failing inputs: on the empty sheet `SetCell(A1, "=(")` throws
`FormulaException` and `SetCell(A2, "=A2")` throws `CircularDependencyException`; each
leaves a cell at its position, but both counter maps stay empty, the cell at A2 has the
text "=A2" and no formula, and the printable size is `{1, 1}` although A2 is in row 1. -/
theorem C17_throw_leaves_cell_uncounted :
    (Sheet.SetCell stdLib A1 "=(" {}).1 = .error .FormulaException ∧
      (Sheet.SetCell stdLib A1 "=(" {}).2.textAt A1 = some "" ∧
      (Sheet.SetCell stdLib A1 "=(" {}).2.row_elem_count_ = [] ∧
      (Sheet.SetCell stdLib A1 "=(" {}).2.col_elem_count_ = [] ∧
      (Sheet.SetCell stdLib A2 "=A2" {}).1 = .error .CircularDependencyException ∧
      (Sheet.SetCell stdLib A2 "=A2" {}).2.textAt A2 = some "=A2" ∧
      ((Sheet.SetCell stdLib A2 "=A2" {}).2.deref A2).map Cell.cell_value_ = some none ∧
      (Sheet.SetCell stdLib A2 "=A2" {}).2.row_elem_count_ = [] ∧
      (Sheet.SetCell stdLib A2 "=A2" {}).2.col_elem_count_ = [] ∧
      (Sheet.SetCell stdLib A2 "=A2" {}).2.GetPrintableSize = .ok ⟨1, 1⟩ := by
  decide!

/-- C18, the code on failing inputs: after A1 = "2", A2 = "=A1+3" and `ClearCell(A1)`
the stored cell A2 names the removed cell A1 in its predecessor set; and after scenario 1
and the throwing `SetCell(A1, "=A3")` the cell A1 has A2 in its predecessor set while A1
is not in the successor set of A2. -/
theorem C18_adjacency_not_symmetric :
    clearedA1.deref A1 = none ∧
      clearedA1.adjacency A2 = some ([A1], []) ∧
      (Sheet.SetCell stdLib A1 "=A3" scenario1).1 = .error .CircularDependencyException ∧
      (Sheet.SetCell stdLib A1 "=A3" scenario1).2.adjacency A1 = some ([A2], []) ∧
      (Sheet.SetCell stdLib A1 "=A3" scenario1).2.adjacency A2 = some ([A1], [A3]) := by
  decide!

/-- C19: on a sheet whose dependent edges all point at stored cells, for a stored cell
`this` and a list `R` of valid positions, `FindCircularDependency(R)` called on `this`
returns a boolean, and it returns true if and only if a cell stored at a position of `R`
is `this` itself or is reached from `this` by following `dependent_cells_` edges. -/
theorem C19_FindCircularDependency_reachability (L : Lib) (this : Position)
    (R : List Position) (sheet : Sheet)
    (hthis : (sheet.deref this).isSome = true) (hclosed : sheet.Closed)
    (hvalid : ∀ q ∈ R, q.IsValid L = true) :
    ∃ b, Cell.FindCircularDependency L this R sheet = .ok b ∧
      (b = true ↔ ∃ r ∈ R, (sheet.deref r).isSome = true ∧ sheet.Reach this r) := by
  obtain ⟨rc, hrc⟩ := Cell.FindCircularDependency.refs_ok L sheet R hvalid []
  have hrun : Cell.FindCircularDependency L this R sheet
      = Cell.FindCircularDependency.loop sheet rc (Cell.FindCircularDependency.budget sheet)
          [this] [] := by
    unfold Cell.FindCircularDependency
    rw [hrc]
  rw [hrun]
  have hlive : ∀ v ∈ [this], (sheet.deref v).isSome = true := by
    intro v hv
    rw [List.mem_singleton] at hv
    rw [hv]
    exact hthis
  cases hres : Cell.FindCircularDependency.loop sheet rc
      (Cell.FindCircularDependency.budget sheet) [this] [] with
  | error x =>
    have hx := Cell.FindCircularDependency.loop_error sheet rc hclosed _ _ _ hlive x hres
    rw [hx] at hres
    exact absurd hres (Cell.FindCircularDependency.loop_budget sheet rc this)
  | ok b =>
    refine ⟨b, rfl, ?_⟩
    cases b with
    | true =>
      refine ⟨fun _ => ?_, fun _ => rfl⟩
      obtain ⟨r, hr, hreach⟩ := Cell.FindCircularDependency.loop_sound sheet rc this _ _ _
        (fun v hv => by
          rw [List.mem_singleton] at hv
          rw [hv]
          exact Relation.ReflTransGen.refl) hres
      rcases Cell.FindCircularDependency.refs_sub L sheet R [] rc hrc r hr with h1 | h1
      · exact absurd h1 (List.not_mem_nil _)
      · exact ⟨r, h1.1, h1.2, hreach⟩
    | false =>
      refine ⟨fun h => Bool.noConfusion h, fun h => ?_⟩
      obtain ⟨r, hrR, hrlive, hreach⟩ := h
      obtain ⟨E, hs, _, hE⟩ := Cell.FindCircularDependency.loop_complete sheet rc _ _ _
        (fun v hv => absurd hv (List.not_mem_nil v)) hres
      have hrE : r ∈ E := Sheet.reach_closed sheet E (fun v hv => (hE v hv).2) this r
        (hs this (List.mem_singleton_self this)) hreach
      have hin := (Cell.FindCircularDependency.refs_mem L sheet R [] rc hrc).2 r hrR hrlive
      have hno := (hE r hrE).1
      have : rc.contains (some r) = true := by simpa using hin
      rw [this] at hno
      cases hno

/-- The search of C19 on the arithmetic chain of scenario 1, from A1 for the position A3:
A3 is reached from A1 through A2, and the search returns true. -/
theorem C19_FindCircularDependency_reachability_witness :
    ((scenario1.deref A1).isSome = true ∧ scenario1.Closed ∧
      ∀ q ∈ [A3], q.IsValid stdLib = true) ∧
    ∃ b, Cell.FindCircularDependency stdLib A1 [A3] scenario1 = .ok b ∧
      (b = true ↔ ∃ r ∈ [A3], (scenario1.deref r).isSome = true ∧ scenario1.Reach A1 r) :=
  ⟨⟨by decide!, by unfold Sheet.Closed; decide!, by decide!⟩,
    C19_FindCircularDependency_reachability stdLib A1 [A3] scenario1
      (by decide!) (by unfold Sheet.Closed; decide!) (by decide!)⟩

/-- C20: on every sheet and from every cell, also when the dependent edges contain a
cycle, `FindCircularDependency` does not run out of the loop budget of the model, and its
search loop gives the same result with any larger budget: the loop performs finitely many
iterations, at most `budget sheet`.  On the sheet where A1 and A2 are each a dependent of
the other, the search from A1 returns false for A3 and true for A2. -/
theorem C20_FindCircularDependency_terminates (L : Lib) (this : Position)
    (ref : List Position) (sheet : Sheet) :
    Cell.FindCircularDependency L this ref sheet ≠ .error .OutOfFuel ∧
      (∀ (rc : List (Option Position)) (more : Nat),
        Cell.FindCircularDependency.loop sheet rc (Cell.FindCircularDependency.budget sheet)
            [this] [] ≠ .error .OutOfFuel ∧
          Cell.FindCircularDependency.loop sheet rc
              (Cell.FindCircularDependency.budget sheet + more) [this] []
            = Cell.FindCircularDependency.loop sheet rc
                (Cell.FindCircularDependency.budget sheet) [this] []) ∧
      Cell.FindCircularDependency stdLib A1 [A3] cyclicSheet = .ok false ∧
      Cell.FindCircularDependency stdLib A1 [A2] cyclicSheet = .ok true := by
  refine ⟨?_, fun rc more => ?_, by decide!, by decide!⟩
  · unfold Cell.FindCircularDependency
    cases h : Cell.FindCircularDependency.refs L sheet ref [] with
    | error x =>
      have := Cell.FindCircularDependency.refs_error L sheet ref [] x h
      rw [this]
      simp
    | ok rc => exact Cell.FindCircularDependency.loop_budget sheet rc this
  · have h := Cell.FindCircularDependency.loop_budget sheet rc this
    exact ⟨h, Cell.FindCircularDependency.loop_fuel sheet rc _ _ _ h more⟩

end Spreadsheet
